import Mathlib

/-!
# Scene-graph transforms and rotation keyframes of the skinning viewer

Shallow embedding of `src/skinning/mtl/src/document.h` and
`src/skinning/mtl/src/document.cpp` (namespace `Skinning`), with the helpers
of `src/pbr/d3d/src/d3d_helper.h` (namespace `Pbr`) and `clamp` of
`src/ray_tracing/source/rtweekend.h` (namespace `RayTracing`).

Conventions of the embedding

* `float` and `double` values are the rational numbers they denote (every
  finite float is a rational).  Comparisons and `fmod` are exact on floats, so
  the keyframe search is modelled exactly; `+`, `*`, `/` and the narrowing
  casts are modelled without rounding.  The only non-finite value that the
  code can produce from finite inputs on the paths modelled here is the NaN
  of `fmod(x, 0)`, which is `none` in `fmod`.  `clamp` of the ray tracer
  takes any `double`; its arguments are of the type `RayTracing.Double`, which
  has NaN and the two infinities next to the rationals.
* Pointers into `nodes_`, `skins_`, `meshes_` and into an animation's
  `samplers` are indices into the corresponding list; `nullptr` is `none`.
* Recursion through pointers (`CalcModelMatrix`, `Render`) takes a fuel
  argument; `none` means the fuel ran out (or a pointer left the vector).
* Behaviour that C++ leaves undefined, and a failed `assert`, are results
  `Except.error` with a `Fault` that names the cause.
  The definitions whose names end in `_NDEBUG` are the same code compiled
  with `NDEBUG`, where `assert` expands to nothing.
* `matrix_multiply`, `simd_matrix` are the Apple simd operations on
  column-major 4x4 matrices: the mathematical product and the matrix with the
  given columns.  `simd_matrix4x4` (quaternion to matrix), `simd_slerp` and
  `simd_inverse` are taken as parameters (`SimdLib`).
-/

namespace Skinning

/-! ## simd value types -/

abbrev simd_float3 := Fin 3 → ℚ

abbrev simd_float4 := Fin 4 → ℚ

abbrev simd_float4x4 := Matrix (Fin 4) (Fin 4) ℚ

/-- A quaternion as `simd_quaternion(ix, iy, iz, r)` stores it. -/
structure simd_quatf where
  ix : ℚ
  iy : ℚ
  iz : ℚ
  r : ℚ
deriving DecidableEq

/-- The simd functions the document code calls but does not define. -/
structure SimdLib where
  simd_matrix4x4 : simd_quatf → simd_float4x4
  simd_slerp : simd_quatf → simd_quatf → ℚ → simd_quatf
  simd_inverse : simd_float4x4 → simd_float4x4

def simd_make_float3 (x y z : ℚ) : simd_float3 := ![x, y, z]

def simd_make_float4 (x y z w : ℚ) : simd_float4 := ![x, y, z, w]

/-- The matrix whose columns are `c0 .. c3`. -/
def simd_matrix (c0 c1 c2 c3 : simd_float4) : simd_float4x4 :=
  Matrix.of fun i j => (![c0, c1, c2, c3] j) i

def matrix_multiply (a b : simd_float4x4) : simd_float4x4 := a * b

/-- Lines 28-33 of document.cpp. -/
def simd_translation_matrix (translation : simd_float3) : simd_float4x4 :=
  simd_matrix (simd_make_float4 1 0 0 0)
              (simd_make_float4 0 1 0 0)
              (simd_make_float4 0 0 1 0)
              (simd_make_float4 (translation 0) (translation 1) (translation 2) 1)

/-- Lines 37-42 of document.cpp. -/
def simd_scale_matrix (scale : simd_float3) : simd_float4x4 :=
  simd_matrix (simd_make_float4 (scale 0) 0 0 0)
              (simd_make_float4 0 (scale 1) 0 0)
              (simd_make_float4 0 0 (scale 2) 0)
              (simd_make_float4 0 0 0 1)

/-- Lines 46-64 of document.cpp: sixteen consecutive values starting at
`off`, four per column.  `none` when one of the reads is outside `data`. -/
def simd_make_matrix (data : List ℚ) (off : Nat) : Option simd_float4x4 :=
  if off + 16 ≤ data.length then
    some (simd_matrix
      (simd_make_float4 (data.getD (off + 4 * 0 + 0) 0) (data.getD (off + 4 * 0 + 1) 0)
                        (data.getD (off + 4 * 0 + 2) 0) (data.getD (off + 4 * 0 + 3) 0))
      (simd_make_float4 (data.getD (off + 4 * 1 + 0) 0) (data.getD (off + 4 * 1 + 1) 0)
                        (data.getD (off + 4 * 1 + 2) 0) (data.getD (off + 4 * 1 + 3) 0))
      (simd_make_float4 (data.getD (off + 4 * 2 + 0) 0) (data.getD (off + 4 * 2 + 1) 0)
                        (data.getD (off + 4 * 2 + 2) 0) (data.getD (off + 4 * 2 + 3) 0))
      (simd_make_float4 (data.getD (off + 4 * 3 + 0) 0) (data.getD (off + 4 * 3 + 1) 0)
                        (data.getD (off + 4 * 3 + 2) 0) (data.getD (off + 4 * 3 + 3) 0)))
  else none

/-! ## Data model (document.h) -/

structure Primitive where
  vertex_buffer : Nat
  index_buffer : Nat
  draw_count : Nat
deriving DecidableEq

structure Mesh where
  name : String
  primitives : List Primitive
deriving DecidableEq

structure Node where
  name : String
  skin : Option Nat
  mesh : Option Nat
  parent : Option Nat
  children : List Nat
  rotation : simd_quatf
  scale : simd_float3
  translation : simd_float3
  matrix : simd_float4x4

/-- The skin as document.cpp uses it (`inverse_bind_matrices`, one per
joint; document.h still declares the single `inverse_bind_matrix`). -/
structure Skin where
  name : String
  inverse_bind_matrices : List simd_float4x4
  skeleton : Option Nat
  joints : List Nat

structure Scene where
  name : String
  nodes : List Nat

/-- `values` is the byte buffer seen through the `float*` the code casts it
to: entry `k` is the float at bytes `4k .. 4k+3`. -/
structure Sampler where
  times : List ℚ
  values : List ℚ
deriving DecidableEq

structure Channel where
  sampler : Nat
  target : Nat
  path : String
deriving DecidableEq

structure Animation where
  name : String
  samplers : List Sampler
  channels : List Channel
  time : ℚ
deriving DecidableEq

structure Document where
  meshes_ : List Mesh
  nodes_ : List Node
  skins_ : List Skin
  scenes_ : List Scene
  animations_ : List Animation

/-! ## Hierarchy transform composition -/

/-- Lines 85-91 of document.cpp.  `node` is an index into `nodes`. -/
def CalcModelMatrix (nodes : List Node) : Nat → Nat → Option simd_float4x4
  | 0, _ => none
  | fuel + 1, node =>
    match nodes[node]? with
    | none => none
    | some n =>
      match n.parent with
      | none => some n.matrix
      | some parent =>
        match CalcModelMatrix nodes fuel parent with
        | none => none
        | some m => some (matrix_multiply m n.matrix)

/-- Lines 95-99 of document.cpp. -/
def UpdateMatrix (simd : SimdLib) (node : Node) : Node :=
  let node := { node with matrix := simd_translation_matrix node.translation }
  let node := { node with matrix := matrix_multiply node.matrix (simd.simd_matrix4x4 node.rotation) }
  { node with matrix := matrix_multiply node.matrix (simd_scale_matrix node.scale) }

/-- The list `chain` of node indices is an ancestor chain listed from the
top: the first entry has parent `above`, each later entry has the entry
before it as parent, and every entry is a node of `nodes`. -/
def isAncestorChain (nodes : List Node) : Option Nat → List Nat → Bool
  | _, [] => true
  | above, c :: rest =>
    (match nodes[c]? with
     | some n => decide (n.parent = above)
     | none => false) && isAncestorChain nodes (some c) rest

/-- The local matrices of the nodes with the given indices, in order. -/
def localMatrices (nodes : List Node) (chain : List Nat) : List simd_float4x4 :=
  chain.filterMap fun i => (nodes[i]?).map Node.matrix


/-! ## Faults -/

/-- Ways in which the modelled code leaves defined behaviour. -/
inductive Fault where
  /-- `assert(false && "Only the rotation path is supported.")` -/
  | UnsupportedPath
  /-- An element access outside a vector or buffer. -/
  | OutOfRange
  /-- The local `rotation` of `Update` is read without having been assigned. -/
  | UnassignedRotation
deriving DecidableEq

/-! ## Building the nodes (constructor, lines 237-296) -/

/-- The members of `tinygltf::Node` that the constructor reads. -/
structure GltfNode where
  name : String
  skin : Int
  mesh : Int
  children : List Int
  rotation : List ℚ
  scale : List ℚ
  translation : List ℚ
  matrix : List ℚ

/-- Conversion of an `int` index to `size_t`. -/
def to_size_t (j : Int) : Nat := (j % 2 ^ 64).toNat

/-- A value-initialised `Node`, as `nodes_.resize` creates it. -/
def Node.zero : Node :=
  { name := "", skin := none, mesh := none, parent := none, children := [],
    rotation := ⟨0, 0, 0, 0⟩, scale := 0, translation := 0, matrix := 0 }

/-- `simd_quaternion(0.0f, axis)`: the angle-axis quaternion
`(axis * sin(angle / 2), cos(angle / 2))` at angle zero. -/
def simd_quaternion_zero_angle : simd_quatf := ⟨0, 0, 0, 1⟩

/-- A write through `&nodes[i]`. -/
def writeNode (nodes : List Node) (i : Nat) (f : Node → Node) : Except Fault (List Node) :=
  match nodes[i]? with
  | some n => .ok (nodes.set i (f n))
  | none => .error .OutOfRange

/-- Lines 256-258: `for (auto& child : nodes_[i].children) child->parent = &nodes_[i];` -/
def setParents (i : Nat) : List Nat → List Node → Except Fault (List Node)
  | [], nodes => .ok nodes
  | child :: rest, nodes =>
    match writeNode nodes child (fun n => { n with parent := some i }) with
    | .ok nodes => setParents i rest nodes
    | .error e => .error e

/-- Lines 261-268. -/
def loadRotation (g : GltfNode) : Except Fault simd_quatf :=
  if !g.rotation.isEmpty then
    match g.rotation[0]?, g.rotation[1]?, g.rotation[2]?, g.rotation[3]? with
    | some x, some y, some z, some w => .ok ⟨x, y, z, w⟩
    | _, _, _, _ => .error .OutOfRange
  else .ok simd_quaternion_zero_angle

/-- Lines 271-278 (with `dflt = 1`) and 281-288 (with `dflt = 0`). -/
def loadFloat3 (v : List ℚ) (dflt : ℚ) : Except Fault simd_float3 :=
  if !v.isEmpty then
    match v[0]?, v[1]?, v[2]? with
    | some x, some y, some z => .ok (simd_make_float3 x y z)
    | _, _, _ => .error .OutOfRange
  else .ok (simd_make_float3 dflt dflt dflt)

/-- Lines 291-295: the explicit matrix if there is one, else `UpdateMatrix`. -/
def loadMatrix (simd : SimdLib) (g : GltfNode) (n : Node) : Except Fault Node :=
  if !g.matrix.isEmpty then
    match simd_make_matrix g.matrix 0 with
    | some m => .ok { n with matrix := m }
    | none => .error .OutOfRange
  else .ok (UpdateMatrix simd n)

/-- One iteration of the loop of lines 237-296, for index `i`. -/
def buildNode (simd : SimdLib) (g : GltfNode) (i : Nat) (nodes : List Node) :
    Except Fault (List Node) :=
  match writeNode nodes i (fun n =>
      { n with
        name := g.name
        skin := if 0 ≤ g.skin then some (to_size_t g.skin) else n.skin
        mesh := if 0 ≤ g.mesh then some (to_size_t g.mesh) else n.mesh
        children := n.children ++ g.children.map to_size_t }) with
  | .error e => .error e
  | .ok nodes =>
    match nodes[i]? with
    | none => .error .OutOfRange
    | some n =>
      match setParents i n.children nodes with
      | .error e => .error e
      | .ok nodes =>
        match loadRotation g, loadFloat3 g.scale 1, loadFloat3 g.translation 0 with
        | .ok r, .ok s, .ok t =>
          match nodes[i]? with
          | none => .error .OutOfRange
          | some n =>
            match loadMatrix simd g { n with rotation := r, scale := s, translation := t } with
            | .ok n => .ok (nodes.set i n)
            | .error e => .error e
        | _, _, _ => .error .OutOfRange

/-- The loop of lines 237-296 from index `i` on. -/
def buildNodesFrom (simd : SimdLib) : List GltfNode → Nat → List Node → Except Fault (List Node)
  | [], _, nodes => .ok nodes
  | g :: rest, i, nodes =>
    match buildNode simd g i nodes with
    | .ok nodes => buildNodesFrom simd rest (i + 1) nodes
    | .error e => .error e

/-- `nodes_.resize(model.nodes.size())` followed by the loop of lines 237-296. -/
def buildNodes (simd : SimdLib) (model_nodes : List GltfNode) : Except Fault (List Node) :=
  buildNodesFrom simd model_nodes 0 (List.replicate model_nodes.length Node.zero)

/-- The matrix `UpdateMatrix` composes from a node's translation, rotation
and scale. -/
def composedMatrix (simd : SimdLib) (n : Node) : simd_float4x4 :=
  simd_translation_matrix n.translation * simd.simd_matrix4x4 n.rotation
    * simd_scale_matrix n.scale

/-- Two nodes agree on the four fields of the local transform. -/
def sameLocal (a b : Node) : Prop :=
  a.rotation = b.rotation ∧ a.scale = b.scale ∧ a.translation = b.translation
    ∧ a.matrix = b.matrix

/-! ## Animation sampling (Document::Update, lines 466-470 and 519-569) -/

/-- Rounding of a quotient toward zero. -/
def truncQ (q : ℚ) : ℤ := if 0 ≤ q then ⌊q⌋ else ⌈q⌉

/-- The C library `fmod`: `x - n * y` with `n` the quotient `x / y` rounded
toward zero; the NaN of `fmod(x, 0)` is `none`. -/
def fmod (x y : ℚ) : Option ℚ :=
  if y = 0 then none else some (x - truncQ (x / y) * y)

/-- Lines 529-535: the time at which the sampler is read.  `times.front()`
and `times.back()` of an empty vector are undefined. -/
def adjustTime (times : List ℚ) (time : ℚ) : Except Fault (Option ℚ) :=
  match times.head?, times.getLast? with
  | some front, some back =>
    let time := if time < front then front else time
    .ok (fmod time back)
  | _, _ => .error .OutOfRange

/-- The loop of lines 538-559 from index `i` on: the first `i` with
`times[i - 1] <= time && time < times[i]`.  The loop ends when `i` reaches
`times.size()`, which is when `times[i]?` is `none`; `fuel = times.length`
iterations are enough. -/
def findInterval (times : List ℚ) (time : ℚ) : Nat → Nat → Option Nat
  | 0, _ => none
  | fuel + 1, i =>
    match times[i - 1]?, times[i]? with
    | some lo, some hi =>
      if lo ≤ time ∧ time < hi then some i else findInterval times time fuel (i + 1)
    | _, _ => none

/-- Lines 543-546 and 549-552: `simd_quaternion` of four consecutive floats
of the value buffer, starting at float offset `off`. -/
def readQuat (values : List ℚ) (off : Nat) : Option simd_quatf :=
  match values[off + 0]?, values[off + 1]?, values[off + 2]?, values[off + 3]? with
  | some x, some y, some z, some w => some ⟨x, y, z, w⟩
  | _, _, _, _ => none

/-- Lines 525-559: the value of the local `rotation` after the loop, when the
animation time is `time`.  A NaN time compares false with every keyframe. -/
def sampleRotation (simd : SimdLib) (sampler : Sampler) (time : ℚ) : Except Fault simd_quatf :=
  match adjustTime sampler.times time with
  | .error e => .error e
  | .ok none => .error .UnassignedRotation
  | .ok (some time) =>
    match findInterval sampler.times time sampler.times.length 1 with
    | none => .error .UnassignedRotation
    | some i =>
      match readQuat sampler.values ((i - 1) * 4), readQuat sampler.values ((i - 1) * 4 + 4),
            sampler.times[i - 1]?, sampler.times[i]? with
      | some q0, some q1, some lo, some hi =>
        .ok (simd.simd_slerp q0 q1 ((time - lo) / (hi - lo)))
      | _, _, _, _ => .error .OutOfRange

/-- The body of the loop of lines 523-568 for one channel. -/
def updateChannel (simd : SimdLib) (animation : Animation) (channel : Channel)
    (nodes : List Node) : Except Fault (List Node) :=
  if channel.path = "rotation" then
    match animation.samplers[channel.sampler]? with
    | none => .error .OutOfRange
    | some sampler =>
      match sampleRotation simd sampler animation.time with
      | .error e => .error e
      | .ok rotation =>
        match writeNode nodes channel.target (fun n => { n with rotation := rotation }) with
        | .error e => .error e
        | .ok nodes => writeNode nodes channel.target (UpdateMatrix simd)
  else .error .UnsupportedPath

/-- The loop of lines 523-568. -/
def updateChannels (simd : SimdLib) (animation : Animation) :
    List Channel → List Node → Except Fault (List Node)
  | [], nodes => .ok nodes
  | channel :: rest, nodes =>
    match updateChannel simd animation channel nodes with
    | .ok nodes => updateChannels simd animation rest nodes
    | .error e => .error e

/-- `Document::Update(double delta_time, Animation* animation)`, lines 519-569. -/
def UpdateAnimation (simd : SimdLib) (delta_time : ℚ) (animation : Animation)
    (nodes : List Node) : Except Fault (Animation × List Node) :=
  let animation := { animation with time := animation.time + delta_time }
  match updateChannels simd animation animation.channels nodes with
  | .ok nodes => .ok (animation, nodes)
  | .error e => .error e

/-- The loop of lines 467-469 over `animations_`. -/
def updateAnimations (simd : SimdLib) (delta_time : ℚ) :
    List Animation → List Node → Except Fault (List Animation × List Node)
  | [], nodes => .ok ([], nodes)
  | animation :: rest, nodes =>
    match UpdateAnimation simd delta_time animation nodes with
    | .error e => .error e
    | .ok (animation, nodes) =>
      match updateAnimations simd delta_time rest nodes with
      | .error e => .error e
      | .ok (rest, nodes) => .ok (animation :: rest, nodes)

/-- `Document::Update(double delta_time)`, lines 466-470. -/
def Document.Update (simd : SimdLib) (d : Document) (delta_time : ℚ) : Except Fault Document :=
  match updateAnimations simd delta_time d.animations_ d.nodes_ with
  | .error e => .error e
  | .ok (animations, nodes) => .ok { d with animations_ := animations, nodes_ := nodes }

/-- The channel can be updated in an animation whose time is already
advanced: its path is "rotation", its target is one of `nodeCount` nodes, its
sampler exists and the sampling assigns a rotation. -/
def channelReady (simd : SimdLib) (animation : Animation) (nodeCount : Nat)
    (channel : Channel) : Bool :=
  decide (channel.path = "rotation") && decide (channel.target < nodeCount) &&
    match animation.samplers[channel.sampler]? with
    | some sampler =>
      (match sampleRotation simd sampler animation.time with
       | .ok _ => true
       | .error _ => false)
    | none => false

/-! ## Rendering (Document::Render, lines 474-489 and 573-618) -/

/-- The calls on the render encoder that carry data of the scene graph. -/
inductive Command where
  | setTriangleFillMode
  | setRenderPipelineState
  | setProjectionMatrix
  | setViewMatrix
  | setVertexBuffer (vertex_buffer : Nat)
  | setModelMatrix (m : simd_float4x4)
  | setJointPalette (joint_matrices : List simd_float4x4)
  | drawIndexedPrimitives (indexCount : Nat) (indexBuffer : Nat)

/-- Lines 595-597 for index `i`. -/
def jointMatrix (nodes : List Node) (fuel : Nat) (kInverseModelMatrix : simd_float4x4)
    (skin : Skin) (i : Nat) : Option simd_float4x4 :=
  match skin.joints[i]?, skin.inverse_bind_matrices[i]? with
  | some joint, some inverse_bind =>
    match CalcModelMatrix nodes fuel joint with
    | some m =>
      some (matrix_multiply (matrix_multiply kInverseModelMatrix m) inverse_bind)
    | none => none
  | _, _ => none

/-- The loop of lines 593-598 from index `i` on, for `count` more entries. -/
def jointMatrices (nodes : List Node) (fuel : Nat) (kInverseModelMatrix : simd_float4x4)
    (skin : Skin) : Nat → Nat → Option (List simd_float4x4)
  | 0, _ => some []
  | count + 1, i =>
    match jointMatrix nodes fuel kInverseModelMatrix skin i with
    | none => none
    | some m =>
      match jointMatrices nodes fuel kInverseModelMatrix skin count (i + 1) with
      | none => none
      | some ms => some (m :: ms)

/-- The body of the loop of lines 575-612 for one primitive of the mesh of
node `node`; `n` is `nodes_[node]`.  (With a skin of no joints the code
passes `&joint_matrices[0]` with length 0; the palette is then empty.) -/
def renderPrimitive (simd : SimdLib) (d : Document) (fuel : Nat) (node : Nat) (n : Node)
    (primitive : Primitive) : Option (List Command) :=
  match CalcModelMatrix d.nodes_ fuel node with
  | none => none
  | some kModelMatrix =>
    let kInverseModelMatrix := simd.simd_inverse kModelMatrix
    match n.skin with
    | none =>
      some [.setVertexBuffer primitive.vertex_buffer, .setModelMatrix kModelMatrix,
            .drawIndexedPrimitives primitive.draw_count primitive.index_buffer]
    | some skin =>
      match d.skins_[skin]? with
      | none => none
      | some skin =>
        match jointMatrices d.nodes_ fuel kInverseModelMatrix skin skin.joints.length 0 with
        | none => none
        | some joint_matrices =>
          some [.setVertexBuffer primitive.vertex_buffer, .setModelMatrix kModelMatrix,
                .setJointPalette joint_matrices,
                .drawIndexedPrimitives primitive.draw_count primitive.index_buffer]

/-- The loop of lines 575-612. -/
def renderPrimitives (simd : SimdLib) (d : Document) (fuel : Nat) (node : Nat) (n : Node) :
    List Primitive → Option (List Command)
  | [] => some []
  | primitive :: rest =>
    match renderPrimitive simd d fuel node n primitive with
    | none => none
    | some cs =>
      match renderPrimitives simd d fuel node n rest with
      | none => none
      | some ds => some (cs ++ ds)

/-- Sequencing of the commands of a list of renderings. -/
def concatCommands : List (Option (List Command)) → Option (List Command)
  | [] => some []
  | none :: _ => none
  | some cs :: rest =>
    match concatCommands rest with
    | none => none
    | some ds => some (cs ++ ds)

/-- `Document::Render(render_encoder, node)`, lines 573-618.  `fuel` bounds
the calls of `CalcModelMatrix`, `depth` the recursion through children. -/
def RenderNode (simd : SimdLib) (d : Document) (fuel : Nat) : Nat → Nat → Option (List Command)
  | 0, _ => none
  | depth + 1, node =>
    match d.nodes_[node]? with
    | none => none
    | some n =>
      let own :=
        match n.mesh with
        | none => some []
        | some mesh =>
          match d.meshes_[mesh]? with
          | none => none
          | some mesh => renderPrimitives simd d fuel node n mesh.primitives
      match own with
      | none => none
      | some cs =>
        match concatCommands (n.children.map fun child => RenderNode simd d fuel depth child) with
        | none => none
        | some ds => some (cs ++ ds)

/-- `Document::Render(render_encoder)`, lines 474-489. -/
def Document.Render (simd : SimdLib) (d : Document) (fuel depth : Nat) : Option (List Command) :=
  match concatCommands ((List.range d.nodes_.length).map fun node =>
      RenderNode simd d fuel depth node) with
  | none => none
  | some cs =>
    some ([.setTriangleFillMode, .setRenderPipelineState, .setProjectionMatrix,
           .setViewMatrix] ++ cs)

/-! ## Notions used to state the properties -/

/-- The ancestor reached from node `c` by following `parent` `k` times, if
the chain is that long. -/
def nthParent (nodes : List Node) (c : Nat) : Nat → Option Nat
  | 0 => some c
  | k + 1 =>
    match nthParent nodes c k with
    | none => none
    | some a =>
      match nodes[a]? with
      | none => none
      | some n => n.parent

/-- The children that the constructor records for a model node. -/
def childIndices (g : GltfNode) : List Nat := g.children.map to_size_t

/-- The highest index below `i` of a model node that lists `c` among its
children, if there is one. -/
def lastLister (model_nodes : List GltfNode) (c : Nat) : Nat → Option Nat
  | 0 => none
  | i + 1 =>
    match model_nodes[i]? with
    | some g => if c ∈ childIndices g then some i else lastLister model_nodes c i
    | none => lastLister model_nodes c i

/-- The local transform of `n` is the one the constructor loads from the
model node `g`: rotation, scale and translation as loaded (or the defaults),
and the matrix either the explicit one or the composition of the three. -/
def builtFrom (simd : SimdLib) (g : GltfNode) (n : Node) : Prop :=
  loadRotation g = .ok n.rotation ∧ loadFloat3 g.scale 1 = .ok n.scale
    ∧ loadFloat3 g.translation 0 = .ok n.translation
    ∧ (g.matrix.isEmpty = true → n.matrix = composedMatrix simd n)
    ∧ (g.matrix.isEmpty = false → simd_make_matrix g.matrix 0 = some n.matrix)

/-- A sequence of calls of `Document::Update`, one per entry of
`delta_times`. -/
def Document.Updates (simd : SimdLib) : Document → List ℚ → Except Fault Document
  | d, [] => .ok d
  | d, delta_time :: rest =>
    match Document.Update simd d delta_time with
    | .error e => .error e
    | .ok d => Document.Updates simd d rest

/-- What the update of a rotation channel does to its target node: lines 562
and 567, with `r` the sampled rotation. -/
def rotateNode (simd : SimdLib) (r : simd_quatf) (n : Node) : Node :=
  UpdateMatrix simd { n with rotation := r }

/-- The effect of a sequence of channel updates on one node: nothing, or
the write of the last rotation. -/
def IsNodeWrite (simd : SimdLib) (f : Node → Node) : Prop :=
  f = id ∨ ∃ r, f = rotateNode simd r

/-- The animation with `delta_time` added to its time (line 521). -/
def advance (delta_time : ℚ) (a : Animation) : Animation :=
  { a with time := a.time + delta_time }

/-! ## Building the skins (constructor, lines 301-327) -/

/-- The members of `tinygltf::Accessor` that the constructor reads;
`ByteStride` is the value of `accessor.ByteStride(buffer_view)`. -/
structure GltfAccessor where
  bufferView : Int
  byteOffset : Nat
  count : Nat
  ByteStride : Int

structure GltfBufferView where
  buffer : Int
  byteOffset : Nat
  byteLength : Nat

/-- A `tinygltf::Buffer` seen through the `const float*` that the code casts
its bytes to: `floatAt b` is the float stored in the four bytes from byte
offset `b` on, `none` when they are not all inside `data`. -/
structure GltfBuffer where
  floatAt : Nat → Option ℚ

structure GltfSkin where
  name : String
  inverseBindMatrices : Int
  skeleton : Int
  joints : List Int

/-- The members of `tinygltf::Model` read for nodes and skins. -/
structure GltfModel where
  nodes : List GltfNode
  skins : List GltfSkin
  accessors : List GltfAccessor
  bufferViews : List GltfBufferView
  buffers : List GltfBuffer

/-- Lines 46-64 of document.cpp for a `const float*`: `data[k]` is `read k`. -/
def simd_make_matrix_at (read : Nat → Option ℚ) : Option simd_float4x4 :=
  match (List.range 16).mapM read with
  | some data => simd_make_matrix data 0
  | none => none

/-- The loop of lines 316-319 for `count` more matrices, `data` pointing at
byte offset `offset` of the buffer and advancing by `stride` floats. -/
def readMatrices (buffer : GltfBuffer) (stride : Nat) : Nat → Nat → Option (List simd_float4x4)
  | 0, _ => some []
  | count + 1, offset =>
    match simd_make_matrix_at (fun k => buffer.floatAt (offset + 4 * k)) with
    | none => none
    | some m =>
      match readMatrices buffer stride count (offset + 4 * stride) with
      | none => none
      | some ms => some (m :: ms)

/-- One iteration of the loop of lines 301-327, for the model skin `g`. -/
def buildSkin (model : GltfModel) (g : GltfSkin) : Except Fault Skin :=
  match model.accessors[to_size_t g.inverseBindMatrices]? with
  | none => .error .OutOfRange
  | some accessor =>
    match model.bufferViews[to_size_t accessor.bufferView]? with
    | none => .error .OutOfRange
    | some buffer_view =>
      match model.buffers[to_size_t buffer_view.buffer]? with
      | none => .error .OutOfRange
      | some buffer =>
        let offset := accessor.byteOffset + buffer_view.byteOffset
        let stride := to_size_t accessor.ByteStride / 4
        match readMatrices buffer stride accessor.count offset with
        | none => .error .OutOfRange
        | some inverse_bind_matrices =>
          .ok { name := g.name
                inverse_bind_matrices := inverse_bind_matrices
                skeleton := some (to_size_t g.skeleton)
                joints := g.joints.map to_size_t }

/-- The loop of lines 301-327. -/
def buildSkins (model : GltfModel) : List GltfSkin → Except Fault (List Skin)
  | [] => .ok []
  | g :: rest =>
    match buildSkin model g with
    | .error e => .error e
    | .ok skin =>
      match buildSkins model rest with
      | .error e => .error e
      | .ok skins => .ok (skin :: skins)

/-! ## Counting the steps of the hierarchy walk -/

/-- `CalcModelMatrix` (lines 85-91) with two counters next to the result: the
number of recursive calls made and the number of `matrix_multiply` calls. -/
def CalcModelMatrixCounted (nodes : List Node) : Nat → Nat → Option (simd_float4x4 × Nat × Nat)
  | 0, _ => none
  | fuel + 1, node =>
    match nodes[node]? with
    | none => none
    | some n =>
      match n.parent with
      | none => some (n.matrix, 0, 0)
      | some parent =>
        match CalcModelMatrixCounted nodes fuel parent with
        | none => none
        | some (m, calls, multiplications) =>
          some (matrix_multiply m n.matrix, calls + 1, multiplications + 1)

/-! ## Building the animations (constructor, lines 125 and 349-395) -/

/-- The members of `tinygltf::AnimationSampler` that the constructor reads. -/
structure GltfAnimationSampler where
  input : Int
  output : Int

/-- The members of `tinygltf::AnimationChannel` that the constructor reads. -/
structure GltfAnimationChannel where
  sampler : Int
  target_node : Int
  target_path : String

/-- The members of `tinygltf::Animation` that the constructor reads. -/
structure GltfAnimation where
  name : String
  samplers : List GltfAnimationSampler
  channels : List GltfAnimationChannel

/-- An element that `animations_.resize` (line 125) creates: empty members,
and `time` with the value of its default member initializer `double time = 0;`
(document.h, line 81). -/
def Animation.zero : Animation :=
  { name := "", samplers := [], channels := [], time := 0 }

/-- Reading `count` more floats through a `const float*` that points at byte
offset `offset` of the buffer and advances by `stride` floats: the loop of
lines 367-370 and, with stride 1, the floats of the bytes that `memcpy`
(line 383) copies. -/
def readFloats (buffer : GltfBuffer) (stride : Nat) : Nat → Nat → Option (List ℚ)
  | 0, _ => some []
  | count + 1, offset =>
    match buffer.floatAt offset with
    | none => none
    | some x =>
      match readFloats buffer stride count (offset + 4 * stride) with
      | none => none
      | some xs => some (x :: xs)

/-- One iteration of the loop of lines 355-385, for the model sampler `g`.
`values` is the copied byte vector seen through the `float*` that `Update`
casts it to; its size in bytes is the `size_t` difference of line 379. -/
def buildSampler (model : GltfModel) (g : GltfAnimationSampler) : Except Fault Sampler :=
  match model.accessors[to_size_t g.input]? with
  | none => .error .OutOfRange
  | some input_accessor =>
    match model.bufferViews[to_size_t input_accessor.bufferView]? with
    | none => .error .OutOfRange
    | some input_buffer_view =>
      match model.buffers[to_size_t input_buffer_view.buffer]? with
      | none => .error .OutOfRange
      | some input_buffer =>
        let input_offset := input_accessor.byteOffset + input_buffer_view.byteOffset
        let input_stride := to_size_t input_accessor.ByteStride / 4
        match readFloats input_buffer input_stride input_accessor.count input_offset with
        | none => .error .OutOfRange
        | some times =>
          match model.accessors[to_size_t g.output]? with
          | none => .error .OutOfRange
          | some output_accessor =>
            match model.bufferViews[to_size_t output_accessor.bufferView]? with
            | none => .error .OutOfRange
            | some output_buffer_view =>
              match model.buffers[to_size_t output_buffer_view.buffer]? with
              | none => .error .OutOfRange
              | some output_buffer =>
                let size := (output_buffer_view.byteLength
                  + (2 ^ 64 - output_accessor.byteOffset % 2 ^ 64)) % 2 ^ 64
                let output_offset := output_accessor.byteOffset + output_buffer_view.byteOffset
                match readFloats output_buffer 1 (size / 4) output_offset with
                | none => .error .OutOfRange
                | some values => .ok { times := times, values := values }

/-- The loop of lines 355-385. -/
def buildSamplers (model : GltfModel) : List GltfAnimationSampler → Except Fault (List Sampler)
  | [] => .ok []
  | g :: rest =>
    match buildSampler model g with
    | .error e => .error e
    | .ok sampler =>
      match buildSamplers model rest with
      | .error e => .error e
      | .ok samplers => .ok (sampler :: samplers)

/-- One iteration of the loop of lines 387-394: the pointers of lines 391 and
392 are the indices they are formed from. -/
def buildChannel (g : GltfAnimationChannel) : Channel :=
  { sampler := to_size_t g.sampler, target := to_size_t g.target_node, path := g.target_path }

/-- One iteration of the loop of lines 349-395 on an element created by
`resize`: `name`, `samplers` and `channels` are written, `time` is not. -/
def buildAnimation (model : GltfModel) (g : GltfAnimation) : Except Fault Animation :=
  match buildSamplers model g.samplers with
  | .error e => .error e
  | .ok samplers =>
    .ok { Animation.zero with
          name := g.name, samplers := samplers, channels := g.channels.map buildChannel }

/-- The loop of lines 349-395. -/
def buildAnimations (model : GltfModel) : List GltfAnimation → Except Fault (List Animation)
  | [] => .ok []
  | g :: rest =>
    match buildAnimation model g with
    | .error e => .error e
    | .ok animation =>
      match buildAnimations model rest with
      | .error e => .error e
      | .ok animations => .ok (animation :: animations)

/-! ## Draw calls of a render pass -/

/-- The draw calls among the recorded commands, in order, each as its index
count and index buffer. -/
def drawCalls (commands : List Command) : List (Nat × Nat) :=
  commands.filterMap fun c =>
    match c with
    | .drawIndexedPrimitives indexCount indexBuffer => some (indexCount, indexBuffer)
    | _ => none

/-! ## The update compiled with `NDEBUG` -/

/-- The body of the loop of lines 523-568 for one channel when `NDEBUG` is
defined: the `assert` of line 564 expands to nothing, so for a path other than
"rotation" the else-branch is empty and only `UpdateMatrix(channel.target)` of
line 567 runs. -/
def updateChannel_NDEBUG (simd : SimdLib) (animation : Animation) (channel : Channel)
    (nodes : List Node) : Except Fault (List Node) :=
  if channel.path = "rotation" then
    match animation.samplers[channel.sampler]? with
    | none => .error .OutOfRange
    | some sampler =>
      match sampleRotation simd sampler animation.time with
      | .error e => .error e
      | .ok rotation =>
        match writeNode nodes channel.target (fun n => { n with rotation := rotation }) with
        | .error e => .error e
        | .ok nodes => writeNode nodes channel.target (UpdateMatrix simd)
  else writeNode nodes channel.target (UpdateMatrix simd)

/-- The loop of lines 523-568, compiled with `NDEBUG`. -/
def updateChannels_NDEBUG (simd : SimdLib) (animation : Animation) :
    List Channel → List Node → Except Fault (List Node)
  | [], nodes => .ok nodes
  | channel :: rest, nodes =>
    match updateChannel_NDEBUG simd animation channel nodes with
    | .ok nodes => updateChannels_NDEBUG simd animation rest nodes
    | .error e => .error e

/-- `Document::Update(double delta_time, Animation* animation)`, lines 519-569,
compiled with `NDEBUG`. -/
def UpdateAnimation_NDEBUG (simd : SimdLib) (delta_time : ℚ) (animation : Animation)
    (nodes : List Node) : Except Fault (Animation × List Node) :=
  let animation := { animation with time := animation.time + delta_time }
  match updateChannels_NDEBUG simd animation animation.channels nodes with
  | .ok nodes => .ok (animation, nodes)
  | .error e => .error e

/-- The loop of lines 467-469 over `animations_`, compiled with `NDEBUG`. -/
def updateAnimations_NDEBUG (simd : SimdLib) (delta_time : ℚ) :
    List Animation → List Node → Except Fault (List Animation × List Node)
  | [], nodes => .ok ([], nodes)
  | animation :: rest, nodes =>
    match UpdateAnimation_NDEBUG simd delta_time animation nodes with
    | .error e => .error e
    | .ok (animation, nodes) =>
      match updateAnimations_NDEBUG simd delta_time rest nodes with
      | .error e => .error e
      | .ok (rest, nodes) => .ok (animation :: rest, nodes)

/-- `Document::Update(double delta_time)`, lines 466-470, compiled with
`NDEBUG`. -/
def Document.Update_NDEBUG (simd : SimdLib) (d : Document) (delta_time : ℚ) :
    Except Fault Document :=
  match updateAnimations_NDEBUG simd delta_time d.animations_ d.nodes_ with
  | .error e => .error e
  | .ok (animations, nodes) => .ok { d with animations_ := animations, nodes_ := nodes }

/-! ## Documents that can be rendered -/

/-- The document can be rendered with the given bounds: every node has a rank
below `depth` that falls from a node to each of its children, every child
pointer is a node, and every node with a mesh has that mesh and, when the
mesh has primitives, a model matrix within `fuel` and, if it is skinned, its
skin with a model matrix and an inverse bind matrix for every joint. -/
def Document.Renderable (d : Document) (fuel depth : Nat) : Prop :=
  (∃ rank : Nat → Nat, ∀ (x : Nat) (n : Node), d.nodes_[x]? = some n →
      rank x < depth ∧ ∀ c ∈ n.children, c < d.nodes_.length ∧ rank c < rank x)
  ∧ ∀ (x : Nat) (n : Node), d.nodes_[x]? = some n →
      ∀ m, n.mesh = some m →
        ∃ mesh, d.meshes_[m]? = some mesh
          ∧ (mesh.primitives ≠ [] →
              (∃ M, CalcModelMatrix d.nodes_ fuel x = some M)
                ∧ ∀ s, n.skin = some s →
                    ∃ skin, d.skins_[s]? = some skin
                      ∧ ∀ i : Nat, i < skin.joints.length →
                          ∃ j J B, skin.joints[i]? = some j
                            ∧ CalcModelMatrix d.nodes_ fuel j = some J
                            ∧ skin.inverse_bind_matrices[i]? = some B)

/-! ## Concrete inputs on which the model is evaluated -/

/-- A stand-in for the simd library: the textbook rotation matrix of a
quaternion, component-wise linear interpolation for `simd_slerp`, and
`det⁻¹ • adjugate` for `simd_inverse`. -/
def demoSimd : SimdLib where
  simd_matrix4x4 q :=
    simd_matrix
      (simd_make_float4 (1 - 2 * (q.iy * q.iy + q.iz * q.iz)) (2 * (q.ix * q.iy + q.iz * q.r))
        (2 * (q.ix * q.iz - q.iy * q.r)) 0)
      (simd_make_float4 (2 * (q.ix * q.iy - q.iz * q.r)) (1 - 2 * (q.ix * q.ix + q.iz * q.iz))
        (2 * (q.iy * q.iz + q.ix * q.r)) 0)
      (simd_make_float4 (2 * (q.ix * q.iz + q.iy * q.r)) (2 * (q.iy * q.iz - q.ix * q.r))
        (1 - 2 * (q.ix * q.ix + q.iy * q.iy)) 0)
      (simd_make_float4 0 0 0 1)
  simd_slerp a b t :=
    ⟨a.ix + t * (b.ix - a.ix), a.iy + t * (b.iy - a.iy), a.iz + t * (b.iz - a.iz),
      a.r + t * (b.r - a.r)⟩
  simd_inverse m := m.det⁻¹ • m.adjugate

/-- A root with a translation as local matrix. -/
def demoRoot : Node :=
  { Node.zero with name := "root", children := [1],
                   matrix := simd_translation_matrix ![1, 2, 3] }

/-- The chain `0 -> 1 -> 2 -> 3` with local matrices that do not commute. -/
def demoNodes : List Node :=
  [ demoRoot,
    { Node.zero with name := "a", parent := some 0, children := [2],
                     matrix := simd_scale_matrix ![2, 3, 4] },
    { Node.zero with name := "b", parent := some 1, children := [3],
                     matrix := simd_translation_matrix ![5, 0, 0] },
    { Node.zero with name := "c", parent := some 2,
                     matrix := simd_scale_matrix ![1, 1, 7] } ]

/-- A model of two nodes: the first with an explicit matrix and the second
as its child, given by translation and scale only. -/
def demoModel : List GltfNode :=
  [ { name := "top", skin := -1, mesh := -1, children := [1], rotation := [], scale := [],
      translation := [], matrix := [1, 0, 0, 0, 0, 1, 0, 0, 0, 0, 1, 0, 4, 5, 6, 1] },
    { name := "leaf", skin := -1, mesh := -1, children := [], rotation := [],
      scale := [2, 2, 2], translation := [1, 0, 0], matrix := [] } ]

/-- A skinned mesh node under `demoRoot`. -/
def demoMeshNode : Node :=
  { Node.zero with name := "mesh", skin := some 0, mesh := some 0, parent := some 0,
                   matrix := simd_scale_matrix ![2, 2, 2] }

/-- A skin with the joints `1` and `2` of `demoNodes`. -/
def demoSkin : Skin :=
  { name := "skin", skeleton := some 1, joints := [1, 2],
    inverse_bind_matrices := [simd_translation_matrix ![0, 1, 0], simd_scale_matrix ![3, 1, 1]] }

def demoPrimitive : Primitive := { vertex_buffer := 7, index_buffer := 8, draw_count := 36 }

/-- Two keyframes at times 0 and 1: the identity rotation, then a half
turn about the x axis. -/
def demoSampler : Sampler :=
  { times := [0, 1], values := [0, 0, 0, 1, 1, 0, 0, 0] }

/-- An animation of node `1` at time 0. -/
def demoAnimation : Animation :=
  { name := "turn", samplers := [demoSampler],
    channels := [{ sampler := 0, target := 1, path := "rotation" }], time := 0 }

/-- The chain of `demoNodes`, the skinned mesh node (index 4) and one
animation. -/
def demoDocument : Document :=
  { meshes_ := [{ name := "box", primitives := [demoPrimitive] }],
    nodes_ := demoNodes ++ [demoMeshNode],
    skins_ := [demoSkin],
    scenes_ := [{ name := "scene", nodes := [0] }],
    animations_ := [demoAnimation] }

/-- Keyframes at times -1 and 1, with the values of `demoSampler`. -/
def demoEarlySampler : Sampler :=
  { times := [-1, 1], values := [0, 0, 0, 1, 1, 0, 0, 0] }

/-- Two nodes that are each other's parent. -/
def demoCycle : List Node :=
  [ { Node.zero with name := "x", parent := some 1, matrix := 1 },
    { Node.zero with name := "y", parent := some 0, matrix := 1 } ]

/-- A sampler without keyframes. -/
def demoEmptySampler : Sampler := { times := [], values := [] }

/-- A model in which the nodes 0 and 1 both list node 2 as a child. -/
def demoSharedChildModel : List GltfNode :=
  [ { name := "p", skin := -1, mesh := -1, children := [2], rotation := [], scale := [],
      translation := [], matrix := [] },
    { name := "q", skin := -1, mesh := -1, children := [2], rotation := [], scale := [],
      translation := [], matrix := [] },
    { name := "c", skin := -1, mesh := -1, children := [], rotation := [], scale := [],
      translation := [], matrix := [] } ]

/-- The nodes that the constructor builds from `demoModel`. -/
def demoBuiltNodes : List Node :=
  match buildNodes demoSimd demoModel with
  | .ok nodes => nodes
  | .error _ => []

/-- A document on the nodes of `demoModel` whose animation targets node 0,
the node with the explicit matrix. -/
def demoTargetDocument : Document :=
  { demoDocument with
    nodes_ := demoBuiltNodes
    animations_ := [{ demoAnimation with
      channels := [{ sampler := 0, target := 0, path := "rotation" }] }] }

/-- A document on the nodes of `demoModel` whose animation targets node 1,
the node without explicit matrix. -/
def demoLeafDocument : Document :=
  { demoDocument with nodes_ := demoBuiltNodes }

/-- A model with a single node without any transform data. -/
def demoBareModel : List GltfNode :=
  [ { name := "bare", skin := -1, mesh := -1, children := [], rotation := [], scale := [],
      translation := [], matrix := [] } ]

/-- A buffer that holds two matrices as thirty-two floats. -/
def demoBuffer : GltfBuffer :=
  { floatAt := fun b =>
      if b % 4 = 0 then
        ([1, 0, 0, 0, 0, 1, 0, 0, 0, 0, 1, 0, 0, 0, 0, 1,
          2, 0, 0, 0, 0, 2, 0, 0, 0, 0, 2, 0, 0, 0, 0, 1] : List ℚ)[b / 4]?
      else none }

/-- A model whose only skin has two joints and an accessor of `count`
inverse bind matrices over `demoBuffer`. -/
def demoSkinModel (count : Nat) : GltfModel :=
  { nodes := demoSharedChildModel
    skins := [{ name := "s", inverseBindMatrices := 0, skeleton := 0, joints := [1, 2] }]
    accessors := [{ bufferView := 0, byteOffset := 0, count := count, ByteStride := 64 }]
    bufferViews := [{ buffer := 0, byteOffset := 0, byteLength := 128 }]
    buffers := [demoBuffer] }

/-- A root, a joint and a skinned mesh node, each with the identity as
local matrix. -/
def demoIdentityNodes : List Node :=
  [ { Node.zero with name := "root", children := [1, 2], matrix := 1 },
    { Node.zero with name := "joint", parent := some 0, matrix := 1 },
    { Node.zero with name := "mesh", parent := some 0, mesh := some 0, skin := some 0,
                     matrix := 1 } ]

/-- A skin over `demoIdentityNodes` with identity inverse bind matrices. -/
def demoIdentitySkin : Skin :=
  { name := "rest", skeleton := some 0, joints := [0, 1], inverse_bind_matrices := [1, 1] }

def demoIdentityDocument : Document :=
  { demoDocument with nodes_ := demoIdentityNodes, skins_ := [demoIdentitySkin] }

/-- Two keyframes at times 1 and 2, with the values of `demoSampler`. -/
def demoLateSampler : Sampler :=
  { times := [1, 2], values := [0, 0, 0, 1, 1, 0, 0, 0] }

/-- A buffer that holds the keyframe times 0 and 1 followed by two
quaternions. -/
def demoAnimationBuffer : GltfBuffer :=
  { floatAt := fun b =>
      if b % 4 = 0 then ([0, 1, 0, 0, 0, 1, 1, 0, 0, 0] : List ℚ)[b / 4]? else none }

/-- A model with the accessors of one animation sampler over
`demoAnimationBuffer`. -/
def demoAnimationModel : GltfModel :=
  { nodes := []
    skins := []
    accessors := [{ bufferView := 0, byteOffset := 0, count := 2, ByteStride := 4 },
                  { bufferView := 1, byteOffset := 0, count := 2, ByteStride := 16 }]
    bufferViews := [{ buffer := 0, byteOffset := 0, byteLength := 8 },
                    { buffer := 0, byteOffset := 8, byteLength := 32 }]
    buffers := [demoAnimationBuffer] }

/-- The animation of the model from which `demoAnimation` is built. -/
def demoGltfAnimation : GltfAnimation :=
  { name := "turn", samplers := [{ input := 0, output := 1 }],
    channels := [{ sampler := 0, target_node := 1, target_path := "rotation" }] }

/-- A root without mesh whose only child carries a mesh of one primitive. -/
def demoChildMeshDocument : Document :=
  { meshes_ := [{ name := "box", primitives := [demoPrimitive] }],
    nodes_ := [ { Node.zero with name := "root", children := [1], matrix := 1 },
                { Node.zero with name := "child", parent := some 0, mesh := some 0,
                                 matrix := 1 } ],
    skins_ := [],
    scenes_ := [{ name := "scene", nodes := [0] }],
    animations_ := [] }

/-- The document `demoDocument` with the path of its channel changed to
"translation". -/
def demoTranslationDocument : Document :=
  { demoDocument with
    animations_ := [{ demoAnimation with
      channels := [{ sampler := 0, target := 1, path := "translation" }] }] }

end Skinning

namespace Pbr

/-! ## Helpers of the Direct3D viewer (src/pbr/d3d/src/d3d_helper.h) -/

/-- An `HRESULT`, a signed 32-bit value. -/
abbrev HRESULT := Int

/-- What d3d_helper.h takes from the Windows headers: the two error codes
named in `ToString` and the macro `FAILED`. -/
structure WinErrors where
  E_INVALIDARG : HRESULT
  DXGI_ERROR_INVALID_CALL : HRESULT
  FAILED : HRESULT → Bool

/-- The exceptions thrown in d3d_helper.h. -/
inductive Thrown where
  /-- `std::runtime_error(what)` -/
  | runtime_error (what : String)
  /-- `winrt::hresult_error(code)` -/
  | hresult_error (code : HRESULT)
deriving DecidableEq

/-- `ToString(HRESULT result)`, lines 18-28 of d3d_helper.h. -/
def ToString (win : WinErrors) (result : HRESULT) : Except Thrown String :=
  if result = win.E_INVALIDARG then .ok "E_INVALIDARG"
  else if result = win.DXGI_ERROR_INVALID_CALL then .ok "DXGI_ERROR_INVALID_CALL"
  else .error (.runtime_error "Fail")

/-- The macro `THROW_IF_FAILED` (lines 32-38) applied to a call that returned
`result`: the names passed to `spdlog::error`, and how the block ends.  The
argument `ToString(result)` is evaluated before the message is logged. -/
def THROW_IF_FAILED (win : WinErrors) (result : HRESULT) : List String × Except Thrown Unit :=
  if win.FAILED result then
    match ToString win result with
    | .error e => ([], .error e)
    | .ok name => ([name], .error (.hresult_error result))
  else ([], .ok ())

/-- `AlignPow2<T>(value, alignment)`, lines 42-45 of d3d_helper.h, for an
unsigned type `T` of `w` bits: `static_cast<T>(alignment)` is
`alignment % 2 ^ w`, sums and differences are taken modulo `2 ^ w`, and `~x`
is `2 ^ w - 1 - x`. -/
def AlignPow2 (w : Nat) (value alignment : Nat) : Nat :=
  let a := alignment % 2 ^ w
  let sum := ((value % 2 ^ w + a) % 2 ^ w + (2 ^ w - 1)) % 2 ^ w
  let mask := 2 ^ w - 1 - (a + (2 ^ w - 1)) % 2 ^ w
  sum &&& mask

/-- The offset into the constant buffer for back buffer `index`
(renderer.cpp, lines 90 and 146), `size` being `sizeof(Constant)`: a
`size_t` product. -/
def constantOffset (size index : Nat) : Nat :=
  (AlignPow2 64 size 256 * index) % 2 ^ 64

/-- The size of `struct Constant` (constant.h): three `XMFLOAT4X4` of 64
bytes, and three times an `XMFLOAT3` of 12 bytes followed by a `float`. -/
def sizeof_Constant : Nat := 3 * 64 + 3 * (12 + 4)

/-- The values of the Windows headers: `E_INVALIDARG` is 0x80070057,
`DXGI_ERROR_INVALID_CALL` is 0x887A0001, and `FAILED(hr)` is `hr < 0`. -/
def demoWin : WinErrors :=
  { E_INVALIDARG := 0x80070057 - 2 ^ 32
    DXGI_ERROR_INVALID_CALL := 0x887A0001 - 2 ^ 32
    FAILED := fun hr => decide (hr < 0) }

end Pbr

namespace RayTracing

/-! ## Utilities of the ray tracer (src/ray_tracing/source/rtweekend.h) -/

/-- A `double` as the comparisons see it: NaN, or a number, which is a
rational or one of the two infinities (`⊥` and `⊤`); the two zeros are one
number. -/
inductive Double where
  | nan
  | num (x : WithBot (WithTop ℚ))
deriving DecidableEq

/-- The finite double with the value `q`. -/
def Double.ofRat (q : ℚ) : Double := .num ((q : WithTop ℚ) : WithBot (WithTop ℚ))

/-- `a < b` on doubles: false when an operand is NaN. -/
def Double.lt : Double → Double → Bool
  | .num a, .num b => decide (a < b)
  | _, _ => false

/-- `a > b` on doubles: false when an operand is NaN. -/
def Double.gt (a b : Double) : Bool := Double.lt b a

/-- `a <= b` on doubles: false when an operand is NaN. -/
def Double.le : Double → Double → Bool
  | .num a, .num b => decide (a ≤ b)
  | _, _ => false

/-- `clamp(double x, double min, double max)`, lines 44-48 of rtweekend.h. -/
def clamp (x min max : Double) : Double :=
  if Double.lt x min then min
  else if Double.gt x max then max
  else x

end RayTracing

/-! ## Theorems -/

namespace Skinning

/-! ### Hierarchy transform composition (C1, C2) -/

theorem CalcModelMatrix_fuel_succ (nodes : List Node) :
    ∀ (fuel node : Nat) (m : simd_float4x4),
      CalcModelMatrix nodes fuel node = some m →
      CalcModelMatrix nodes (fuel + 1) node = some m := by
  intro fuel
  induction fuel with
  | zero => intro node m h; simp [CalcModelMatrix] at h
  | succ k ih =>
    intro node m h
    rw [CalcModelMatrix] at h
    rw [CalcModelMatrix]
    cases hn : nodes[node]? with
    | none => simp [hn] at h
    | some n =>
      simp only [hn] at h ⊢
      cases hp : n.parent with
      | none => simpa [hp] using h
      | some p =>
        simp only [hp] at h ⊢
        cases hc : CalcModelMatrix nodes k p with
        | none => simp [hc] at h
        | some mp =>
          rw [ih p mp hc]
          simpa [hc] using h

theorem CalcModelMatrix_fuel_mono (nodes : List Node) (fuel fuel' node : Nat)
    (m : simd_float4x4) (h : CalcModelMatrix nodes fuel node = some m)
    (hle : fuel ≤ fuel') : CalcModelMatrix nodes fuel' node = some m := by
  induction hle with
  | refl => exact h
  | step _ ih => exact CalcModelMatrix_fuel_succ nodes _ node m ih

theorem localMatrices_cons (nodes : List Node) (x : Nat) (rest : List Nat) (n : Node)
    (hn : nodes[x]? = some n) :
    localMatrices nodes (x :: rest) = n.matrix :: localMatrices nodes rest := by
  simp [localMatrices, List.filterMap_cons, hn]

theorem CalcModelMatrix_below (nodes : List Node) :
    ∀ (chain : List Nat) (p c f0 : Nat) (m : simd_float4x4),
      isAncestorChain nodes (some p) chain = true →
      CalcModelMatrix nodes f0 p = some m →
      chain.getLast? = some c →
      CalcModelMatrix nodes (f0 + chain.length) c
          = some (m * (localMatrices nodes chain).prod)
        ∧ (localMatrices nodes chain).length = chain.length := by
  intro chain
  induction chain with
  | nil => intro p c f0 m _ _ hl; simp at hl
  | cons x rest ih =>
    intro p c f0 m hch hp hl
    simp only [isAncestorChain, Bool.and_eq_true] at hch
    obtain ⟨hx, hrest⟩ := hch
    cases hn : nodes[x]? with
    | none => simp [hn] at hx
    | some n =>
      simp only [hn, decide_eq_true_eq] at hx
      have hcx : CalcModelMatrix nodes (f0 + 1) x = some (m * n.matrix) := by
        rw [CalcModelMatrix]; simp [hn, hx, hp, matrix_multiply]
      rw [localMatrices_cons nodes x rest n hn]
      cases rest with
      | nil =>
        simp only [List.getLast?_singleton, Option.some.injEq] at hl
        subst hl
        simpa [localMatrices] using hcx
      | cons y ys =>
        have hl' : (y :: ys).getLast? = some c := by
          simpa [List.getLast?_cons_cons] using hl
        obtain ⟨h1, h2⟩ := ih x c (f0 + 1) (m * n.matrix) hrest hcx hl'
        refine ⟨?_, by simp [h2]⟩
        have e : f0 + (x :: y :: ys).length = f0 + 1 + (y :: ys).length := by
          simp only [List.length_cons]; omega
        rw [e, h1, List.prod_cons, mul_assoc]

/-- C1: for an ancestor chain `n0, ..., nk` listed from the root (`n0` has no
parent, each later entry has the previous one as parent) that ends in `c`,
`CalcModelMatrix` at `c` returns, with any fuel of at least the chain's
length, `matrix(n0) * matrix(n1) * ... * matrix(nk)`; no entry of the chain
is missing from the product. -/
theorem CalcModelMatrix_chain (nodes : List Node) (chain : List Nat) (c fuel : Nat)
    (hchain : isAncestorChain nodes none chain = true)
    (hlast : chain.getLast? = some c)
    (hfuel : chain.length ≤ fuel) :
    CalcModelMatrix nodes fuel c = some (localMatrices nodes chain).prod
      ∧ (localMatrices nodes chain).length = chain.length := by
  cases chain with
  | nil => simp at hlast
  | cons x rest =>
    simp only [isAncestorChain, Bool.and_eq_true] at hchain
    obtain ⟨hx, hrest⟩ := hchain
    cases hn : nodes[x]? with
    | none => simp [hn] at hx
    | some n =>
      simp only [hn, decide_eq_true_eq] at hx
      have hroot : CalcModelMatrix nodes 1 x = some n.matrix := by
        rw [CalcModelMatrix]; simp [hn, hx]
      rw [localMatrices_cons nodes x rest n hn]
      cases rest with
      | nil =>
        simp only [List.getLast?_singleton, Option.some.injEq] at hlast
        subst hlast
        refine ⟨?_, by simp [localMatrices]⟩
        have := CalcModelMatrix_fuel_mono nodes 1 fuel x n.matrix hroot (by simpa using hfuel)
        simpa [localMatrices] using this
      | cons y ys =>
        have hl' : (y :: ys).getLast? = some c := by
          simpa [List.getLast?_cons_cons] using hlast
        obtain ⟨h1, h2⟩ := CalcModelMatrix_below nodes (y :: ys) x c 1 n.matrix hrest hroot hl'
        refine ⟨?_, by simp [h2]⟩
        have hle : 1 + (y :: ys).length ≤ fuel := by
          simp only [List.length_cons] at hfuel ⊢; omega
        rw [CalcModelMatrix_fuel_mono nodes _ fuel c _ h1 hle, List.prod_cons]

theorem CalcModelMatrix_chain_witness :
    isAncestorChain demoNodes none [0, 1, 2, 3] = true
      ∧ CalcModelMatrix demoNodes 4 3
          = some (simd_translation_matrix ![1, 2, 3] * simd_scale_matrix ![2, 3, 4]
              * simd_translation_matrix ![5, 0, 0] * simd_scale_matrix ![1, 1, 7]) := by
  have h := (CalcModelMatrix_chain demoNodes [0, 1, 2, 3] 3 4 (by decide) rfl (by decide)).1
  have e : localMatrices demoNodes [0, 1, 2, 3]
      = [simd_translation_matrix ![1, 2, 3], simd_scale_matrix ![2, 3, 4],
         simd_translation_matrix ![5, 0, 0], simd_scale_matrix ![1, 1, 7]] := rfl
  rw [e] at h
  simp only [List.prod_cons, List.prod_nil, mul_one, ← mul_assoc] at h
  exact ⟨by decide, h⟩

/-- C2: for a node with no parent `CalcModelMatrix` returns the node's own
`matrix`, whatever the (positive) fuel. -/
theorem CalcModelMatrix_root (nodes : List Node) (node fuel : Nat) (n : Node)
    (hn : nodes[node]? = some n) (hparent : n.parent = none) :
    CalcModelMatrix nodes (fuel + 1) node = some n.matrix := by
  rw [CalcModelMatrix]; simp [hn, hparent]

theorem CalcModelMatrix_root_witness :
    demoNodes[0]? = some demoRoot ∧ demoRoot.parent = none
      ∧ CalcModelMatrix demoNodes (0 + 1) 0 = some demoRoot.matrix :=
  ⟨rfl, rfl, CalcModelMatrix_root demoNodes 0 0 demoRoot rfl rfl⟩

/-! ### `UpdateMatrix` and the node-building loop (C3) -/

theorem sameLocal_trans {a b c : Node} (h1 : sameLocal a b) (h2 : sameLocal b c) :
    sameLocal a c :=
  ⟨h1.1.trans h2.1, h1.2.1.trans h2.2.1, h1.2.2.1.trans h2.2.2.1, h1.2.2.2.trans h2.2.2.2⟩

theorem composedMatrix_congr (simd : SimdLib) {a b : Node} (h : sameLocal a b) :
    composedMatrix simd a = composedMatrix simd b := by
  unfold composedMatrix
  rw [h.1, h.2.1, h.2.2.1]

theorem writeNode_ok {nodes nodes' : List Node} {i : Nat} {f : Node → Node}
    (h : writeNode nodes i f = .ok nodes') :
    ∃ n, nodes[i]? = some n ∧ nodes' = nodes.set i (f n) := by
  unfold writeNode at h
  cases hn : nodes[i]? with
  | none => simp [hn] at h
  | some n =>
    simp only [hn, Except.ok.injEq] at h
    exact ⟨n, rfl, h.symm⟩

theorem writeNode_length {nodes nodes' : List Node} {i : Nat} {f : Node → Node}
    (h : writeNode nodes i f = .ok nodes') : nodes'.length = nodes.length := by
  obtain ⟨n, _, rfl⟩ := writeNode_ok h
  simp

theorem setParents_sameLocal (i : Nat) :
    ∀ (cs : List Nat) (nodes nodes' : List Node),
      setParents i cs nodes = .ok nodes' →
      nodes'.length = nodes.length ∧
        ∀ (k : Nat) (n' : Node), nodes'[k]? = some n' →
          ∃ n, nodes[k]? = some n ∧ sameLocal n' n := by
  intro cs
  induction cs with
  | nil =>
    intro nodes nodes' h
    simp only [setParents, Except.ok.injEq] at h
    subst h
    exact ⟨rfl, fun k n' hk => ⟨n', hk, rfl, rfl, rfl, rfl⟩⟩
  | cons child rest ih =>
    intro nodes nodes' h
    rw [setParents] at h
    cases hw : writeNode nodes child (fun n => { n with parent := some i }) with
    | error e => simp [hw] at h
    | ok nodes1 =>
      simp only [hw] at h
      obtain ⟨n0, hn0, rfl⟩ := writeNode_ok hw
      obtain ⟨hlen, hloc⟩ := ih _ _ h
      refine ⟨by simpa using hlen, ?_⟩
      intro k n' hk
      obtain ⟨n1, hn1, hs1⟩ := hloc k n' hk
      rw [List.getElem?_set'] at hn1
      by_cases hck : child = k
      · subst hck
        simp only [if_true, hn0, Option.map_eq_map, Option.map_some',
          Function.const_apply, Option.some.injEq] at hn1
        subst hn1
        exact ⟨n0, hn0, hs1⟩
      · simp only [hck, if_false] at hn1
        exact ⟨n1, hn1, hs1⟩

theorem loadMatrix_composed (simd : SimdLib) (g : GltfNode) (n n' : Node)
    (h : loadMatrix simd g n = .ok n') (hg : g.matrix.isEmpty = true) :
    n'.matrix = composedMatrix simd n' := by
  unfold loadMatrix at h
  simp only [hg, Bool.not_true, Bool.false_eq_true, if_false, Except.ok.injEq] at h
  subst h
  simp [UpdateMatrix, composedMatrix, matrix_multiply]

theorem buildNode_spec (simd : SimdLib) (g : GltfNode) (i : Nat) (nodes nodes' : List Node)
    (h : buildNode simd g i nodes = .ok nodes') :
    nodes'.length = nodes.length ∧
      (∀ k n', k ≠ i → nodes'[k]? = some n' → ∃ n, nodes[k]? = some n ∧ sameLocal n' n) ∧
      (∃ n', nodes'[i]? = some n' ∧
        (g.matrix.isEmpty = true → n'.matrix = composedMatrix simd n')) := by
  unfold buildNode at h
  split at h
  · simp at h
  · rename_i nodes1 hw
    obtain ⟨n0, hn0, rfl⟩ := writeNode_ok hw
    split at h
    · simp at h
    · rename_i n1 hn1
      split at h
      · simp at h
      · rename_i nodes2 hsp
        obtain ⟨hlen2, hloc2⟩ := setParents_sameLocal i _ _ _ hsp
        split at h
        · rename_i r s t hr hs ht
          split at h
          · simp at h
          · rename_i n2 hn2
            split at h
            · rename_i n3 hlm
              simp only [Except.ok.injEq] at h
              subst h
              have hi : i < nodes2.length := by
                have := List.getElem?_eq_some.1 hn2
                exact this.1
              refine ⟨by simpa using hlen2, ?_, ?_⟩
              · intro k n' hk hk'
                rw [List.getElem?_set_ne (Ne.symm hk)] at hk'
                obtain ⟨m, hm, hs'⟩ := hloc2 k n' hk'
                rw [List.getElem?_set_ne (Ne.symm hk)] at hm
                exact ⟨m, hm, hs'⟩
              · refine ⟨n3, by simp [List.getElem?_set_self hi], ?_⟩
                intro hg
                exact loadMatrix_composed simd g _ n3 hlm hg
            · simp at h
        · simp at h

theorem buildNodesFrom_spec (simd : SimdLib) :
    ∀ (gs : List GltfNode) (i : Nat) (nodes nodes' : List Node),
      buildNodesFrom simd gs i nodes = .ok nodes' →
      nodes'.length = nodes.length ∧
        (∀ k n', k < i → nodes'[k]? = some n' → ∃ n, nodes[k]? = some n ∧ sameLocal n' n) ∧
        (∀ j g, gs[j]? = some g → g.matrix.isEmpty = true →
          ∃ n', nodes'[i + j]? = some n' ∧ n'.matrix = composedMatrix simd n') := by
  intro gs
  induction gs with
  | nil =>
    intro i nodes nodes' h
    simp only [buildNodesFrom, Except.ok.injEq] at h
    subst h
    exact ⟨rfl, fun k n' _ hk => ⟨n', hk, rfl, rfl, rfl, rfl⟩, fun j g hj => by simp at hj⟩
  | cons g0 rest ih =>
    intro i nodes nodes' h
    rw [buildNodesFrom] at h
    cases hb : buildNode simd g0 i nodes with
    | error e => simp [hb] at h
    | ok nodes1 =>
      simp only [hb] at h
      obtain ⟨hlen1, hloc1, n1, hn1, hcomp1⟩ := buildNode_spec simd g0 i nodes nodes1 hb
      obtain ⟨hlen, hloc, hdone⟩ := ih (i + 1) nodes1 nodes' h
      refine ⟨hlen.trans hlen1, ?_, ?_⟩
      · intro k n' hk hk'
        obtain ⟨m1, hm1, hs1⟩ := hloc k n' (by omega) hk'
        obtain ⟨m, hm, hs⟩ := hloc1 k m1 (by omega) hm1
        exact ⟨m, hm, sameLocal_trans hs1 hs⟩
      · intro j g hj hg
        cases j with
        | zero =>
          simp only [List.getElem?_cons_zero, Option.some.injEq] at hj
          subst hj
          have hi : i < nodes'.length := by
            rw [hlen]; exact (List.getElem?_eq_some.1 hn1).1
          refine ⟨nodes'[i], by simp [List.getElem?_eq_getElem hi], ?_⟩
          obtain ⟨m1, hm1, hs1⟩ := hloc i nodes'[i] (by omega) (List.getElem?_eq_getElem hi)
          rw [hn1] at hm1
          simp only [Option.some.injEq] at hm1
          subst hm1
          rw [hs1.2.2.2, hcomp1 hg, composedMatrix_congr simd hs1]
        | succ j =>
          simp only [List.getElem?_cons_succ] at hj
          obtain ⟨n', hn', hc'⟩ := hdone j g hj hg
          exact ⟨n', by rw [← hn']; congr 1; omega, hc'⟩

theorem simd_translation_matrix_mulVec (t : simd_float3) (x y z : ℚ) :
    (simd_translation_matrix t).mulVec ![x, y, z, 1] = ![x + t 0, y + t 1, z + t 2, 1] := by
  funext i
  fin_cases i <;>
    simp [simd_translation_matrix, simd_matrix, simd_make_float4, Matrix.mulVec,
      Matrix.dotProduct, Fin.sum_univ_four, Matrix.vecHead, Matrix.vecTail]

theorem simd_scale_matrix_mulVec (s : simd_float3) (x y z w : ℚ) :
    (simd_scale_matrix s).mulVec ![x, y, z, w] = ![s 0 * x, s 1 * y, s 2 * z, w] := by
  funext i
  fin_cases i <;>
    simp [simd_scale_matrix, simd_matrix, simd_make_float4, Matrix.mulVec,
      Matrix.dotProduct, Fin.sum_univ_four, Matrix.vecHead, Matrix.vecTail]

/-- C3: `UpdateMatrix` sets `matrix` to
`Translation(translation) * Rotation(rotation) * Scale(scale)` and changes no
other field; applied to a column vector the result scales first, then
rotates, then translates (the translation matrix adds `translation` to a
point, the scale matrix multiplies the coordinates by `scale`); and every
node that the constructor builds from a model node with an empty `matrix`
ends with `matrix` equal to that composition of its own fields. -/
theorem UpdateMatrix_spec (simd : SimdLib) (node : Node) :
    UpdateMatrix simd node
        = { node with
            matrix := simd_translation_matrix node.translation
              * simd.simd_matrix4x4 node.rotation * simd_scale_matrix node.scale }
      ∧ (∀ v : simd_float4,
          (UpdateMatrix simd node).matrix.mulVec v
            = (simd_translation_matrix node.translation).mulVec
                ((simd.simd_matrix4x4 node.rotation).mulVec
                  ((simd_scale_matrix node.scale).mulVec v)))
      ∧ (∀ (t : simd_float3) (x y z : ℚ),
          (simd_translation_matrix t).mulVec ![x, y, z, 1] = ![x + t 0, y + t 1, z + t 2, 1])
      ∧ (∀ (s : simd_float3) (x y z w : ℚ),
          (simd_scale_matrix s).mulVec ![x, y, z, w] = ![s 0 * x, s 1 * y, s 2 * z, w])
      ∧ (∀ (model_nodes : List GltfNode) (nodes : List Node) (i : Nat) (g : GltfNode),
          buildNodes simd model_nodes = .ok nodes →
          model_nodes[i]? = some g → g.matrix.isEmpty = true →
          ∃ n, nodes[i]? = some n ∧
            n.matrix = simd_translation_matrix n.translation
              * simd.simd_matrix4x4 n.rotation * simd_scale_matrix n.scale) := by
  refine ⟨by simp [UpdateMatrix, matrix_multiply], ?_, simd_translation_matrix_mulVec,
    simd_scale_matrix_mulVec, ?_⟩
  · intro v
    simp [UpdateMatrix, matrix_multiply, Matrix.mulVec_mulVec, Matrix.mul_assoc]
  · intro model_nodes nodes i g hb hi hg
    obtain ⟨_, _, hdone⟩ := buildNodesFrom_spec simd model_nodes 0 _ nodes hb
    obtain ⟨n, hn, hc⟩ := hdone i g hi hg
    exact ⟨n, by simpa using hn, hc⟩

theorem UpdateMatrix_spec_witness :
    ∃ nodes n, buildNodes demoSimd demoModel = .ok nodes ∧ nodes[1]? = some n
      ∧ n.matrix = simd_translation_matrix n.translation
          * demoSimd.simd_matrix4x4 n.rotation * simd_scale_matrix n.scale := by
  have hb : ∃ nodes, buildNodes demoSimd demoModel = .ok nodes := ⟨_, rfl⟩
  obtain ⟨nodes, hb⟩ := hb
  obtain ⟨n, hn, hm⟩ :=
    (UpdateMatrix_spec demoSimd Node.zero).2.2.2.2 demoModel nodes 1 _ hb rfl rfl
  exact ⟨nodes, n, hb, hn, hm⟩

/-! ### The joint palette (C4) -/

theorem jointMatrix_eq_some (nodes : List Node) (fuel : Nat) (kInv : simd_float4x4)
    (skin : Skin) (i : Nat) (m : simd_float4x4) :
    jointMatrix nodes fuel kInv skin i = some m ↔
      ∃ j J B, skin.joints[i]? = some j ∧ CalcModelMatrix nodes fuel j = some J
        ∧ skin.inverse_bind_matrices[i]? = some B ∧ m = kInv * J * B := by
  unfold jointMatrix
  constructor
  · intro h
    split at h
    · rename_i j B hj hB
      split at h
      · rename_i J hJ
        simp only [Option.some.injEq, matrix_multiply] at h
        exact ⟨j, J, B, hj, hJ, hB, h.symm⟩
      · simp at h
    · simp at h
  · rintro ⟨j, J, B, hj, hJ, hB, rfl⟩
    simp [hj, hB, hJ, matrix_multiply]

theorem jointMatrices_eq_some (nodes : List Node) (fuel : Nat) (kInv : simd_float4x4)
    (skin : Skin) :
    ∀ (count i : Nat) (p : List simd_float4x4),
      jointMatrices nodes fuel kInv skin count i = some p ↔
        p.length = count ∧
          ∀ k : Nat, k < count → jointMatrix nodes fuel kInv skin (i + k) = p[k]? := by
  intro count
  induction count with
  | zero =>
    intro i p
    simp only [jointMatrices, Option.some.injEq]
    constructor
    · rintro rfl; simp
    · rintro ⟨h, _⟩; exact (List.length_eq_zero.1 h).symm
  | succ c ih =>
    intro i p
    rw [jointMatrices]
    constructor
    · intro h
      cases hm : jointMatrix nodes fuel kInv skin i with
      | none => simp [hm] at h
      | some m =>
        simp only [hm] at h
        cases hr : jointMatrices nodes fuel kInv skin c (i + 1) with
        | none => simp [hr] at h
        | some ms =>
          simp only [hr, Option.some.injEq] at h
          subst h
          obtain ⟨hlen, hk⟩ := (ih (i + 1) ms).1 hr
          refine ⟨by simp [hlen], ?_⟩
          intro k hk'
          cases k with
          | zero => simpa using hm
          | succ k =>
            have := hk k (by omega)
            simp only [List.getElem?_cons_succ]
            rw [← this]; congr 1; omega
    · rintro ⟨hlen, hk⟩
      cases p with
      | nil => simp at hlen
      | cons m ms =>
        have h0 := hk 0 (by omega)
        simp only [Nat.add_zero, List.getElem?_cons_zero] at h0
        have hr : jointMatrices nodes fuel kInv skin c (i + 1) = some ms := by
          refine (ih (i + 1) ms).2 ⟨by simpa using hlen, ?_⟩
          intro k hk'
          have := hk (k + 1) (by omega)
          simp only [List.getElem?_cons_succ] at this
          rw [← this]; congr 1; omega
        simp [h0, hr]

theorem renderPrimitive_joint_palette (simd : SimdLib) (d : Document) (fuel node : Nat) (n : Node)
    (primitive : Primitive) (skinIdx : Nat) (skin : Skin) (M : simd_float4x4)
    (hskin : n.skin = some skinIdx) (hs : d.skins_[skinIdx]? = some skin)
    (hM : CalcModelMatrix d.nodes_ fuel node = some M) :
    (∀ cmds, renderPrimitive simd d fuel node n primitive = some cmds →
      ∃ p, cmds = [.setVertexBuffer primitive.vertex_buffer, .setModelMatrix M,
                   .setJointPalette p,
                   .drawIndexedPrimitives primitive.draw_count primitive.index_buffer]
        ∧ p.length = skin.joints.length
        ∧ ∀ i : Nat, i < skin.joints.length →
            ∃ j J B, skin.joints[i]? = some j ∧ CalcModelMatrix d.nodes_ fuel j = some J
              ∧ skin.inverse_bind_matrices[i]? = some B
              ∧ p[i]? = some (simd.simd_inverse M * J * B))
    ∧ ((∀ i : Nat, i < skin.joints.length →
            ∃ j J B, skin.joints[i]? = some j ∧ CalcModelMatrix d.nodes_ fuel j = some J
              ∧ skin.inverse_bind_matrices[i]? = some B) →
        ∃ cmds, renderPrimitive simd d fuel node n primitive = some cmds) := by
  constructor
  · intro cmds h
    unfold renderPrimitive at h
    simp only [hM, hskin, hs] at h
    cases hp : jointMatrices d.nodes_ fuel (simd.simd_inverse M) skin skin.joints.length 0 with
    | none => simp [hp] at h
    | some p =>
      simp only [hp, Option.some.injEq] at h
      obtain ⟨hlen, hk⟩ := (jointMatrices_eq_some _ _ _ _ _ _ _).1 hp
      refine ⟨p, h.symm, hlen, ?_⟩
      intro i hi
      have hi' := hk i hi
      simp only [Nat.zero_add] at hi'
      have hip : i < p.length := by omega
      have hpi : p[i]? = some p[i] := List.getElem?_eq_getElem hip
      rw [hpi] at hi'
      obtain ⟨j, J, B, hj, hJ, hB, hm⟩ := (jointMatrix_eq_some _ _ _ _ _ _).1 hi'
      exact ⟨j, J, B, hj, hJ, hB, by rw [hpi, hm]⟩
  · intro hall
    have hex : ∃ p, jointMatrices d.nodes_ fuel (simd.simd_inverse M) skin
        skin.joints.length 0 = some p := by
      refine ⟨(List.range skin.joints.length).map (fun i =>
        (jointMatrix d.nodes_ fuel (simd.simd_inverse M) skin i).getD 0), ?_⟩
      refine (jointMatrices_eq_some _ _ _ _ _ _ _).2 ⟨by simp, ?_⟩
      intro k hk
      obtain ⟨j, J, B, hj, hJ, hB⟩ := hall k hk
      have : jointMatrix d.nodes_ fuel (simd.simd_inverse M) skin k
          = some (simd.simd_inverse M * J * B) :=
        (jointMatrix_eq_some _ _ _ _ _ _).2 ⟨j, J, B, hj, hJ, hB, rfl⟩
      simp [this, hk]
    obtain ⟨p, hp⟩ := hex
    unfold renderPrimitive
    simp [hM, hskin, hs, hp]

/-! ### Keyframe sampling (C5) -/

theorem findInterval_least (times : List ℚ) (t : ℚ) (i : Nat) (lo hi : ℚ)
    (hlo : times[i - 1]? = some lo) (hhi : times[i]? = some hi)
    (hbr : lo ≤ t ∧ t < hi) :
    ∀ (fuel j : Nat), j ≤ i → i < j + fuel →
      (∀ (k : Nat) (a b : ℚ), j ≤ k → k < i → times[k - 1]? = some a →
        times[k]? = some b → ¬ (a ≤ t ∧ t < b)) →
      findInterval times t fuel j = some i := by
  intro fuel
  induction fuel with
  | zero => intro j h1 h2; omega
  | succ f ih =>
    intro j hji hlt hleast
    rw [findInterval]
    by_cases hj : j = i
    · subst hj
      simp [hlo, hhi, hbr]
    · have hil : i < times.length := (List.getElem?_eq_some.1 hhi).1
      have hj1 : j - 1 < times.length := by omega
      have hj2 : j < times.length := by omega
      have e1 : times[j - 1]? = some times[j - 1] := List.getElem?_eq_getElem hj1
      have e2 : times[j]? = some times[j] := List.getElem?_eq_getElem hj2
      have hno := hleast j _ _ (Nat.le_refl j) (by omega) e1 e2
      simp only [e1, e2, hno, if_false]
      exact ih (j + 1) (by omega) (by omega)
        (fun k a b hk1 hk2 ha hb => hleast k a b (by omega) hk2 ha hb)

theorem sampleRotation_of_bracket (simd : SimdLib) (sampler : Sampler) (time t lo hi : ℚ)
    (i : Nat) (q0 q1 : simd_quatf)
    (ht : adjustTime sampler.times time = .ok (some t))
    (hi1 : 1 ≤ i)
    (hlo : sampler.times[i - 1]? = some lo) (hhi : sampler.times[i]? = some hi)
    (hbr : lo ≤ t ∧ t < hi)
    (hleast : ∀ (k : Nat) (a b : ℚ), 1 ≤ k → k < i → sampler.times[k - 1]? = some a →
      sampler.times[k]? = some b → ¬ (a ≤ t ∧ t < b))
    (hq0 : readQuat sampler.values (4 * (i - 1)) = some q0)
    (hq1 : readQuat sampler.values (4 * i) = some q1) :
    sampleRotation simd sampler time = .ok (simd.simd_slerp q0 q1 ((t - lo) / (hi - lo))) := by
  have hil : i < sampler.times.length := (List.getElem?_eq_some.1 hhi).1
  have hfind : findInterval sampler.times t sampler.times.length 1 = some i :=
    findInterval_least sampler.times t i lo hi hlo hhi hbr _ 1 hi1 (by omega) hleast
  have e0 : (i - 1) * 4 = 4 * (i - 1) := by omega
  have e1 : 4 * (i - 1) + 4 = 4 * i := by omega
  unfold sampleRotation
  simp only [ht, hfind, e0, e1, hq0, hq1, hlo, hhi]

theorem updateChannel_of_sample (simd : SimdLib) (animation : Animation) (channel : Channel)
    (nodes : List Node) (sampler : Sampler) (n : Node) (r : simd_quatf)
    (hpath : channel.path = "rotation")
    (hsampler : animation.samplers[channel.sampler]? = some sampler)
    (hr : sampleRotation simd sampler animation.time = .ok r)
    (htarget : nodes[channel.target]? = some n) :
    updateChannel simd animation channel nodes
      = .ok (nodes.set channel.target (UpdateMatrix simd { n with rotation := r })) := by
  have hlt : channel.target < nodes.length := (List.getElem?_eq_some.1 htarget).1
  unfold updateChannel
  simp only [hpath, if_true, hsampler, hr, writeNode, htarget]
  simp [List.getElem?_set_self hlt, List.set_set]

/-- C5: for a rotation channel whose sampler is read at the normalized time
`t`, if `i >= 1` is the least index with `times[i-1] <= t < times[i]` and
`q0`, `q1` are the quaternions decoded from the four floats at float offsets
`4(i-1) .. 4(i-1)+3` and `4i .. 4i+3` of the value buffer, then the update of
the channel succeeds and writes to the target node the rotation
`slerp(q0, q1, (t - times[i-1]) / (times[i] - times[i-1]))` (and then
recomposes the node's matrix). -/
theorem Update_writes_slerp (simd : SimdLib) (animation : Animation) (channel : Channel)
    (nodes : List Node) (sampler : Sampler) (n : Node) (t lo hi : ℚ) (i : Nat)
    (q0 q1 : simd_quatf)
    (hpath : channel.path = "rotation")
    (hsampler : animation.samplers[channel.sampler]? = some sampler)
    (htarget : nodes[channel.target]? = some n)
    (ht : adjustTime sampler.times animation.time = .ok (some t))
    (hi1 : 1 ≤ i)
    (hlo : sampler.times[i - 1]? = some lo) (hhi : sampler.times[i]? = some hi)
    (hbr : lo ≤ t ∧ t < hi)
    (hleast : ∀ (k : Nat) (a b : ℚ), 1 ≤ k → k < i → sampler.times[k - 1]? = some a →
      sampler.times[k]? = some b → ¬ (a ≤ t ∧ t < b))
    (hq0 : readQuat sampler.values (4 * (i - 1)) = some q0)
    (hq1 : readQuat sampler.values (4 * i) = some q1) :
    ∃ nodes' n',
      updateChannel simd animation channel nodes = .ok nodes'
        ∧ nodes'[channel.target]? = some n'
        ∧ n'.rotation = simd.simd_slerp q0 q1 ((t - lo) / (hi - lo))
        ∧ nodes' = nodes.set channel.target
            (UpdateMatrix simd
              { n with rotation := simd.simd_slerp q0 q1 ((t - lo) / (hi - lo)) }) := by
  have hr := sampleRotation_of_bracket simd sampler animation.time t lo hi i q0 q1 ht hi1
    hlo hhi hbr hleast hq0 hq1
  have hu := updateChannel_of_sample simd animation channel nodes sampler n _ hpath hsampler
    hr htarget
  have hlt : channel.target < nodes.length := (List.getElem?_eq_some.1 htarget).1
  refine ⟨_, _, hu, List.getElem?_set_self hlt, ?_, rfl⟩
  simp [UpdateMatrix]

theorem Update_writes_slerp_witness :
    ∃ nodes' n',
      updateChannel demoSimd { demoAnimation with time := 1 / 2 }
          { sampler := 0, target := 1, path := "rotation" } demoNodes = .ok nodes'
        ∧ nodes'[1]? = some n'
        ∧ n'.rotation = demoSimd.simd_slerp ⟨0, 0, 0, 1⟩ ⟨1, 0, 0, 0⟩ ((1 / 2 - 0) / (1 - 0)) := by
  have ht : adjustTime demoSampler.times (1 / 2) = .ok (some (1 / 2)) := by
    simp [adjustTime, fmod, truncQ, demoSampler]; norm_num
  obtain ⟨nodes', n', h1, h2, h3, _⟩ :=
    Update_writes_slerp demoSimd { demoAnimation with time := 1 / 2 }
      { sampler := 0, target := 1, path := "rotation" } demoNodes demoSampler _
      (1 / 2) 0 1 1 ⟨0, 0, 0, 1⟩ ⟨1, 0, 0, 0⟩ rfl rfl rfl ht (by decide) rfl rfl
      (by norm_num) (fun k a b h1 h2 => by omega) rfl rfl
  exact ⟨nodes', n', h1, h2, h3⟩

/-! ### The C `fmod` -/

theorem truncQ_eq_zero_iff (q : ℚ) : truncQ q = 0 ↔ |q| < 1 := by
  unfold truncQ
  split
  · rename_i h
    rw [Int.floor_eq_iff, abs_lt]
    constructor
    · rintro ⟨h1, h2⟩; constructor <;> [linarith; simpa using h2]
    · rintro ⟨h1, h2⟩; exact ⟨by simpa using h, by simpa using h2⟩
  · rename_i h
    rw [Int.ceil_eq_iff, abs_lt]
    push_neg at h
    constructor
    · rintro ⟨h1, h2⟩; constructor <;> [simpa using h1; linarith]
    · rintro ⟨h1, h2⟩; exact ⟨by simpa using h1, by simpa using h.le⟩

theorem truncQ_of_nonneg (q : ℚ) (h : 0 ≤ q) : truncQ q = ⌊q⌋ := by
  simp [truncQ, h]

theorem fmod_remainder_bounds (x y : ℚ) (hy : 0 < y) :
    |x - truncQ (x / y) * y| < y
      ∧ (0 ≤ x → 0 ≤ x - truncQ (x / y) * y)
      ∧ (x ≤ 0 → x - truncQ (x / y) * y ≤ 0) := by
  have hx : x = x / y * y := by field_simp
  have hr : x - truncQ (x / y) * y = (x / y - truncQ (x / y)) * y := by
    rw [sub_mul, ← hx]
  rw [hr]
  by_cases hq : 0 ≤ x / y
  · have hx0 : 0 ≤ x := by rw [hx]; exact mul_nonneg hq hy.le
    rw [truncQ_of_nonneg _ hq]
    have h1 : 0 ≤ x / y - ⌊x / y⌋ := sub_nonneg.2 (Int.floor_le _)
    have h2 : x / y - ⌊x / y⌋ < 1 := by
      have := Int.lt_floor_add_one (x / y); linarith
    have h3 : 0 ≤ (x / y - ⌊x / y⌋) * y := mul_nonneg h1 hy.le
    have h4 : (x / y - ⌊x / y⌋) * y < y := by nlinarith
    refine ⟨by rw [abs_of_nonneg h3]; exact h4, fun _ => h3, ?_⟩
    intro hx1
    have hx2 : x = 0 := le_antisymm hx1 hx0
    simp [hx2]
  · push_neg at hq
    have hx0 : x < 0 := by
      by_contra hc; push_neg at hc
      exact absurd (div_nonneg hc hy.le) (not_le.2 hq)
    have ht : truncQ (x / y) = ⌈x / y⌉ := by simp [truncQ, not_le.2 hq]
    rw [ht]
    have h1 : x / y - ⌈x / y⌉ ≤ 0 := sub_nonpos.2 (Int.le_ceil _)
    have h2 : -1 < x / y - ⌈x / y⌉ := by
      have := Int.ceil_lt_add_one (x / y); linarith
    have h3 : (x / y - ⌈x / y⌉) * y ≤ 0 := mul_nonpos_of_nonpos_of_nonneg h1 hy.le
    have h4 : -y < (x / y - ⌈x / y⌉) * y := by nlinarith
    refine ⟨by rw [abs_of_nonpos h3]; linarith, ?_, fun _ => h3⟩
    intro hx1; exact absurd hx1 (not_le.2 hx0)

theorem fmod_eq_self_iff (x y : ℚ) : fmod x y = some x ↔ |x| < |y| := by
  unfold fmod
  by_cases hy : y = 0
  · simp [hy]
  · simp only [hy, if_false, Option.some.injEq, sub_eq_self, mul_eq_zero, or_false,
      Int.cast_eq_zero]
    rw [truncQ_eq_zero_iff, abs_div, div_lt_one (abs_pos.2 hy)]

theorem fmod_self (L : ℚ) (hL : L ≠ 0) : fmod L L = some 0 := by
  unfold fmod
  simp [hL, truncQ]

/-! ### Normalised sampling time (C6, C7) -/

theorem adjustTime_eq (times : List ℚ) (front back t : ℚ)
    (hfront : times.head? = some front) (hlast : times.getLast? = some back) :
    adjustTime times t = .ok (fmod (if t < front then front else t) back) := by
  simp [adjustTime, hfront, hlast]

/-- C6: for keyframe times with last time `L > 0` and an animation time
`t >= times.front()`, the time at which `Update` samples is `fmod(t, L)`, the
remainder `r = t - n * L` with `n` the quotient `t / L` rounded toward zero:
`t - r` is a whole multiple of `L` itself, `|r| < L`, and `r` has the sign of
`t` (so `0 <= r < L` for `t >= 0`). -/
theorem adjustTime_loop (times : List ℚ) (front L t : ℚ)
    (hfront : times.head? = some front) (hlast : times.getLast? = some L)
    (hL : 0 < L) (ht : front ≤ t) :
    ∃ (r : ℚ) (k : ℤ),
      adjustTime times t = .ok (some r) ∧ t = r + k * L ∧ |r| < L
        ∧ (0 ≤ t → 0 ≤ r) ∧ (t ≤ 0 → r ≤ 0) ∧ r = t - truncQ (t / L) * L := by
  refine ⟨t - truncQ (t / L) * L, truncQ (t / L), ?_, by ring, ?_⟩
  · rw [adjustTime_eq times front L t hfront hlast]
    simp [not_lt.2 ht, fmod, hL.ne']
  · obtain ⟨h1, h2, h3⟩ := fmod_remainder_bounds t L hL
    exact ⟨h1, h2, h3, rfl⟩

theorem adjustTime_loop_witness :
    adjustTime [0, 1, 2] (5 / 2) = .ok (some (1 / 2)) := by
  obtain ⟨r, k, h, _, _, _, _, hr⟩ :=
    adjustTime_loop [0, 1, 2] 0 2 (5 / 2) rfl rfl (by norm_num) (by norm_num)
  have e : r = 1 / 2 := by
    rw [hr]; simp [truncQ]; norm_num
  rw [h, e]

/-- C7, the claim as stated fails: with the single keyframe time 1 and the
animation time 3/10 (before the first keyframe) the sampling time is 0, not
the first keyframe time 1. -/
theorem adjustTime_clamp_counterexample :
    ([1] : List ℚ).head? = some 1 ∧ (3 / 10 : ℚ) < 1
      ∧ adjustTime [1] (3 / 10) = .ok (some 0)
      ∧ adjustTime [1] (3 / 10) ≠ .ok (some 1) := by
  have h : adjustTime [1] (3 / 10) = .ok (some 0) := by
    norm_num [adjustTime, fmod, truncQ]
  refine ⟨rfl, by norm_num, h, ?_⟩
  rw [h]; simp

/-- C7 as amended: for a non-empty keyframe sequence and an animation time
`t < times.front()`, the time is set to `times.front()` and then reduced by
`fmod(.., times.back())` like every other time; the sampling time is
`times.front()` exactly when `|times.front()| < |times.back()|`. -/
theorem adjustTime_clamp (times : List ℚ) (front back t : ℚ)
    (hfront : times.head? = some front) (hlast : times.getLast? = some back)
    (ht : t < front) :
    adjustTime times t = .ok (fmod front back)
      ∧ (adjustTime times t = .ok (some front) ↔ |front| < |back|) := by
  have h : adjustTime times t = .ok (fmod front back) := by
    rw [adjustTime_eq times front back t hfront hlast]; simp [ht]
  refine ⟨h, ?_⟩
  rw [h, ← fmod_eq_self_iff]
  simp

theorem adjustTime_clamp_witness :
    adjustTime [1, 2] (3 / 10) = .ok (some 1) :=
  (adjustTime_clamp [1, 2] 1 2 (3 / 10) rfl rfl (by norm_num)).2.2 (by norm_num)

/-! ### Sampling at a keyframe time (C8) -/

theorem times_lt_of_pairwise (times : List ℚ) (hasc : times.Pairwise (· < ·))
    (i j : Nat) (a b : ℚ) (hij : i < j) (ha : times[i]? = some a) (hb : times[j]? = some b) :
    a < b := by
  obtain ⟨hi, rfl⟩ := List.getElem?_eq_some.1 ha
  obtain ⟨hj, rfl⟩ := List.getElem?_eq_some.1 hb
  exact List.pairwise_iff_getElem.1 hasc i j hi hj hij

theorem times_le_of_pairwise (times : List ℚ) (hasc : times.Pairwise (· < ·))
    (i j : Nat) (a b : ℚ) (hij : i ≤ j) (ha : times[i]? = some a) (hb : times[j]? = some b) :
    a ≤ b := by
  rcases Nat.lt_or_eq_of_le hij with h | h
  · exact (times_lt_of_pairwise times hasc i j a b h ha hb).le
  · subst h
    rw [ha] at hb
    exact le_of_eq (Option.some.inj hb)

theorem adjustTime_at_keyframe (times : List ℚ) (hasc : times.Pairwise (· < ·))
    (k : Nat) (tk : ℚ) (hk : times[k]? = some tk) (hnext : k + 1 < times.length)
    (h0 : 0 ≤ tk) : adjustTime times tk = .ok (some tk) := by
  have hlen : 0 < times.length := by omega
  have hf : times.head? = some times[0] := by
    rw [List.head?_eq_getElem?]; exact List.getElem?_eq_getElem hlen
  have hl1 : times.length - 1 < times.length := by omega
  have hl : times.getLast? = some times[times.length - 1] := by
    rw [List.getLast?_eq_getElem?]; exact List.getElem?_eq_getElem hl1
  have hfk : times[0] ≤ tk :=
    times_le_of_pairwise times hasc 0 k _ _ (Nat.zero_le k) (List.getElem?_eq_getElem hlen) hk
  have hkl : tk < times[times.length - 1] :=
    times_lt_of_pairwise times hasc k (times.length - 1) _ _ (by omega) hk
      (List.getElem?_eq_getElem hl1)
  rw [adjustTime_eq times _ _ tk hf hl, if_neg (not_lt.2 hfk)]
  have : fmod tk times[times.length - 1] = some tk := by
    rw [fmod_eq_self_iff, abs_of_nonneg h0, abs_of_pos (lt_of_le_of_lt h0 hkl)]
    exact hkl
  rw [this]

theorem adjustTime_at_last (times : List ℚ) (L : ℚ) (hlast : times.getLast? = some L)
    (hL : 0 < L) (hasc : times.Pairwise (· < ·)) : adjustTime times L = .ok (some 0) := by
  have hlen : 0 < times.length := by
    cases times with
    | nil => simp at hlast
    | cons a l => simp
  have hf : times.head? = some times[0] := by
    rw [List.head?_eq_getElem?]; exact List.getElem?_eq_getElem hlen
  have hl : times[times.length - 1]? = some L := by
    rw [← List.getLast?_eq_getElem?]; exact hlast
  have hfl : times[0] ≤ L :=
    times_le_of_pairwise times hasc 0 (times.length - 1) _ _ (Nat.zero_le _)
      (List.getElem?_eq_getElem hlen) hl
  rw [adjustTime_eq times _ _ L hf hlast, if_neg (not_lt.2 hfl), fmod_self L hL.ne']

/-- C8, the claim as stated fails at the last keyframe: with keyframe times
`[0, 1]`, the stored rotations `(0,0,0,1)` and `(1,0,0,0)` and an
interpolation with `slerp(a, b, 0) = a` and `slerp(a, b, 1) = b`, the rotation
written at animation time 1 (the last keyframe time) is the first stored
rotation, not the last. -/
theorem sample_last_keyframe_counterexample :
    demoSampler.times = [0, 1]
      ∧ readQuat demoSampler.values (4 * 1) = some ⟨1, 0, 0, 0⟩
      ∧ (∀ a b, demoSimd.simd_slerp a b 0 = a) ∧ (∀ a b, demoSimd.simd_slerp a b 1 = b)
      ∧ sampleRotation demoSimd demoSampler 1 = .ok ⟨0, 0, 0, 1⟩
      ∧ sampleRotation demoSimd demoSampler 1 ≠ .ok ⟨1, 0, 0, 0⟩
      ∧ updateChannel demoSimd { demoAnimation with time := 1 }
          { sampler := 0, target := 1, path := "rotation" } demoNodes
        = .ok (demoNodes.set 1 (UpdateMatrix demoSimd
            { Node.zero with name := "a", parent := some 0, children := [2],
                             matrix := simd_scale_matrix ![2, 3, 4],
                             rotation := ⟨0, 0, 0, 1⟩ })) := by
  have hs : sampleRotation demoSimd demoSampler 1 = .ok ⟨0, 0, 0, 1⟩ := by
    norm_num [sampleRotation, adjustTime, fmod, truncQ, findInterval, readQuat, demoSampler,
      demoSimd]
  refine ⟨rfl, rfl, ?_, ?_, hs, ?_, ?_⟩
  · intro a b; simp [demoSimd]
  · intro a b; simp [demoSimd]
  · rw [hs]; simp
  · exact updateChannel_of_sample demoSimd { demoAnimation with time := 1 }
      { sampler := 0, target := 1, path := "rotation" } demoNodes demoSampler _ _ rfl rfl hs rfl

/-- C8 as amended: for strictly ascending keyframe times and a keyframe
index `k` that is not the last one, with `times[k] >= 0`, when the animation
time equals `times[k]` the rotation that `Update` writes to the target node is
the `k`-th stored quaternion (given `slerp(a, b, 0) = a`); at the last
keyframe time `L > 0` the sampling time wraps to 0. -/
theorem sample_at_keyframe (simd : SimdLib) (sampler : Sampler) (k : Nat) (tk : ℚ)
    (qk qn : simd_quatf)
    (hslerp : ∀ a b, simd.simd_slerp a b 0 = a)
    (hasc : sampler.times.Pairwise (· < ·))
    (hk : sampler.times[k]? = some tk) (hnext : k + 1 < sampler.times.length)
    (h0 : 0 ≤ tk)
    (hq : readQuat sampler.values (4 * k) = some qk)
    (hqn : readQuat sampler.values (4 * (k + 1)) = some qn) :
    sampleRotation simd sampler tk = .ok qk
      ∧ (∀ (animation : Animation) (channel : Channel) (nodes : List Node) (n : Node),
          channel.path = "rotation" →
          animation.samplers[channel.sampler]? = some sampler →
          animation.time = tk → nodes[channel.target]? = some n →
          ∃ nodes' n', updateChannel simd animation channel nodes = .ok nodes'
            ∧ nodes'[channel.target]? = some n' ∧ n'.rotation = qk)
      ∧ (∀ L : ℚ, sampler.times.getLast? = some L →
          adjustTime sampler.times L = .ok (some 0)) := by
  have ht := adjustTime_at_keyframe sampler.times hasc k tk hk hnext h0
  have hhi : sampler.times[k + 1]? = some sampler.times[k + 1] :=
    List.getElem?_eq_getElem hnext
  have hlt : tk < sampler.times[k + 1] :=
    times_lt_of_pairwise sampler.times hasc k (k + 1) _ _ (by omega) hk hhi
  have hs : sampleRotation simd sampler tk = .ok qk := by
    have h := sampleRotation_of_bracket simd sampler tk tk tk sampler.times[k + 1] (k + 1)
      qk qn ht (by omega) (by simpa using hk) hhi ⟨le_refl _, hlt⟩
      (fun j a b hj1 hj2 _ hb => by
        have : b ≤ tk := times_le_of_pairwise sampler.times hasc j k b tk (by omega) hb hk
        intro hbr
        exact absurd hbr.2 (not_lt.2 this))
      (by simpa using hq) hqn
    rw [h]
    simp [hslerp]
  refine ⟨hs, ?_, ?_⟩
  · intro animation channel nodes n hp hsm hat hn
    have hu := updateChannel_of_sample simd animation channel nodes sampler n qk hp hsm
      (by rw [hat]; exact hs) hn
    have hl : channel.target < nodes.length := (List.getElem?_eq_some.1 hn).1
    exact ⟨_, _, hu, List.getElem?_set_self hl, by simp [UpdateMatrix]⟩
  · intro L hL
    have hl1 : sampler.times.length - 1 < sampler.times.length := by omega
    have hLe : sampler.times[sampler.times.length - 1]? = some L := by
      rw [← List.getLast?_eq_getElem?]; exact hL
    have : tk < L :=
      times_lt_of_pairwise sampler.times hasc k (sampler.times.length - 1) tk L (by omega)
        hk hLe
    exact adjustTime_at_last sampler.times L hL (lt_of_le_of_lt h0 this) hasc

theorem sample_at_keyframe_witness :
    sampleRotation demoSimd demoSampler 0 = .ok ⟨0, 0, 0, 1⟩ :=
  (sample_at_keyframe demoSimd demoSampler 0 0 ⟨0, 0, 0, 1⟩ ⟨1, 0, 0, 0⟩
    (fun a b => by simp [demoSimd]) (by simp [demoSampler]) rfl (by decide) (le_refl 0)
    rfl rfl).1

/-! ### Looping period (C9) -/

/-- The period needs an animation time that is not negative: were the time
`-1/2` possible, then with the keyframe times `[-1, 1]` (last time `L = 1`)
the rotation sampled at `t + L` would differ from the one sampled at `t`,
because `fmod` keeps the sign of its first argument. -/
theorem negative_time_breaks_period :
    demoEarlySampler.times = [-1, 1] ∧ demoEarlySampler.times.Pairwise (· < ·)
      ∧ demoEarlySampler.times.head? = some (-1)
      ∧ demoEarlySampler.times.getLast? = some 1
      ∧ (-1 : ℚ) ≤ -1 / 2
      ∧ sampleRotation demoSimd demoEarlySampler (-1 / 2) = .ok ⟨1 / 4, 0, 0, 3 / 4⟩
      ∧ sampleRotation demoSimd demoEarlySampler (-1 / 2 + 1) = .ok ⟨3 / 4, 0, 0, 1 / 4⟩
      ∧ sampleRotation demoSimd demoEarlySampler (-1 / 2 + 1)
          ≠ sampleRotation demoSimd demoEarlySampler (-1 / 2) := by
  have ha1 : adjustTime demoEarlySampler.times (-1 / 2) = .ok (some (-1 / 2)) := by
    rw [adjustTime_eq demoEarlySampler.times (-1) 1 _ rfl rfl, if_neg (by norm_num),
      (fmod_eq_self_iff _ _).2 (by rw [abs_lt]; norm_num)]
  have ha2 : adjustTime demoEarlySampler.times (-1 / 2 + 1) = .ok (some (1 / 2)) := by
    have e : (-1 / 2 + 1 : ℚ) = 1 / 2 := by norm_num
    rw [e, adjustTime_eq demoEarlySampler.times (-1) 1 _ rfl rfl, if_neg (by norm_num),
      (fmod_eq_self_iff _ _).2 (by rw [abs_lt]; norm_num)]
  have h1 : sampleRotation demoSimd demoEarlySampler (-1 / 2) = .ok ⟨1 / 4, 0, 0, 3 / 4⟩ := by
    rw [sampleRotation_of_bracket demoSimd demoEarlySampler (-1 / 2) (-1 / 2) (-1) 1 1
      ⟨0, 0, 0, 1⟩ ⟨1, 0, 0, 0⟩ ha1 (by decide) rfl rfl (by norm_num)
      (fun k a b hk1 hk2 => by omega) rfl rfl]
    norm_num [demoSimd]
  have h2 : sampleRotation demoSimd demoEarlySampler (-1 / 2 + 1)
      = .ok ⟨3 / 4, 0, 0, 1 / 4⟩ := by
    rw [sampleRotation_of_bracket demoSimd demoEarlySampler (-1 / 2 + 1) (1 / 2) (-1) 1 1
      ⟨0, 0, 0, 1⟩ ⟨1, 0, 0, 0⟩ ha2 (by decide) rfl rfl (by norm_num)
      (fun k a b hk1 hk2 => by omega) rfl rfl]
    norm_num [demoSimd]
  refine ⟨rfl, by simp [demoEarlySampler], rfl, rfl, by norm_num, h1, h2, ?_⟩
  rw [h1, h2]
  norm_num

theorem updateChannel_ready (simd : SimdLib) (animation : Animation) (channel : Channel)
    (nodes : List Node) (h : channelReady simd animation nodes.length channel = true) :
    ∃ nodes', updateChannel simd animation channel nodes = .ok nodes'
      ∧ nodes'.length = nodes.length := by
  unfold channelReady at h
  simp only [Bool.and_eq_true, decide_eq_true_eq] at h
  obtain ⟨⟨hp, ht⟩, hs⟩ := h
  cases hsm : animation.samplers[channel.sampler]? with
  | none => simp [hsm] at hs
  | some sampler =>
    simp only [hsm] at hs
    cases hr : sampleRotation simd sampler animation.time with
    | error e => simp [hr] at hs
    | ok r =>
      have hn : nodes[channel.target]? = some nodes[channel.target] :=
        List.getElem?_eq_getElem ht
      refine ⟨_, updateChannel_of_sample simd animation channel nodes sampler _ r hp hsm hr hn,
        by simp⟩

theorem updateChannels_ready (simd : SimdLib) (animation : Animation) :
    ∀ (channels : List Channel) (nodes : List Node),
      (∀ c ∈ channels, channelReady simd animation nodes.length c = true) →
      ∃ nodes', updateChannels simd animation channels nodes = .ok nodes'
        ∧ nodes'.length = nodes.length := by
  intro channels
  induction channels with
  | nil => intro nodes _; exact ⟨nodes, rfl, rfl⟩
  | cons c rest ih =>
    intro nodes h
    obtain ⟨nodes1, h1, hl1⟩ :=
      updateChannel_ready simd animation c nodes (h c (List.mem_cons_self _ _))
    obtain ⟨nodes2, h2, hl2⟩ := ih nodes1 (fun c' hc' => by
      rw [hl1]; exact h c' (List.mem_cons_of_mem _ hc'))
    refine ⟨nodes2, ?_, hl2.trans hl1⟩
    rw [updateChannels]
    simp only [h1, h2]

theorem updateAnimations_ready (simd : SimdLib) (delta_time : ℚ) :
    ∀ (animations : List Animation) (nodes : List Node),
      (∀ a ∈ animations, ∀ c ∈ a.channels,
        channelReady simd { a with time := a.time + delta_time } nodes.length c = true) →
      ∃ animations' nodes',
        updateAnimations simd delta_time animations nodes = .ok (animations', nodes')
          ∧ nodes'.length = nodes.length := by
  intro animations
  induction animations with
  | nil => intro nodes _; exact ⟨[], nodes, rfl, rfl⟩
  | cons a rest ih =>
    intro nodes h
    obtain ⟨nodes1, h1, hl1⟩ :=
      updateChannels_ready simd { a with time := a.time + delta_time } a.channels nodes
        (h a (List.mem_cons_self _ _))
    obtain ⟨rest', nodes2, h2, hl2⟩ := ih nodes1 (fun a' ha' c hc => by
      rw [hl1]; exact h a' (List.mem_cons_of_mem _ ha') c hc)
    refine ⟨{ a with time := a.time + delta_time } :: rest', nodes2, ?_, hl2.trans hl1⟩
    rw [updateAnimations]
    simp only [UpdateAnimation, h1, h2]

theorem updateAnimations_time (simd : SimdLib) (delta_time : ℚ) :
    ∀ (animations animations' : List Animation) (nodes nodes' : List Node),
      updateAnimations simd delta_time animations nodes = .ok (animations', nodes') →
      animations' = animations.map fun a => { a with time := a.time + delta_time } := by
  intro animations
  induction animations with
  | nil =>
    intro animations' nodes nodes' h
    simp only [updateAnimations, Except.ok.injEq, Prod.mk.injEq] at h
    simp [← h.1]
  | cons a rest ih =>
    intro animations' nodes nodes' h
    rw [updateAnimations] at h
    cases h1 : UpdateAnimation simd delta_time a nodes with
    | error e => simp [h1] at h
    | ok r1 =>
      obtain ⟨a1, nodes1⟩ := r1
      simp only [h1] at h
      cases h2 : updateAnimations simd delta_time rest nodes1 with
      | error e => simp [h2] at h
      | ok r2 =>
        obtain ⟨rest2, nodes2⟩ := r2
        simp only [h2, Except.ok.injEq, Prod.mk.injEq] at h
        have e1 : a1 = { a with time := a.time + delta_time } := by
          unfold UpdateAnimation at h1
          cases hc : updateChannels simd { a with time := a.time + delta_time } a.channels
              nodes with
          | error e => simp [hc] at h1
          | ok ns =>
            simp only [hc, Except.ok.injEq, Prod.mk.injEq] at h1
            exact h1.1.symm
        rw [← h.1, e1, ih rest2 nodes1 nodes2 h2]
        simp

/-- C10: when `Document::Update(delta_time)` completes, the animations are
the ones before the call with `delta_time` added to each `time` exactly once,
nothing else of an animation changed and no clamping or wrapping applied,
whatever the channels and keyframes; and it completes whenever every channel
of every animation can be updated at the advanced time. -/
theorem Update_advances_time (simd : SimdLib) (d : Document) (delta_time : ℚ) :
    (∀ d', Document.Update simd d delta_time = .ok d' →
        d'.animations_ = d.animations_.map fun a => { a with time := a.time + delta_time })
      ∧ ((∀ a ∈ d.animations_, ∀ c ∈ a.channels,
            channelReady simd { a with time := a.time + delta_time } d.nodes_.length c = true) →
          ∃ d', Document.Update simd d delta_time = .ok d') := by
  constructor
  · intro d' h
    unfold Document.Update at h
    cases hu : updateAnimations simd delta_time d.animations_ d.nodes_ with
    | error e => simp [hu] at h
    | ok r =>
      obtain ⟨as, ns⟩ := r
      simp only [hu, Except.ok.injEq] at h
      rw [← h]
      exact updateAnimations_time simd delta_time _ _ _ _ hu
  · intro hready
    obtain ⟨as, ns, hu, _⟩ := updateAnimations_ready simd delta_time _ _ hready
    exact ⟨{ d with animations_ := as, nodes_ := ns }, by
      unfold Document.Update; simp only [hu]⟩

theorem Update_advances_time_witness :
    ∃ d', Document.Update demoSimd demoDocument (1 / 2) = .ok d'
      ∧ d'.animations_ = [{ demoAnimation with time := 0 + 1 / 2 }] := by
  have h := Update_advances_time demoSimd demoDocument (1 / 2)
  have hready : ∀ a ∈ demoDocument.animations_, ∀ c ∈ a.channels,
      channelReady demoSimd { a with time := a.time + 1 / 2 } demoDocument.nodes_.length c
        = true := by
    intro a ha c hc
    simp only [demoDocument, List.mem_singleton] at ha
    subst ha
    simp only [demoAnimation, List.mem_singleton] at hc
    subst hc
    norm_num [channelReady, demoDocument, demoNodes, demoAnimation, sampleRotation, adjustTime,
      fmod, truncQ, findInterval, readQuat, demoSampler, demoSimd]
  obtain ⟨d', hd⟩ := h.2 hready
  exact ⟨d', hd, by rw [h.1 d' hd]; rfl⟩

/-! ### Recomposition after a rotation channel (C11) -/

theorem updateChannel_ok_inv (simd : SimdLib) (animation : Animation) (channel : Channel)
    (nodes nodes' : List Node)
    (h : updateChannel simd animation channel nodes = .ok nodes') :
    channel.path = "rotation" ∧
      ∃ sampler r n, animation.samplers[channel.sampler]? = some sampler
        ∧ sampleRotation simd sampler animation.time = .ok r
        ∧ nodes[channel.target]? = some n
        ∧ nodes' = nodes.set channel.target (UpdateMatrix simd { n with rotation := r }) := by
  by_cases hp : channel.path = "rotation"
  · refine ⟨hp, ?_⟩
    cases hs : animation.samplers[channel.sampler]? with
    | none => simp [updateChannel, hp, hs] at h
    | some sampler =>
      cases hr : sampleRotation simd sampler animation.time with
      | error e => simp [updateChannel, hp, hs, hr] at h
      | ok r =>
        cases hn : nodes[channel.target]? with
        | none => simp [updateChannel, hp, hs, hr, writeNode, hn] at h
        | some n =>
          rw [updateChannel_of_sample simd animation channel nodes sampler n r hp hs hr hn] at h
          exact ⟨sampler, r, n, rfl, hr, rfl, (Except.ok.inj h).symm⟩
  · simp [updateChannel, hp] at h

/-- C11: when the update of a rotation channel completes, the target node
keeps its translation and scale, its rotation is the sampled one, and its
matrix is `Translation(translation) * Rotation(rotation) * Scale(scale)` of
the fields it then has. -/
theorem Update_recomposes_matrix (simd : SimdLib) (animation : Animation) (channel : Channel)
    (nodes nodes' : List Node)
    (h : updateChannel simd animation channel nodes = .ok nodes') :
    ∃ n n', nodes[channel.target]? = some n ∧ nodes'[channel.target]? = some n'
      ∧ n'.translation = n.translation ∧ n'.scale = n.scale
      ∧ (∃ sampler, animation.samplers[channel.sampler]? = some sampler
          ∧ sampleRotation simd sampler animation.time = .ok n'.rotation)
      ∧ n'.matrix = simd_translation_matrix n'.translation
          * simd.simd_matrix4x4 n'.rotation * simd_scale_matrix n'.scale := by
  obtain ⟨_, sampler, r, n, hs, hr, hn, rfl⟩ := updateChannel_ok_inv simd _ _ _ _ h
  have hl : channel.target < nodes.length := (List.getElem?_eq_some.1 hn).1
  refine ⟨n, _, hn, List.getElem?_set_self hl, ?_, ?_, ⟨sampler, hs, ?_⟩, ?_⟩
  · simp [UpdateMatrix]
  · simp [UpdateMatrix]
  · simpa [UpdateMatrix] using hr
  · simp [UpdateMatrix, matrix_multiply]

theorem Update_recomposes_matrix_witness :
    ∃ nodes' n n',
      updateChannel demoSimd demoAnimation { sampler := 0, target := 1, path := "rotation" }
          demoNodes = .ok nodes'
        ∧ demoNodes[1]? = some n ∧ nodes'[1]? = some n'
        ∧ n'.translation = n.translation ∧ n'.scale = n.scale
        ∧ n'.matrix = simd_translation_matrix n'.translation
            * demoSimd.simd_matrix4x4 n'.rotation * simd_scale_matrix n'.scale := by
  have hs : sampleRotation demoSimd demoSampler demoAnimation.time = .ok ⟨0, 0, 0, 1⟩ := by
    norm_num [sampleRotation, adjustTime, fmod, truncQ, findInterval, readQuat, demoSampler,
      demoSimd, demoAnimation]
  have hu := updateChannel_of_sample demoSimd demoAnimation
    { sampler := 0, target := 1, path := "rotation" } demoNodes demoSampler _ _ rfl rfl hs rfl
  obtain ⟨n, n', h1, h2, h3, h4, _, h6⟩ := Update_recomposes_matrix demoSimd _ _ _ _ hu
  exact ⟨_, n, n', hu, h1, h2, h3, h4, h6⟩

/-! ### Unsupported channel paths (C13) -/

theorem updateChannels_append (simd : SimdLib) (animation : Animation) :
    ∀ (xs ys : List Channel) (nodes : List Node),
      updateChannels simd animation (xs ++ ys) nodes
        = match updateChannels simd animation xs nodes with
          | .ok nodes1 => updateChannels simd animation ys nodes1
          | .error e => .error e := by
  intro xs
  induction xs with
  | nil => intro ys nodes; simp [updateChannels]
  | cons x rest ih =>
    intro ys nodes
    simp only [List.cons_append, updateChannels]
    cases updateChannel simd animation x nodes with
    | error e => rfl
    | ok nodes1 => exact ih ys nodes1

theorem updateAnimations_append (simd : SimdLib) (delta_time : ℚ) :
    ∀ (xs ys : List Animation) (nodes : List Node),
      updateAnimations simd delta_time (xs ++ ys) nodes
        = match updateAnimations simd delta_time xs nodes with
          | .error e => .error e
          | .ok (xs', nodes1) =>
            match updateAnimations simd delta_time ys nodes1 with
            | .error e => .error e
            | .ok (ys', nodes2) => .ok (xs' ++ ys', nodes2) := by
  intro xs
  induction xs with
  | nil =>
    intro ys nodes
    simp only [List.nil_append, updateAnimations]
    cases updateAnimations simd delta_time ys nodes with
    | error e => rfl
    | ok r => rfl
  | cons x rest ih =>
    intro ys nodes
    rw [List.cons_append, updateAnimations, updateAnimations]
    cases UpdateAnimation simd delta_time x nodes with
    | error e => rfl
    | ok r =>
      obtain ⟨x', nodes1⟩ := r
      simp only []
      rw [ih ys nodes1]
      cases updateAnimations simd delta_time rest nodes1 with
      | error e => rfl
      | ok r1 =>
        obtain ⟨rest', nodes2⟩ := r1
        simp only []
        cases updateAnimations simd delta_time ys nodes2 with
        | error e => rfl
        | ok r2 => rfl

theorem updateChannels_ok_paths (simd : SimdLib) (animation : Animation) :
    ∀ (channels : List Channel) (nodes nodes' : List Node),
      updateChannels simd animation channels nodes = .ok nodes' →
      ∀ c ∈ channels, c.path = "rotation" := by
  intro channels
  induction channels with
  | nil => intro _ _ _ c hc; simp at hc
  | cons x rest ih =>
    intro nodes nodes' h c hc
    rw [updateChannels] at h
    cases hx : updateChannel simd animation x nodes with
    | error e => simp [hx] at h
    | ok nodes1 =>
      simp only [hx] at h
      rcases List.mem_cons.1 hc with rfl | hc'
      · exact (updateChannel_ok_inv simd animation c nodes nodes1 hx).1
      · exact ih nodes1 nodes' h c hc'

theorem updateAnimations_ok_paths (simd : SimdLib) (delta_time : ℚ) :
    ∀ (animations : List Animation) (nodes : List Node) (r : List Animation × List Node),
      updateAnimations simd delta_time animations nodes = .ok r →
      ∀ a ∈ animations, ∀ c ∈ a.channels, c.path = "rotation" := by
  intro animations
  induction animations with
  | nil => intro _ _ _ a ha; simp at ha
  | cons x rest ih =>
    intro nodes r h a ha c hc
    rw [updateAnimations] at h
    cases hx : UpdateAnimation simd delta_time x nodes with
    | error e => simp [hx] at h
    | ok r1 =>
      obtain ⟨x', nodes1⟩ := r1
      simp only [hx] at h
      rcases List.mem_cons.1 ha with rfl | ha'
      · unfold UpdateAnimation at hx
        cases hcs : updateChannels simd { a with time := a.time + delta_time } a.channels
            nodes with
        | error e => simp [hcs] at hx
        | ok ns => exact updateChannels_ok_paths simd _ _ _ _ hcs c hc
      · cases hr : updateAnimations simd delta_time rest nodes1 with
        | error e => simp [hr] at h
        | ok r2 => exact ih nodes1 r2 hr a ha' c hc

theorem unsupported_path_aborts (simd : SimdLib) (d : Document) (delta_time : ℚ) :
    (∀ a ∈ d.animations_, ∀ c ∈ a.channels, c.path ≠ "rotation" →
        ∀ d', Document.Update simd d delta_time ≠ .ok d')
      ∧ (∀ (pre post : List Animation) (a : Animation) (cpre cpost : List Channel)
          (c : Channel),
          d.animations_ = pre ++ a :: post → a.channels = cpre ++ c :: cpost →
          c.path ≠ "rotation" →
          (∀ b ∈ pre, ∀ ch ∈ b.channels,
            channelReady simd { b with time := b.time + delta_time } d.nodes_.length ch
              = true) →
          (∀ ch ∈ cpre,
            channelReady simd { a with time := a.time + delta_time } d.nodes_.length ch
              = true) →
          Document.Update simd d delta_time = .error .UnsupportedPath) := by
  constructor
  · intro a ha c hc hp d' h
    unfold Document.Update at h
    cases hu : updateAnimations simd delta_time d.animations_ d.nodes_ with
    | error e => simp [hu] at h
    | ok r => exact hp (updateAnimations_ok_paths simd delta_time _ _ r hu a ha c hc)
  · intro pre post a cpre cpost c hd ha hp hpre hcpre
    obtain ⟨pre', nodes1, h1, hl1⟩ :=
      updateAnimations_ready simd delta_time pre d.nodes_ hpre
    obtain ⟨nodes2, h2, _⟩ :=
      updateChannels_ready simd { a with time := a.time + delta_time } cpre nodes1
        (by rw [hl1]; exact hcpre)
    have hc : updateChannel simd { a with time := a.time + delta_time } c nodes2
        = .error .UnsupportedPath := by
      simp [updateChannel, hp]
    have hchs : updateChannels simd { a with time := a.time + delta_time } a.channels nodes1
        = .error .UnsupportedPath := by
      have key := updateChannels_append simd { a with time := a.time + delta_time } cpre
        (c :: cpost) nodes1
      rw [h2] at key
      simp only [updateChannels, hc] at key
      rw [← ha] at key
      exact key
    have ha' : UpdateAnimation simd delta_time a nodes1 = .error .UnsupportedPath := by
      unfold UpdateAnimation
      simp only [hchs]
    unfold Document.Update
    rw [hd, updateAnimations_append, h1]
    simp only [updateAnimations, ha']

/-! ### Empty keyframe sequences (C14) -/

/-- C14, the claim as stated fails: for a rotation channel whose sampler has
no keyframes, the update has no guard and stops in the evaluation of
`times.front()` on the empty vector, an access out of range; it is not a
content error raised before the read. -/
theorem empty_times_counterexample :
    demoEmptySampler.times = []
      ∧ adjustTime demoEmptySampler.times 0 = .error .OutOfRange
      ∧ updateChannel demoSimd { demoAnimation with samplers := [demoEmptySampler] }
          { sampler := 0, target := 1, path := "rotation" } demoNodes
        = .error .OutOfRange :=
  ⟨rfl, rfl, rfl⟩

/-- C14 as amended: for a rotation channel whose sampler has no keyframes,
the first use of the sampler, `times.front()`, is an access outside the empty
vector; the update of the channel ends there (undefined behaviour in C++) and
the nodes are not written. -/
theorem Update_empty_times (simd : SimdLib) (animation : Animation) (channel : Channel)
    (nodes : List Node) (sampler : Sampler)
    (hpath : channel.path = "rotation")
    (hsampler : animation.samplers[channel.sampler]? = some sampler)
    (hempty : sampler.times = []) :
    adjustTime sampler.times animation.time = .error .OutOfRange
      ∧ sampleRotation simd sampler animation.time = .error .OutOfRange
      ∧ updateChannel simd animation channel nodes = .error .OutOfRange := by
  have h1 : adjustTime sampler.times animation.time = .error .OutOfRange := by
    simp [adjustTime, hempty]
  have h2 : sampleRotation simd sampler animation.time = .error .OutOfRange := by
    simp [sampleRotation, h1]
  exact ⟨h1, h2, by simp [updateChannel, hpath, hsampler, h2]⟩

theorem Update_empty_times_witness :
    updateChannel demoSimd { demoAnimation with samplers := [demoEmptySampler] }
        { sampler := 0, target := 1, path := "rotation" } demoNodes
      = .error .OutOfRange :=
  (Update_empty_times demoSimd { demoAnimation with samplers := [demoEmptySampler] }
    { sampler := 0, target := 1, path := "rotation" } demoNodes demoEmptySampler rfl rfl rfl).2.2

/-! ### Cyclic parent chains (C15) -/

theorem nthParent_on_cycle (nodes : List Node) (cycle : List Nat)
    (hclosed : ∀ c ∈ cycle, ∃ n p, nodes[c]? = some n ∧ n.parent = some p ∧ p ∈ cycle)
    (c : Nat) (hc : c ∈ cycle) :
    ∀ k : Nat, ∃ a, nthParent nodes c k = some a ∧ a ∈ cycle := by
  intro k
  induction k with
  | zero => exact ⟨c, rfl, hc⟩
  | succ k ih =>
    obtain ⟨a, ha, hac⟩ := ih
    obtain ⟨n, p, hn, hp, hpc⟩ := hclosed a hac
    exact ⟨p, by simp [nthParent, ha, hn, hp], hpc⟩

theorem CalcModelMatrix_on_cycle (nodes : List Node) (cycle : List Nat)
    (hclosed : ∀ c ∈ cycle, ∃ n p, nodes[c]? = some n ∧ n.parent = some p ∧ p ∈ cycle) :
    ∀ (fuel c : Nat), c ∈ cycle → CalcModelMatrix nodes fuel c = none := by
  intro fuel
  induction fuel with
  | zero => intro c _; rfl
  | succ f ih =>
    intro c hc
    obtain ⟨n, p, hn, hp, hpc⟩ := hclosed c hc
    rw [CalcModelMatrix]
    simp [hn, hp, ih p hpc]

/-- C15, the claim as stated fails: for two nodes that are each other's
parent, `CalcModelMatrix` returns nothing within any bound on the depth of
the recursion, although every node it visits exists and has a parent; no
cycle is detected and no error is produced. -/
theorem CalcModelMatrix_cycle_counterexample :
    (∀ fuel : Nat, CalcModelMatrix demoCycle fuel 0 = none)
      ∧ (∀ k : Nat, ∃ a n p, nthParent demoCycle 0 k = some a ∧ demoCycle[a]? = some n
          ∧ n.parent = some p) := by
  have hclosed : ∀ c ∈ [0, 1], ∃ n p, demoCycle[c]? = some n ∧ n.parent = some p
      ∧ p ∈ [0, 1] := by
    intro c hc
    simp only [List.mem_cons, List.mem_singleton, List.not_mem_nil, or_false] at hc
    rcases hc with rfl | rfl
    · exact ⟨_, 1, rfl, rfl, by simp⟩
    · exact ⟨_, 0, rfl, rfl, by simp⟩
  refine ⟨fun fuel => CalcModelMatrix_on_cycle demoCycle [0, 1] hclosed fuel 0 (by simp), ?_⟩
  intro k
  obtain ⟨a, ha, hac⟩ := nthParent_on_cycle demoCycle [0, 1] hclosed 0 (by simp) k
  obtain ⟨n, p, hn, hp, _⟩ := hclosed a hac
  exact ⟨a, n, p, ha, hn, hp⟩

/-- C15 as amended: `CalcModelMatrix` has no cycle detection.  For a node
whose parent chain stays among nodes that all have a parent (a chain that
runs into a cycle), the chain of ancestors never ends and `CalcModelMatrix`
returns nothing within any bound on the depth of the recursion: it recurses
without end. -/
theorem CalcModelMatrix_cycle (nodes : List Node) (cycle : List Nat) (c : Nat)
    (hclosed : ∀ c ∈ cycle, ∃ n p, nodes[c]? = some n ∧ n.parent = some p ∧ p ∈ cycle)
    (hc : c ∈ cycle) :
    (∀ fuel : Nat, CalcModelMatrix nodes fuel c = none)
      ∧ (∀ k : Nat, ∃ a n p, nthParent nodes c k = some a ∧ nodes[a]? = some n
          ∧ n.parent = some p) := by
  refine ⟨fun fuel => CalcModelMatrix_on_cycle nodes cycle hclosed fuel c hc, ?_⟩
  intro k
  obtain ⟨a, ha, hac⟩ := nthParent_on_cycle nodes cycle hclosed c hc k
  obtain ⟨n, p, hn, hp, _⟩ := hclosed a hac
  exact ⟨a, n, p, ha, hn, hp⟩

theorem CalcModelMatrix_cycle_witness :
    1 ∈ [0, 1] ∧ CalcModelMatrix demoCycle 1000 1 = none :=
  ⟨by simp, (CalcModelMatrix_cycle demoCycle [0, 1] 1 (by
    intro c hc
    simp only [List.mem_cons, List.mem_singleton, List.not_mem_nil, or_false] at hc
    rcases hc with rfl | rfl
    · exact ⟨_, 1, rfl, rfl, by simp⟩
    · exact ⟨_, 0, rfl, rfl, by simp⟩) (by simp)).1 1000⟩

/-! ### Parent pointers after the node-building loop (C16) -/

theorem setParents_links (i : Nat) :
    ∀ (cs : List Nat) (nodes nodes' : List Node),
      setParents i cs nodes = .ok nodes' →
      ∀ (k : Nat) (n' : Node), nodes'[k]? = some n' →
        ∃ n, nodes[k]? = some n ∧ n'.children = n.children
          ∧ n'.parent = if k ∈ cs then some i else n.parent := by
  intro cs
  induction cs with
  | nil =>
    intro nodes nodes' h k n' hk
    simp only [setParents, Except.ok.injEq] at h
    subst h
    exact ⟨n', hk, rfl, by simp⟩
  | cons child rest ih =>
    intro nodes nodes' h k n' hk
    rw [setParents] at h
    cases hw : writeNode nodes child (fun n => { n with parent := some i }) with
    | error e => simp [hw] at h
    | ok nodes1 =>
      simp only [hw] at h
      obtain ⟨n0, hn0, rfl⟩ := writeNode_ok hw
      obtain ⟨n1, hn1, hc1, hp1⟩ := ih _ _ h k n' hk
      rw [List.getElem?_set'] at hn1
      by_cases hck : child = k
      · subst hck
        simp only [if_true, hn0, Option.map_eq_map, Option.map_some',
          Function.const_apply, Option.some.injEq] at hn1
        subst hn1
        refine ⟨n0, hn0, hc1, ?_⟩
        rw [hp1]
        by_cases hr : child ∈ rest <;> simp [hr]
      · simp only [hck, if_false] at hn1
        refine ⟨n1, hn1, hc1, ?_⟩
        rw [hp1]
        have : (k ∈ child :: rest) ↔ k ∈ rest := by
          simp [List.mem_cons, Ne.symm hck]
        by_cases hr : k ∈ rest
        · simp [hr]
        · simp [hr, Ne.symm hck]

theorem loadMatrix_links (simd : SimdLib) (g : GltfNode) (n n' : Node)
    (h : loadMatrix simd g n = .ok n') :
    n'.parent = n.parent ∧ n'.children = n.children := by
  unfold loadMatrix at h
  split at h
  · split at h
    · simp only [Except.ok.injEq] at h; subst h; exact ⟨rfl, rfl⟩
    · simp at h
  · simp only [Except.ok.injEq] at h; subst h; exact ⟨rfl, rfl⟩

theorem buildNode_links (simd : SimdLib) (g : GltfNode) (i : Nat) (nodes nodes' : List Node)
    (h : buildNode simd g i nodes = .ok nodes')
    (hfresh : ∀ n, nodes[i]? = some n → n.children = []) :
    ∀ (k : Nat) (n' : Node), nodes'[k]? = some n' →
      ∃ n, nodes[k]? = some n
        ∧ n'.parent = (if k ∈ childIndices g then some i else n.parent)
        ∧ n'.children = (if k = i then childIndices g else n.children) := by
  unfold buildNode at h
  split at h
  · simp at h
  · rename_i nodes1 hw
    obtain ⟨n0, hn0, rfl⟩ := writeNode_ok hw
    have hi0 : i < nodes.length := (List.getElem?_eq_some.1 hn0).1
    have hc0 : n0.children = [] := hfresh n0 hn0
    split at h
    · simp at h
    · rename_i n1 hn1
      rw [List.getElem?_set_self hi0] at hn1
      simp only [Option.some.injEq] at hn1
      subst hn1
      simp only [hc0, List.nil_append] at h
      split at h
      · simp at h
      · rename_i nodes2 hsp
        have hlinks := setParents_links i _ _ _ hsp
        obtain ⟨hlen2, _⟩ := setParents_sameLocal i _ _ _ hsp
        split at h
        · rename_i r s t hr hs ht
          split at h
          · simp at h
          · rename_i n2 hn2
            split at h
            · rename_i n3 hlm
              simp only [Except.ok.injEq] at h
              subst h
              obtain ⟨hp3, hc3⟩ := loadMatrix_links simd g _ n3 hlm
              have hi2 : i < nodes2.length := (List.getElem?_eq_some.1 hn2).1
              intro k n' hk
              by_cases hki : k = i
              · subst hki
                rw [List.getElem?_set_self hi2] at hk
                simp only [Option.some.injEq] at hk
                subst hk
                obtain ⟨m, hm, hmc, hmp⟩ := hlinks k n2 hn2
                rw [List.getElem?_set_self hi0] at hm
                simp only [Option.some.injEq] at hm
                subst hm
                refine ⟨n0, hn0, ?_, ?_⟩
                · rw [hp3]; simpa [childIndices] using hmp
                · rw [hc3]; simp [hmc, hc0, childIndices]
              · rw [List.getElem?_set_ne (Ne.symm hki)] at hk
                obtain ⟨m, hm, hmc, hmp⟩ := hlinks k n' hk
                rw [List.getElem?_set_ne (Ne.symm hki)] at hm
                refine ⟨m, hm, ?_, ?_⟩
                · simpa [childIndices] using hmp
                · simp [hki, hmc]
            · simp at h
        · simp at h

theorem buildNodesFrom_links (simd : SimdLib) (all : List GltfNode) :
    ∀ (gs : List GltfNode) (i : Nat) (nodes nodes' : List Node),
      all.drop i = gs →
      buildNodesFrom simd gs i nodes = .ok nodes' →
      (∀ (k : Nat) (n : Node), nodes[k]? = some n →
        n.parent = lastLister all k i
          ∧ n.children = (if k < i then (all[k]?.map childIndices).getD [] else [])) →
      ∀ (k : Nat) (n' : Node), nodes'[k]? = some n' →
        n'.parent = lastLister all k all.length
          ∧ n'.children = (all[k]?.map childIndices).getD [] := by
  intro gs
  induction gs with
  | nil =>
    intro i nodes nodes' hdrop h hinv k n' hk
    simp only [buildNodesFrom, Except.ok.injEq] at h
    subst h
    have hi : all.length ≤ i := by
      by_contra hc
      push_neg at hc
      have := congrArg List.length hdrop
      simp at this
      omega
    obtain ⟨hp, hc⟩ := hinv k n' hk
    have hll : ∀ j, all.length ≤ j → lastLister all k j = lastLister all k all.length := by
      intro j hj
      induction hj with
      | refl => rfl
      | step hle ih =>
        rename_i m
        rw [lastLister, List.getElem?_eq_none (by simpa using hle)]
        exact ih
    refine ⟨by rw [hp, hll i hi], ?_⟩
    rw [hc]
    by_cases hki : k < i
    · simp [hki]
    · have : all[k]? = none := List.getElem?_eq_none (by omega)
      simp [hki, this]
  | cons g rest ih =>
    intro i nodes nodes' hdrop h hinv k n' hk
    rw [buildNodesFrom] at h
    cases hb : buildNode simd g i nodes with
    | error e => simp [hb] at h
    | ok nodes1 =>
      simp only [hb] at h
      have hgi : all[i]? = some g := by
        have := congrArg (fun l => l[0]?) hdrop
        simpa [List.getElem?_drop] using this
      have hdrop' : all.drop (i + 1) = rest := by
        have := congrArg List.tail hdrop
        simpa [List.tail_drop] using this
      have hfresh : ∀ n, nodes[i]? = some n → n.children = [] := by
        intro n hn
        have := (hinv i n hn).2
        simpa using this
      have hlinks := buildNode_links simd g i nodes nodes1 hb hfresh
      refine ih (i + 1) nodes1 nodes' hdrop' h ?_ k n' hk
      intro k1 n1 hk1
      obtain ⟨m, hm, hmp, hmc⟩ := hlinks k1 n1 hk1
      obtain ⟨hip, hic⟩ := hinv k1 m hm
      constructor
      · rw [hmp, lastLister, hgi]
        by_cases hmem : k1 ∈ childIndices g
        · simp [hmem]
        · simp [hmem, hip]
      · rw [hmc]
        by_cases hki : k1 = i
        · subst hki
          simp [hgi]
        · rw [hic]
          by_cases hlt : k1 < i
          · have : k1 < i + 1 := by omega
            simp [hki, hlt, this]
          · have : ¬ k1 < i + 1 := by omega
            simp [hki, hlt, this]

theorem lastLister_eq_some (model_nodes : List GltfNode) (c : Nat) :
    ∀ (i p : Nat), lastLister model_nodes c i = some p ↔
      p < i ∧ (∃ g, model_nodes[p]? = some g ∧ c ∈ childIndices g)
        ∧ ∀ (q : Nat) (g : GltfNode), p < q → q < i → model_nodes[q]? = some g →
            c ∉ childIndices g := by
  intro i
  induction i with
  | zero => intro p; simp [lastLister]
  | succ i ih =>
    intro p
    rw [lastLister]
    cases hg : model_nodes[i]? with
    | none =>
      simp only [ih p]
      constructor
      · rintro ⟨h1, h2, h3⟩
        refine ⟨by omega, h2, ?_⟩
        intro q g hpq hq hqg
        by_cases hqi : q = i
        · subst hqi; rw [hg] at hqg; simp at hqg
        · exact h3 q g hpq (by omega) hqg
      · rintro ⟨h1, ⟨g, hpg, hc⟩, h3⟩
        have hpi : p ≠ i := by rintro rfl; rw [hg] at hpg; simp at hpg
        exact ⟨by omega, ⟨g, hpg, hc⟩, fun q g' hpq hq hqg => h3 q g' hpq (by omega) hqg⟩
    | some g =>
      by_cases hmem : c ∈ childIndices g
      · simp only [hmem, if_true, Option.some.injEq]
        constructor
        · rintro rfl
          exact ⟨by omega, ⟨g, hg, hmem⟩, fun q g' hpq hq _ => by omega⟩
        · rintro ⟨h1, _, h3⟩
          by_contra hne
          have hlt : p < i := by omega
          exact h3 i g hlt (by omega) hg hmem
      · simp only [hmem, if_false, ih p]
        constructor
        · rintro ⟨h1, h2, h3⟩
          refine ⟨by omega, h2, ?_⟩
          intro q g' hpq hq hqg
          by_cases hqi : q = i
          · subst hqi; rw [hg] at hqg
            simp only [Option.some.injEq] at hqg; subst hqg; exact hmem
          · exact h3 q g' hpq (by omega) hqg
        · rintro ⟨h1, ⟨g', hpg, hc⟩, h3⟩
          have hpi : p ≠ i := by
            rintro rfl; rw [hg] at hpg
            simp only [Option.some.injEq] at hpg; subst hpg; exact hmem hc
          exact ⟨by omega, ⟨g', hpg, hc⟩, fun q g'' hpq hq hqg => h3 q g'' hpq (by omega) hqg⟩

theorem lastLister_eq_none (model_nodes : List GltfNode) (c : Nat) :
    ∀ (i : Nat), lastLister model_nodes c i = none ↔
      ∀ (q : Nat) (g : GltfNode), q < i → model_nodes[q]? = some g → c ∉ childIndices g := by
  intro i
  induction i with
  | zero => simp [lastLister]
  | succ i ih =>
    rw [lastLister]
    cases hg : model_nodes[i]? with
    | none =>
      simp only [ih]
      constructor
      · intro h q g hq hqg
        by_cases hqi : q = i
        · subst hqi; rw [hg] at hqg; simp at hqg
        · exact h q g (by omega) hqg
      · intro h q g hq hqg; exact h q g (by omega) hqg
    | some g =>
      by_cases hmem : c ∈ childIndices g
      · simp only [hmem, if_true]
        constructor
        · intro h; simp at h
        · intro h; exact absurd hmem (h i g (by omega) hg)
      · simp only [hmem, if_false, ih]
        constructor
        · intro h q g' hq hqg
          by_cases hqi : q = i
          · subst hqi; rw [hg] at hqg
            simp only [Option.some.injEq] at hqg; subst hqg; exact hmem
          · exact h q g' (by omega) hqg
        · intro h q g' hq hqg; exact h q g' (by omega) hqg

theorem buildNodes_links_model (simd : SimdLib) (model_nodes : List GltfNode)
    (nodes : List Node) (h : buildNodes simd model_nodes = .ok nodes) :
    nodes.length = model_nodes.length ∧
      ∀ (k : Nat) (n : Node), nodes[k]? = some n →
        n.parent = lastLister model_nodes k model_nodes.length
          ∧ ∃ g, model_nodes[k]? = some g ∧ n.children = childIndices g := by
  unfold buildNodes at h
  have hlen : nodes.length = model_nodes.length := by
    have := (buildNodesFrom_spec simd model_nodes 0 _ nodes h).1
    simpa using this
  refine ⟨hlen, ?_⟩
  intro k n hk
  have hinit : ∀ (k : Nat) (n : Node),
      (List.replicate model_nodes.length Node.zero)[k]? = some n →
      n.parent = lastLister model_nodes k 0
        ∧ n.children = (if k < 0 then (model_nodes[k]?.map childIndices).getD [] else []) := by
    intro k n hk
    obtain ⟨hlt, hn⟩ := List.getElem?_eq_some.1 hk
    simp only [List.getElem_replicate] at hn
    subst hn
    exact ⟨rfl, by simp [Node.zero]⟩
  obtain ⟨hp, hc⟩ := buildNodesFrom_links simd model_nodes model_nodes 0 _ nodes
    (by simp) h hinit k n hk
  have hkl : k < model_nodes.length := by
    rw [← hlen]; exact (List.getElem?_eq_some.1 hk).1
  refine ⟨hp, model_nodes[k], List.getElem?_eq_getElem hkl, ?_⟩
  rw [hc, List.getElem?_eq_getElem hkl]
  simp

/-- C16, the claim as stated fails: in a model in which the nodes 0 and 1
both list node 2 as a child, the built node 0 lists node 2 among its children
but the parent of node 2 is node 1. -/
theorem buildNodes_parent_counterexample :
    ∃ nodes n0 n2, buildNodes demoSimd demoSharedChildModel = .ok nodes
      ∧ nodes[0]? = some n0 ∧ 2 ∈ n0.children
      ∧ nodes[2]? = some n2 ∧ n2.parent = some 1 ∧ n2.parent ≠ some 0 := by
  have hb : ∃ nodes, buildNodes demoSimd demoSharedChildModel = .ok nodes := ⟨_, rfl⟩
  obtain ⟨nodes, hb⟩ := hb
  obtain ⟨hlen, hl⟩ := buildNodes_links_model demoSimd _ nodes hb
  have h0 : 0 < nodes.length := by rw [hlen]; decide
  have h2 : 2 < nodes.length := by rw [hlen]; decide
  obtain ⟨_, g0, hg0, hc0⟩ := hl 0 nodes[0] (List.getElem?_eq_getElem h0)
  obtain ⟨hp2, _⟩ := hl 2 nodes[2] (List.getElem?_eq_getElem h2)
  have e0 : g0 = demoSharedChildModel[0] := by
    have : demoSharedChildModel[0]? = some demoSharedChildModel[0] := rfl
    rw [this] at hg0; exact (Option.some.inj hg0).symm
  have hp : nodes[2].parent = some 1 := by rw [hp2]; decide
  refine ⟨nodes, nodes[0], nodes[2], hb, List.getElem?_eq_getElem h0, ?_,
    List.getElem?_eq_getElem h2, hp, ?_⟩
  · rw [hc0, e0]; decide
  · rw [hp]; decide

/-- C16 as amended: after the constructor has built `nodes_`, the parent of a
node `c` is the node of highest index that lists `c` among its children, and
is null exactly when no node lists `c`; so when only one node `p` lists `c`
(as in a well-formed hierarchy) the parent of `c` is `p`.  A node that is
listed by several nodes has the last of them as parent. -/
theorem buildNodes_links (simd : SimdLib) (model_nodes : List GltfNode) (nodes : List Node)
    (h : buildNodes simd model_nodes = .ok nodes) :
    (∀ (c : Nat) (nc : Node), nodes[c]? = some nc →
        (∀ p : Nat, nc.parent = some p ↔
          ((∃ np, nodes[p]? = some np ∧ c ∈ np.children)
            ∧ ∀ (q : Nat) (nq : Node), p < q → nodes[q]? = some nq → c ∉ nq.children))
          ∧ (nc.parent = none ↔
              ∀ (q : Nat) (nq : Node), nodes[q]? = some nq → c ∉ nq.children))
      ∧ (∀ (p c : Nat) (np nc : Node), nodes[p]? = some np → c ∈ np.children →
          nodes[c]? = some nc →
          (∀ (q : Nat) (nq : Node), nodes[q]? = some nq → c ∈ nq.children → q = p) →
          nc.parent = some p) := by
  obtain ⟨hlen, hl⟩ := buildNodes_links_model simd model_nodes nodes h
  have hchild : ∀ (q : Nat) (c : Nat),
      (∃ nq, nodes[q]? = some nq ∧ c ∈ nq.children)
        ↔ ∃ g, model_nodes[q]? = some g ∧ c ∈ childIndices g := by
    intro q c
    constructor
    · rintro ⟨nq, hq, hc⟩
      obtain ⟨_, g, hg, hcg⟩ := hl q nq hq
      exact ⟨g, hg, by rw [← hcg]; exact hc⟩
    · rintro ⟨g, hg, hc⟩
      have hq : q < nodes.length := by rw [hlen]; exact (List.getElem?_eq_some.1 hg).1
      obtain ⟨_, g', hg', hcg⟩ := hl q nodes[q] (List.getElem?_eq_getElem hq)
      rw [hg] at hg'
      simp only [Option.some.injEq] at hg'
      subst hg'
      exact ⟨nodes[q], List.getElem?_eq_getElem hq, by rw [hcg]; exact hc⟩
  have hmain : ∀ (c : Nat) (nc : Node), nodes[c]? = some nc →
      (∀ p : Nat, nc.parent = some p ↔
        ((∃ np, nodes[p]? = some np ∧ c ∈ np.children)
          ∧ ∀ (q : Nat) (nq : Node), p < q → nodes[q]? = some nq → c ∉ nq.children))
        ∧ (nc.parent = none ↔
            ∀ (q : Nat) (nq : Node), nodes[q]? = some nq → c ∉ nq.children) := by
    intro c nc hc
    obtain ⟨hp, _⟩ := hl c nc hc
    constructor
    · intro p
      rw [hp, lastLister_eq_some]
      constructor
      · rintro ⟨_, hex, hno⟩
        refine ⟨(hchild p c).2 hex, ?_⟩
        intro q nq hpq hq hmem
        obtain ⟨g, hg, hcg⟩ := (hchild q c).1 ⟨nq, hq, hmem⟩
        exact hno q g hpq (List.getElem?_eq_some.1 hg).1 hg hcg
      · rintro ⟨hex, hno⟩
        obtain ⟨g, hg, hcg⟩ := (hchild p c).1 hex
        refine ⟨(List.getElem?_eq_some.1 hg).1, ⟨g, hg, hcg⟩, ?_⟩
        intro q g' hpq _ hg' hmem
        obtain ⟨nq, hq, hcq⟩ := (hchild q c).2 ⟨g', hg', hmem⟩
        exact hno q nq hpq hq hcq
    · rw [hp, lastLister_eq_none]
      constructor
      · intro hno q nq hq hmem
        obtain ⟨g, hg, hcg⟩ := (hchild q c).1 ⟨nq, hq, hmem⟩
        exact hno q g (List.getElem?_eq_some.1 hg).1 hg hcg
      · intro hno q g _ hg hmem
        obtain ⟨nq, hq, hcq⟩ := (hchild q c).2 ⟨g, hg, hmem⟩
        exact hno q nq hq hcq
  refine ⟨hmain, ?_⟩
  intro p c np nc hp hcp hc huniq
  refine ((hmain c nc hc).1 p).2 ⟨⟨np, hp, hcp⟩, ?_⟩
  intro q nq hpq hq hmem
  have := huniq q nq hq hmem
  omega

theorem buildNodes_links_witness :
    ∃ nodes n1, buildNodes demoSimd demoModel = .ok nodes
      ∧ nodes[1]? = some n1 ∧ n1.parent = some 0 := by
  have hb : ∃ nodes, buildNodes demoSimd demoModel = .ok nodes := ⟨_, rfl⟩
  obtain ⟨nodes, hb⟩ := hb
  have hlen : nodes.length = 2 := by
    have := (buildNodesFrom_spec demoSimd demoModel 0 _ nodes hb).1
    simpa [demoModel] using this
  have h0 : 0 < nodes.length := by omega
  have h1 : 1 < nodes.length := by omega
  have hc0 : nodes[0].children = [1] := by
    obtain ⟨_, g, hg, hcg⟩ :=
      (buildNodes_links_model demoSimd demoModel nodes hb).2 0 nodes[0]
        (List.getElem?_eq_getElem h0)
    have : demoModel[0]? = some demoModel[0] := rfl
    rw [this] at hg
    rw [hcg, ← Option.some.inj hg]
    decide
  refine ⟨nodes, nodes[1], hb, List.getElem?_eq_getElem h1, ?_⟩
  refine (buildNodes_links demoSimd demoModel nodes hb).2 0 1 nodes[0] nodes[1]
    (List.getElem?_eq_getElem h0) (by rw [hc0]; simp) (List.getElem?_eq_getElem h1) ?_
  intro q nq hq hmem
  obtain ⟨_, g, hg, hcg⟩ := (buildNodes_links_model demoSimd demoModel nodes hb).2 q nq hq
  have hql : q < 2 := by rw [← hlen]; exact (List.getElem?_eq_some.1 hq).1
  rw [hcg] at hmem
  interval_cases q
  · rfl
  · have : demoModel[1]? = some demoModel[1] := rfl
    rw [this] at hg
    rw [← Option.some.inj hg] at hmem
    simp [childIndices, demoModel] at hmem

/-! ### Local transforms after the node-building loop (C12, C19) -/

theorem builtFrom_congr (simd : SimdLib) (g : GltfNode) {a b : Node} (h : sameLocal a b)
    (hb : builtFrom simd g b) : builtFrom simd g a := by
  obtain ⟨h1, h2, h3, h4, h5⟩ := hb
  refine ⟨by rw [h.1]; exact h1, by rw [h.2.1]; exact h2, by rw [h.2.2.1]; exact h3, ?_, ?_⟩
  · intro he
    rw [h.2.2.2, h4 he, composedMatrix_congr simd h]
  · intro he
    rw [h.2.2.2]; exact h5 he

theorem loadMatrix_builtFrom (simd : SimdLib) (g : GltfNode) (n n' : Node)
    (r : simd_quatf) (s t : simd_float3)
    (hr : loadRotation g = .ok r) (hs : loadFloat3 g.scale 1 = .ok s)
    (ht : loadFloat3 g.translation 0 = .ok t)
    (h : loadMatrix simd g { n with rotation := r, scale := s, translation := t } = .ok n') :
    builtFrom simd g n' := by
  unfold loadMatrix at h
  cases he : g.matrix.isEmpty with
  | true =>
    simp only [he, Bool.not_true, Bool.false_eq_true, if_false, Except.ok.injEq] at h
    subst h
    refine ⟨by simpa [UpdateMatrix] using hr, by simpa [UpdateMatrix] using hs,
      by simpa [UpdateMatrix] using ht, ?_, ?_⟩
    · intro _
      simp [UpdateMatrix, composedMatrix, matrix_multiply]
    · intro h'
      rw [he] at h'
      exact Bool.noConfusion h'
  | false =>
    simp only [he, Bool.not_false, if_true] at h
    cases hm : simd_make_matrix g.matrix 0 with
    | none => simp [hm] at h
    | some m =>
      simp only [hm, Except.ok.injEq] at h
      subst h
      refine ⟨hr, hs, ht, ?_, fun _ => hm⟩
      intro h'
      rw [he] at h'
      exact Bool.noConfusion h'

theorem buildNode_builtFrom (simd : SimdLib) (g : GltfNode) (i : Nat) (nodes nodes' : List Node)
    (h : buildNode simd g i nodes = .ok nodes') :
    ∃ n', nodes'[i]? = some n' ∧ builtFrom simd g n' := by
  unfold buildNode at h
  split at h
  · simp at h
  · split at h
    · simp at h
    · split at h
      · simp at h
      · rename_i nodes2 hsp
        split at h
        · rename_i r s t hr hs ht
          split at h
          · simp at h
          · rename_i n2 hn2
            split at h
            · rename_i n3 hlm
              simp only [Except.ok.injEq] at h
              subst h
              have hi : i < nodes2.length := (List.getElem?_eq_some.1 hn2).1
              exact ⟨n3, List.getElem?_set_self hi,
                loadMatrix_builtFrom simd g n2 n3 r s t hr hs ht hlm⟩
            · simp at h
        · simp at h

theorem buildNodesFrom_builtFrom (simd : SimdLib) :
    ∀ (gs : List GltfNode) (i : Nat) (nodes nodes' : List Node),
      buildNodesFrom simd gs i nodes = .ok nodes' →
      ∀ (j : Nat) (g : GltfNode), gs[j]? = some g →
        ∃ n', nodes'[i + j]? = some n' ∧ builtFrom simd g n' := by
  intro gs
  induction gs with
  | nil => intro i nodes nodes' _ j g hj; simp at hj
  | cons g0 rest ih =>
    intro i nodes nodes' h j g hj
    rw [buildNodesFrom] at h
    cases hb : buildNode simd g0 i nodes with
    | error e => simp [hb] at h
    | ok nodes1 =>
      simp only [hb] at h
      cases j with
      | zero =>
        simp only [List.getElem?_cons_zero, Option.some.injEq] at hj
        subst hj
        obtain ⟨n1, hn1, hb1⟩ := buildNode_builtFrom simd g0 i nodes nodes1 hb
        obtain ⟨hlen, hloc, _⟩ := buildNodesFrom_spec simd rest (i + 1) nodes1 nodes' h
        have hi : i < nodes'.length := by
          rw [hlen]; exact (List.getElem?_eq_some.1 hn1).1
        obtain ⟨m1, hm1, hs1⟩ := hloc i nodes'[i] (by omega) (List.getElem?_eq_getElem hi)
        rw [hn1] at hm1
        simp only [Option.some.injEq] at hm1
        subst hm1
        exact ⟨nodes'[i], by simp [List.getElem?_eq_getElem hi], builtFrom_congr simd g0 hs1 hb1⟩
      | succ j =>
        simp only [List.getElem?_cons_succ] at hj
        obtain ⟨n', hn', hb'⟩ := ih (i + 1) nodes1 nodes' h j g hj
        exact ⟨n', by rw [← hn']; congr 1; omega, hb'⟩

theorem buildNodes_builtFrom (simd : SimdLib) (model_nodes : List GltfNode) (nodes : List Node)
    (h : buildNodes simd model_nodes = .ok nodes) (i : Nat) (g : GltfNode)
    (hg : model_nodes[i]? = some g) :
    ∃ n, nodes[i]? = some n ∧ builtFrom simd g n := by
  obtain ⟨n, hn, hb⟩ := buildNodesFrom_builtFrom simd model_nodes 0 _ nodes h i g hg
  exact ⟨n, by simpa using hn, hb⟩

/-! ### The effect of an update on a single node -/

theorem rotateNode_rotateNode (simd : SimdLib) (r r' : simd_quatf) (n : Node) :
    rotateNode simd r (rotateNode simd r' n) = rotateNode simd r n := by
  simp [rotateNode, UpdateMatrix]

theorem IsNodeWrite_comp (simd : SimdLib) {f g : Node → Node}
    (hf : IsNodeWrite simd f) (hg : IsNodeWrite simd g) : IsNodeWrite simd (g ∘ f) := by
  rcases hg with rfl | ⟨r, rfl⟩
  · simpa using hf
  · right
    refine ⟨r, ?_⟩
    rcases hf with rfl | ⟨r', rfl⟩
    · rfl
    · funext n
      exact rotateNode_rotateNode simd r r' n

theorem updateChannel_pointwise (simd : SimdLib) (animation : Animation) (channel : Channel)
    (x : Nat) :
    ∃ f, IsNodeWrite simd f ∧ (channel.target ≠ x → f = id) ∧
      ∀ (nodes nodes' : List Node),
        updateChannel simd animation channel nodes = .ok nodes' →
        nodes'[x]? = (nodes[x]?).map f := by
  by_cases hx : channel.target = x
  · cases hs : animation.samplers[channel.sampler]? with
    | none =>
      refine ⟨id, Or.inl rfl, fun _ => rfl, ?_⟩
      intro nodes nodes' h
      obtain ⟨_, s, _, _, hs', _⟩ := updateChannel_ok_inv simd _ _ _ _ h
      rw [hs] at hs'; simp at hs'
    | some sampler =>
      cases hr : sampleRotation simd sampler animation.time with
      | error e =>
        refine ⟨id, Or.inl rfl, fun _ => rfl, ?_⟩
        intro nodes nodes' h
        obtain ⟨_, s, r, _, hs', hr', _⟩ := updateChannel_ok_inv simd _ _ _ _ h
        rw [hs] at hs'
        simp only [Option.some.injEq] at hs'
        subst hs'
        rw [hr] at hr'; simp at hr'
      | ok r =>
        refine ⟨rotateNode simd r, Or.inr ⟨r, rfl⟩, fun h => absurd hx h, ?_⟩
        intro nodes nodes' h
        obtain ⟨_, s, r', n, hs', hr', hn, rfl⟩ := updateChannel_ok_inv simd _ _ _ _ h
        rw [hs] at hs'
        simp only [Option.some.injEq] at hs'
        subst hs'
        rw [hr] at hr'
        simp only [Except.ok.injEq] at hr'
        subst hr'
        have hl : channel.target < nodes.length := (List.getElem?_eq_some.1 hn).1
        rw [← hx, List.getElem?_set_self hl, hn]
        rfl
  · refine ⟨id, Or.inl rfl, fun _ => rfl, ?_⟩
    intro nodes nodes' h
    obtain ⟨_, s, r, n, _, _, _, rfl⟩ := updateChannel_ok_inv simd _ _ _ _ h
    rw [List.getElem?_set_ne hx]
    simp

theorem updateChannels_pointwise (simd : SimdLib) (animation : Animation) (x : Nat) :
    ∀ (channels : List Channel),
      ∃ f, IsNodeWrite simd f ∧ ((∀ c ∈ channels, c.target ≠ x) → f = id) ∧
        ∀ (nodes nodes' : List Node),
          updateChannels simd animation channels nodes = .ok nodes' →
          nodes'[x]? = (nodes[x]?).map f := by
  intro channels
  induction channels with
  | nil =>
    refine ⟨id, Or.inl rfl, fun _ => rfl, ?_⟩
    intro nodes nodes' h
    simp only [updateChannels, Except.ok.injEq] at h
    subst h
    simp
  | cons c rest ih =>
    obtain ⟨f1, hf1, hid1, hp1⟩ := updateChannel_pointwise simd animation c x
    obtain ⟨f2, hf2, hid2, hp2⟩ := ih
    refine ⟨f2 ∘ f1, IsNodeWrite_comp simd hf1 hf2, ?_, ?_⟩
    · intro hno
      rw [hid1 (hno c (List.mem_cons_self _ _)),
        hid2 (fun c' hc' => hno c' (List.mem_cons_of_mem _ hc'))]
      rfl
    · intro nodes nodes' h
      rw [updateChannels] at h
      cases hc : updateChannel simd animation c nodes with
      | error e => simp [hc] at h
      | ok nodes1 =>
        simp only [hc] at h
        rw [hp2 nodes1 nodes' h, hp1 nodes nodes1 hc, Option.map_map]

theorem updateAnimations_pointwise (simd : SimdLib) (delta_time : ℚ) (x : Nat) :
    ∀ (animations : List Animation),
      ∃ f, IsNodeWrite simd f
        ∧ ((∀ a ∈ animations, ∀ c ∈ a.channels, c.target ≠ x) → f = id) ∧
        ∀ (nodes : List Node) (r : List Animation × List Node),
          updateAnimations simd delta_time animations nodes = .ok r →
          r.2[x]? = (nodes[x]?).map f := by
  intro animations
  induction animations with
  | nil =>
    refine ⟨id, Or.inl rfl, fun _ => rfl, ?_⟩
    intro nodes r h
    simp only [updateAnimations, Except.ok.injEq] at h
    subst h
    simp
  | cons a rest ih =>
    obtain ⟨f1, hf1, hid1, hp1⟩ :=
      updateChannels_pointwise simd { a with time := a.time + delta_time } x a.channels
    obtain ⟨f2, hf2, hid2, hp2⟩ := ih
    refine ⟨f2 ∘ f1, IsNodeWrite_comp simd hf1 hf2, ?_, ?_⟩
    · intro hno
      rw [hid1 (hno a (List.mem_cons_self _ _)),
        hid2 (fun a' ha' => hno a' (List.mem_cons_of_mem _ ha'))]
      rfl
    · intro nodes r h
      rw [updateAnimations] at h
      cases ha : UpdateAnimation simd delta_time a nodes with
      | error e => simp [ha] at h
      | ok r1 =>
        obtain ⟨a1, nodes1⟩ := r1
        simp only [ha] at h
        cases hr : updateAnimations simd delta_time rest nodes1 with
        | error e => simp [hr] at h
        | ok r2 =>
          obtain ⟨rest2, nodes2⟩ := r2
          simp only [hr, Except.ok.injEq] at h
          subst h
          have hch : updateChannels simd { a with time := a.time + delta_time } a.channels
              nodes = .ok nodes1 := by
            unfold UpdateAnimation at ha
            cases hc : updateChannels simd { a with time := a.time + delta_time } a.channels
                nodes with
            | error e => simp [hc] at ha
            | ok ns =>
              simp only [hc, Except.ok.injEq, Prod.mk.injEq] at ha
              rw [ha.2]
          have := hp2 nodes1 (rest2, nodes2) hr
          simp only at this
          rw [this, hp1 nodes nodes1 hch, Option.map_map]

/-! ### Repeating an update at the same time (C20) -/

theorem updateChannel_ok_ready (simd : SimdLib) (animation : Animation) (channel : Channel)
    (nodes nodes' : List Node)
    (h : updateChannel simd animation channel nodes = .ok nodes') :
    channelReady simd animation nodes.length channel = true ∧ nodes'.length = nodes.length := by
  obtain ⟨hp, s, r, n, hs, hr, hn, rfl⟩ := updateChannel_ok_inv simd _ _ _ _ h
  have hl : channel.target < nodes.length := (List.getElem?_eq_some.1 hn).1
  refine ⟨?_, by simp⟩
  simp [channelReady, hp, hl, hs, hr]

theorem updateChannels_ok_ready (simd : SimdLib) (animation : Animation) :
    ∀ (channels : List Channel) (nodes nodes' : List Node),
      updateChannels simd animation channels nodes = .ok nodes' →
      (∀ c ∈ channels, channelReady simd animation nodes.length c = true)
        ∧ nodes'.length = nodes.length := by
  intro channels
  induction channels with
  | nil =>
    intro nodes nodes' h
    simp only [updateChannels, Except.ok.injEq] at h
    subst h
    exact ⟨fun c hc => by simp at hc, rfl⟩
  | cons c rest ih =>
    intro nodes nodes' h
    rw [updateChannels] at h
    cases hc : updateChannel simd animation c nodes with
    | error e => simp [hc] at h
    | ok nodes1 =>
      simp only [hc] at h
      obtain ⟨hr1, hl1⟩ := updateChannel_ok_ready simd animation c nodes nodes1 hc
      obtain ⟨hr2, hl2⟩ := ih nodes1 nodes' h
      refine ⟨?_, hl2.trans hl1⟩
      intro c' hc'
      rcases List.mem_cons.1 hc' with rfl | hm
      · exact hr1
      · rw [← hl1]; exact hr2 c' hm

theorem updateAnimations_ok_ready (simd : SimdLib) (delta_time : ℚ) :
    ∀ (animations : List Animation) (nodes : List Node) (r : List Animation × List Node),
      updateAnimations simd delta_time animations nodes = .ok r →
      (∀ a ∈ animations, ∀ c ∈ a.channels,
        channelReady simd { a with time := a.time + delta_time } nodes.length c = true)
        ∧ r.2.length = nodes.length := by
  intro animations
  induction animations with
  | nil =>
    intro nodes r h
    simp only [updateAnimations, Except.ok.injEq] at h
    subst h
    exact ⟨fun a ha => by simp at ha, rfl⟩
  | cons a rest ih =>
    intro nodes r h
    rw [updateAnimations] at h
    cases ha : UpdateAnimation simd delta_time a nodes with
    | error e => simp [ha] at h
    | ok r1 =>
      obtain ⟨a1, nodes1⟩ := r1
      simp only [ha] at h
      cases hr : updateAnimations simd delta_time rest nodes1 with
      | error e => simp [hr] at h
      | ok r2 =>
        obtain ⟨rest2, nodes2⟩ := r2
        simp only [hr, Except.ok.injEq] at h
        subst h
        have hch : updateChannels simd { a with time := a.time + delta_time } a.channels
            nodes = .ok nodes1 := by
          unfold UpdateAnimation at ha
          cases hc : updateChannels simd { a with time := a.time + delta_time } a.channels
              nodes with
          | error e => simp [hc] at ha
          | ok ns =>
            simp only [hc, Except.ok.injEq, Prod.mk.injEq] at ha
            rw [ha.2]
        obtain ⟨hr1, hl1⟩ := updateChannels_ok_ready simd _ _ _ _ hch
        obtain ⟨hr2, hl2⟩ := ih nodes1 (rest2, nodes2) hr
        refine ⟨?_, hl2.trans hl1⟩
        intro a' ha' c hc
        rcases List.mem_cons.1 ha' with rfl | hm
        · exact hr1 c hc
        · rw [← hl1]; exact hr2 a' hm c hc

theorem demoDocument_update :
    ∃ d1, Document.Update demoSimd demoDocument (1 / 2) = .ok d1 := by
  have hready : ∀ a ∈ demoDocument.animations_, ∀ c ∈ a.channels,
      channelReady demoSimd { a with time := a.time + 1 / 2 } demoDocument.nodes_.length c
        = true := by
    intro a ha c hc
    simp only [demoDocument, List.mem_singleton] at ha
    subst ha
    simp only [demoAnimation, List.mem_singleton] at hc
    subst hc
    norm_num [channelReady, demoDocument, demoNodes, demoAnimation, sampleRotation, adjustTime,
      fmod, truncQ, findInterval, readQuat, demoSampler, demoSimd]
  obtain ⟨as, ns, hu, _⟩ := updateAnimations_ready demoSimd (1 / 2) _ _ hready
  exact ⟨{ demoDocument with animations_ := as, nodes_ := ns }, by
    unfold Document.Update; simp only [hu]⟩

theorem simd_translation_matrix_zero :
    simd_translation_matrix (simd_make_float3 0 0 0) = 1 := by
  ext i j
  fin_cases i <;> fin_cases j <;>
    simp [simd_translation_matrix, simd_matrix, simd_make_float4, simd_make_float3,
      Matrix.vecHead, Matrix.vecTail]

theorem simd_scale_matrix_one :
    simd_scale_matrix (simd_make_float3 1 1 1) = 1 := by
  ext i j
  fin_cases i <;> fin_cases j <;>
    simp [simd_scale_matrix, simd_matrix, simd_make_float4, simd_make_float3,
      Matrix.vecHead, Matrix.vecTail]

theorem demoSimd_rotation_identity : demoSimd.simd_matrix4x4 ⟨0, 0, 0, 1⟩ = 1 := by
  ext i j
  fin_cases i <;> fin_cases j <;>
    simp [demoSimd, simd_matrix, simd_make_float4, Matrix.vecHead, Matrix.vecTail]

/-- C19: a node built from a model node without matrix, translation,
rotation and scale has translation (0,0,0), the zero-angle quaternion
(0,0,0,1) as rotation, scale (1,1,1) and, the rotation matrix of that
quaternion being the identity, the identity as local matrix; if it has no
parent, `CalcModelMatrix` returns the identity for it. -/
theorem default_node_identity (simd : SimdLib) (model_nodes : List GltfNode)
    (nodes : List Node) (i : Nat) (g : GltfNode)
    (hrot : simd.simd_matrix4x4 ⟨0, 0, 0, 1⟩ = 1)
    (hb : buildNodes simd model_nodes = .ok nodes)
    (hg : model_nodes[i]? = some g)
    (hm : g.matrix = []) (hr : g.rotation = []) (hs : g.scale = [])
    (ht : g.translation = []) :
    ∃ n, nodes[i]? = some n
      ∧ n.translation = simd_make_float3 0 0 0
      ∧ n.rotation = ⟨0, 0, 0, 1⟩
      ∧ n.scale = simd_make_float3 1 1 1
      ∧ n.matrix = 1
      ∧ (n.parent = none → ∀ fuel : Nat, CalcModelMatrix nodes (fuel + 1) i = some 1) := by
  obtain ⟨n, hn, h1, h2, h3, h4, _⟩ := buildNodes_builtFrom simd model_nodes nodes hb i g hg
  have er : n.rotation = ⟨0, 0, 0, 1⟩ := by
    simp only [loadRotation, hr, List.isEmpty_nil, Bool.not_true, Bool.false_eq_true,
      if_false, Except.ok.injEq] at h1
    exact h1.symm
  have es : n.scale = simd_make_float3 1 1 1 := by
    simp only [loadFloat3, hs, List.isEmpty_nil, Bool.not_true, Bool.false_eq_true,
      if_false, Except.ok.injEq] at h2
    exact h2.symm
  have et : n.translation = simd_make_float3 0 0 0 := by
    simp only [loadFloat3, ht, List.isEmpty_nil, Bool.not_true, Bool.false_eq_true,
      if_false, Except.ok.injEq] at h3
    exact h3.symm
  have em : n.matrix = 1 := by
    rw [h4 (by simp [hm]), composedMatrix, er, es, et, hrot, simd_translation_matrix_zero,
      simd_scale_matrix_one]
    simp
  refine ⟨n, hn, et, er, es, em, ?_⟩
  intro hp fuel
  rw [CalcModelMatrix]
  simp [hn, hp, em]

theorem default_node_identity_witness :
    ∃ nodes n, buildNodes demoSimd demoBareModel = .ok nodes ∧ nodes[0]? = some n
      ∧ n.matrix = 1 ∧ CalcModelMatrix nodes (0 + 1) 0 = some 1 := by
  have hb : ∃ nodes, buildNodes demoSimd demoBareModel = .ok nodes := ⟨_, rfl⟩
  obtain ⟨nodes, hb⟩ := hb
  obtain ⟨n, hn, _, _, _, hm, hc⟩ :=
    default_node_identity demoSimd demoBareModel nodes 0 _ demoSimd_rotation_identity hb rfl
      rfl rfl rfl rfl
  have hp : n.parent = none := by
    obtain ⟨_, hl⟩ := buildNodes_links_model demoSimd demoBareModel nodes hb
    rw [(hl 0 n hn).1]
    decide
  exact ⟨nodes, n, hb, hn, hm, hc hp 0⟩

/-! ### Explicit matrices (C12) -/

theorem Update_frame (simd : SimdLib) (d d1 : Document) (delta_time : ℚ) (x : Nat)
    (h : Document.Update simd d delta_time = .ok d1)
    (hno : ∀ a ∈ d.animations_, ∀ c ∈ a.channels, c.target ≠ x) :
    d1.nodes_[x]? = d.nodes_[x]?
      ∧ d1.animations_ = d.animations_.map (advance delta_time) := by
  unfold Document.Update at h
  cases hu : updateAnimations simd delta_time d.animations_ d.nodes_ with
  | error e => simp [hu] at h
  | ok r =>
    obtain ⟨as1, ns1⟩ := r
    simp only [hu, Except.ok.injEq] at h
    subst h
    obtain ⟨f, _, hid, hp⟩ := updateAnimations_pointwise simd delta_time x d.animations_
    have := hp d.nodes_ (as1, ns1) hu
    simp only at this
    refine ⟨?_, updateAnimations_time simd delta_time _ _ _ _ hu⟩
    simp only
    rw [this, hid hno]
    simp

theorem Updates_frame (simd : SimdLib) (x : Nat) :
    ∀ (delta_times : List ℚ) (d d' : Document),
      Document.Updates simd d delta_times = .ok d' →
      (∀ a ∈ d.animations_, ∀ c ∈ a.channels, c.target ≠ x) →
      d'.nodes_[x]? = d.nodes_[x]? := by
  intro delta_times
  induction delta_times with
  | nil =>
    intro d d' h _
    simp only [Document.Updates, Except.ok.injEq] at h
    rw [h]
  | cons delta_time rest ih =>
    intro d d' h hno
    rw [Document.Updates] at h
    cases hu : Document.Update simd d delta_time with
    | error e => simp [hu] at h
    | ok d1 =>
      simp only [hu] at h
      obtain ⟨hx, has⟩ := Update_frame simd d d1 delta_time x hu hno
      rw [ih d1 d' h ?_, hx]
      intro a1 ha1 c hc
      rw [has] at ha1
      obtain ⟨a, ha, rfl⟩ := List.mem_map.1 ha1
      exact hno a ha c hc

theorem rotateNode_write (simd : SimdLib) {f : Node → Node} (hf : IsNodeWrite simd f)
    (q : simd_quatf) (n : Node) : rotateNode simd q (f n) = rotateNode simd q n := by
  rcases hf with rfl | ⟨r, rfl⟩
  · rfl
  · exact rotateNode_rotateNode simd q r n

theorem updateChannels_targeted (simd : SimdLib) (animation : Animation) (x : Nat) :
    ∀ (channels : List Channel) (nodes nodes' : List Node),
      updateChannels simd animation channels nodes = .ok nodes' →
      (∃ c ∈ channels, c.target = x) →
      ∃ q n, nodes[x]? = some n ∧ nodes'[x]? = some (rotateNode simd q n) := by
  intro channels
  induction channels with
  | nil => intro _ _ _ h; obtain ⟨c, hc, _⟩ := h; simp at hc
  | cons c rest ih =>
    intro nodes nodes' h hex
    rw [updateChannels] at h
    cases hc : updateChannel simd animation c nodes with
    | error e => simp [hc] at h
    | ok nodes1 =>
      simp only [hc] at h
      by_cases hrest : ∃ c' ∈ rest, c'.target = x
      · obtain ⟨q, n1, hn1, hn'⟩ := ih nodes1 nodes' h hrest
        obtain ⟨f1, hf1, _, hp1⟩ := updateChannel_pointwise simd animation c x
        rw [hp1 nodes nodes1 hc] at hn1
        cases hn : nodes[x]? with
        | none => rw [hn] at hn1; simp at hn1
        | some n =>
          rw [hn] at hn1
          simp only [Option.map_some', Option.some.injEq] at hn1
          subst hn1
          exact ⟨q, n, rfl, by rw [hn', rotateNode_write simd hf1]⟩
      · have hcx : c.target = x := by
          obtain ⟨c', hc', hx⟩ := hex
          rcases List.mem_cons.1 hc' with rfl | hm
          · exact hx
          · exact absurd ⟨c', hm, hx⟩ hrest
        obtain ⟨f2, _, hid2, hp2⟩ := updateChannels_pointwise simd animation x rest
        have hf2 : f2 = id := hid2 (fun c' hc' hx => hrest ⟨c', hc', hx⟩)
        obtain ⟨_, s, r, n, _, _, hn, rfl⟩ := updateChannel_ok_inv simd _ _ _ _ hc
        have hl : c.target < nodes.length := (List.getElem?_eq_some.1 hn).1
        refine ⟨r, n, by rw [← hcx]; exact hn, ?_⟩
        rw [hp2 _ nodes' h, hf2, ← hcx, List.getElem?_set_self hl]
        rfl

theorem updateAnimations_targeted (simd : SimdLib) (delta_time : ℚ) (x : Nat) :
    ∀ (animations : List Animation) (nodes : List Node) (r : List Animation × List Node),
      updateAnimations simd delta_time animations nodes = .ok r →
      (∃ a ∈ animations, ∃ c ∈ a.channels, c.target = x) →
      ∃ q n, nodes[x]? = some n ∧ r.2[x]? = some (rotateNode simd q n) := by
  intro animations
  induction animations with
  | nil => intro _ _ _ h; obtain ⟨a, ha, _⟩ := h; simp at ha
  | cons a rest ih =>
    intro nodes r h hex
    rw [updateAnimations] at h
    cases ha : UpdateAnimation simd delta_time a nodes with
    | error e => simp [ha] at h
    | ok r1 =>
      obtain ⟨a1, nodes1⟩ := r1
      simp only [ha] at h
      cases hr : updateAnimations simd delta_time rest nodes1 with
      | error e => simp [hr] at h
      | ok r2 =>
        obtain ⟨rest2, nodes2⟩ := r2
        simp only [hr, Except.ok.injEq] at h
        subst h
        have hch : updateChannels simd { a with time := a.time + delta_time } a.channels
            nodes = .ok nodes1 := by
          unfold UpdateAnimation at ha
          cases hc : updateChannels simd { a with time := a.time + delta_time } a.channels
              nodes with
          | error e => simp [hc] at ha
          | ok ns =>
            simp only [hc, Except.ok.injEq, Prod.mk.injEq] at ha
            rw [ha.2]
        simp only
        by_cases hrest : ∃ a' ∈ rest, ∃ c ∈ a'.channels, c.target = x
        · obtain ⟨q, n1, hn1, hn'⟩ := ih nodes1 (rest2, nodes2) hr hrest
          simp only at hn'
          obtain ⟨f1, hf1, _, hp1⟩ :=
            updateChannels_pointwise simd { a with time := a.time + delta_time } x a.channels
          rw [hp1 nodes nodes1 hch] at hn1
          cases hn : nodes[x]? with
          | none => rw [hn] at hn1; simp at hn1
          | some n =>
            rw [hn] at hn1
            simp only [Option.map_some', Option.some.injEq] at hn1
            subst hn1
            exact ⟨q, n, rfl, by rw [hn', rotateNode_write simd hf1]⟩
        · have hax : ∃ c ∈ a.channels, c.target = x := by
            obtain ⟨a', ha', hx⟩ := hex
            rcases List.mem_cons.1 ha' with rfl | hm
            · exact hx
            · exact absurd ⟨a', hm, hx⟩ hrest
          obtain ⟨q, n, hn, hn1⟩ := updateChannels_targeted simd _ x _ _ _ hch hax
          obtain ⟨f2, _, hid2, hp2⟩ := updateAnimations_pointwise simd delta_time x rest
          have hf2 : f2 = id :=
            hid2 (fun a' ha' c hc hx => hrest ⟨a', ha', c, hc, hx⟩)
          have := hp2 nodes1 (rest2, nodes2) hr
          simp only at this
          exact ⟨q, n, hn, by rw [this, hf2, hn1]; rfl⟩

theorem Update_targeted (simd : SimdLib) (d d1 : Document) (delta_time : ℚ) (x : Nat)
    (h : Document.Update simd d delta_time = .ok d1)
    (hex : ∃ a ∈ d.animations_, ∃ c ∈ a.channels, c.target = x) :
    ∃ q n, d.nodes_[x]? = some n ∧ d1.nodes_[x]? = some (rotateNode simd q n) := by
  unfold Document.Update at h
  cases hu : updateAnimations simd delta_time d.animations_ d.nodes_ with
  | error e => simp [hu] at h
  | ok r =>
    obtain ⟨as1, ns1⟩ := r
    simp only [hu, Except.ok.injEq] at h
    subst h
    exact updateAnimations_targeted simd delta_time x _ _ _ hu hex

theorem Update_of_ready (simd : SimdLib) (d : Document) (delta_time : ℚ)
    (hready : ∀ a ∈ d.animations_, ∀ c ∈ a.channels,
      channelReady simd { a with time := a.time + delta_time } d.nodes_.length c = true) :
    ∃ d1, Document.Update simd d delta_time = .ok d1 := by
  obtain ⟨as, ns, hu, _⟩ := updateAnimations_ready simd delta_time _ _ hready
  exact ⟨{ d with animations_ := as, nodes_ := ns }, by
    unfold Document.Update; simp only [hu]⟩

theorem demoBuiltNodes_eq : buildNodes demoSimd demoModel = .ok demoBuiltNodes := rfl

theorem demoSimd_rotation_column (q : simd_quatf) : demoSimd.simd_matrix4x4 q 0 3 = 0 := by
  simp [demoSimd, simd_matrix, simd_make_float4, Matrix.vecHead, Matrix.vecTail]

theorem demoBuiltNodes_length : demoBuiltNodes.length = 2 := by
  have := (buildNodesFrom_spec demoSimd demoModel 0 _ demoBuiltNodes demoBuiltNodes_eq).1
  simpa [demoModel] using this

/-- C12, the claim as stated fails: node 0 of `demoModel` is loaded with an
explicit matrix (a translation by (4,5,6)); after one `Document::Update` of a
document whose rotation channel targets that node, the node's matrix is the
composition of its translation, rotation and scale and no longer the
load-time matrix. -/
theorem explicit_matrix_counterexample :
    ∃ n0 d1 n1, buildNodes demoSimd demoModel = .ok demoBuiltNodes
      ∧ demoBuiltNodes[0]? = some n0
      ∧ simd_make_matrix [1, 0, 0, 0, 0, 1, 0, 0, 0, 0, 1, 0, 4, 5, 6, 1] 0 = some n0.matrix
      ∧ Document.Update demoSimd demoTargetDocument 0 = .ok d1
      ∧ d1.nodes_[0]? = some n1
      ∧ n1.matrix ≠ n0.matrix := by
  obtain ⟨n0, hn0, hbf⟩ :=
    buildNodes_builtFrom demoSimd demoModel demoBuiltNodes demoBuiltNodes_eq 0 _ rfl
  obtain ⟨_, hs0, ht0, _, hm0⟩ := hbf
  have hm : simd_make_matrix [1, 0, 0, 0, 0, 1, 0, 0, 0, 0, 1, 0, 4, 5, 6, 1] 0
      = some n0.matrix := hm0 rfl
  have hready : ∀ a ∈ demoTargetDocument.animations_, ∀ c ∈ a.channels,
      channelReady demoSimd { a with time := a.time + 0 } demoTargetDocument.nodes_.length c
        = true := by
    intro a ha c hc
    simp only [demoTargetDocument, List.mem_singleton] at ha
    subst ha
    simp only [demoAnimation, List.mem_singleton] at hc
    subst hc
    norm_num [channelReady, demoTargetDocument, demoBuiltNodes_length, demoAnimation,
      sampleRotation, adjustTime, fmod, truncQ, findInterval, readQuat, demoSampler, demoSimd]
  obtain ⟨d1, hd1⟩ := Update_of_ready demoSimd demoTargetDocument 0 hready
  obtain ⟨q, n, hn, hn1⟩ := Update_targeted demoSimd demoTargetDocument d1 0 0 hd1
    ⟨_, List.mem_singleton.2 rfl, _, List.mem_singleton.2 rfl, rfl⟩
  have e : n = n0 := by
    have : demoTargetDocument.nodes_[0]? = some n0 := hn0
    rw [this] at hn
    exact (Option.some.inj hn).symm
  subst e
  refine ⟨n, d1, _, demoBuiltNodes_eq, hn0, hm, hd1, hn1, ?_⟩
  intro heq
  have es : n.scale = simd_make_float3 1 1 1 := by
    simp only [loadFloat3, demoModel, List.getElem_cons_zero, List.isEmpty_nil, Bool.not_true,
      Bool.false_eq_true, if_false, Except.ok.injEq] at hs0
    exact hs0.symm
  have et : n.translation = simd_make_float3 0 0 0 := by
    simp only [loadFloat3, demoModel, List.getElem_cons_zero, List.isEmpty_nil, Bool.not_true,
      Bool.false_eq_true, if_false, Except.ok.injEq] at ht0
    exact ht0.symm
  have h1 : (rotateNode demoSimd q n).matrix = demoSimd.simd_matrix4x4 q := by
    simp [rotateNode, UpdateMatrix, matrix_multiply, es, et, simd_translation_matrix_zero,
      simd_scale_matrix_one]
  have h2 : n.matrix 0 3 = 4 := by
    simp only [simd_make_matrix] at hm
    norm_num at hm
    rw [← hm]
    simp [simd_matrix, simd_make_float4, Matrix.vecHead, Matrix.vecTail]
  rw [h1] at heq
  have := congrFun (congrFun heq 0) 3
  rw [demoSimd_rotation_column, h2] at this
  norm_num at this

/-- C12 as amended: a node loaded with an explicit matrix has that matrix
after construction, and keeps it (with all its other fields) through every
sequence of `Document::Update` calls as long as no animation channel targets
the node; the update of a channel that targets the node replaces the matrix
by `Translation(translation) * Rotation(rotation) * Scale(scale)`. -/
theorem explicit_matrix_kept (simd : SimdLib) (model_nodes : List GltfNode)
    (nodes : List Node) (i : Nat) (g : GltfNode)
    (hb : buildNodes simd model_nodes = .ok nodes)
    (hg : model_nodes[i]? = some g) (hne : g.matrix.isEmpty = false) :
    ∃ n, nodes[i]? = some n ∧ simd_make_matrix g.matrix 0 = some n.matrix
      ∧ (∀ (d d' : Document) (delta_times : List ℚ), d.nodes_ = nodes →
          (∀ a ∈ d.animations_, ∀ c ∈ a.channels, c.target ≠ i) →
          Document.Updates simd d delta_times = .ok d' → d'.nodes_[i]? = some n)
      ∧ (∀ (d d' : Document) (delta_time : ℚ),
          (∃ a ∈ d.animations_, ∃ c ∈ a.channels, c.target = i) →
          Document.Update simd d delta_time = .ok d' →
          ∃ n', d'.nodes_[i]? = some n'
            ∧ n'.matrix = simd_translation_matrix n'.translation
                * simd.simd_matrix4x4 n'.rotation * simd_scale_matrix n'.scale) := by
  obtain ⟨n, hn, hbf⟩ := buildNodes_builtFrom simd model_nodes nodes hb i g hg
  refine ⟨n, hn, hbf.2.2.2.2 hne, ?_, ?_⟩
  · intro d d' delta_times hd hno hu
    rw [Updates_frame simd i delta_times d d' hu hno, hd, hn]
  · intro d d' delta_time hex hu
    obtain ⟨q, m, _, hm'⟩ := Update_targeted simd d d' delta_time i hu hex
    exact ⟨_, hm', by simp [rotateNode, UpdateMatrix, matrix_multiply]⟩

theorem explicit_matrix_kept_witness :
    ∃ n d', demoBuiltNodes[0]? = some n
      ∧ simd_make_matrix [1, 0, 0, 0, 0, 1, 0, 0, 0, 0, 1, 0, 4, 5, 6, 1] 0 = some n.matrix
      ∧ Document.Updates demoSimd demoLeafDocument [1 / 2] = .ok d'
      ∧ d'.nodes_[0]? = some n := by
  obtain ⟨n, hn, hm, hkeep, _⟩ :=
    explicit_matrix_kept demoSimd demoModel demoBuiltNodes 0 _ demoBuiltNodes_eq rfl rfl
  have hready : ∀ a ∈ demoLeafDocument.animations_, ∀ c ∈ a.channels,
      channelReady demoSimd { a with time := a.time + 1 / 2 } demoLeafDocument.nodes_.length c
        = true := by
    intro a ha c hc
    simp only [demoLeafDocument, demoDocument, List.mem_singleton] at ha
    subst ha
    simp only [demoAnimation, List.mem_singleton] at hc
    subst hc
    norm_num [channelReady, demoLeafDocument, demoBuiltNodes_length, demoAnimation,
      sampleRotation, adjustTime, fmod, truncQ, findInterval, readQuat, demoSampler, demoSimd]
  obtain ⟨d1, hd1⟩ := Update_of_ready demoSimd demoLeafDocument (1 / 2) hready
  have hu : Document.Updates demoSimd demoLeafDocument [1 / 2] = .ok d1 := by
    simp only [Document.Updates, hd1]
  refine ⟨n, d1, hn, hm, hu, hkeep demoLeafDocument d1 [1 / 2] rfl ?_ hu⟩
  intro a ha c hc
  simp only [demoLeafDocument, demoDocument, List.mem_singleton] at ha
  subst ha
  simp only [demoAnimation, List.mem_singleton] at hc
  subst hc
  decide

/-! ### Skins after the constructor (C17) -/

theorem readMatrices_spec (buffer : GltfBuffer) (stride : Nat) :
    ∀ (count offset : Nat) (ms : List simd_float4x4),
      readMatrices buffer stride count offset = some ms →
      ms.length = count ∧
        ∀ j : Nat, j < count →
          ms[j]? = simd_make_matrix_at
            (fun k => buffer.floatAt (offset + 4 * stride * j + 4 * k)) := by
  intro count
  induction count with
  | zero =>
    intro offset ms h
    simp only [readMatrices, Option.some.injEq] at h
    subst h
    exact ⟨rfl, fun j hj => by omega⟩
  | succ c ih =>
    intro offset ms h
    rw [readMatrices] at h
    cases hm : simd_make_matrix_at (fun k => buffer.floatAt (offset + 4 * k)) with
    | none => simp [hm] at h
    | some m =>
      simp only [hm] at h
      cases hr : readMatrices buffer stride c (offset + 4 * stride) with
      | none => simp [hr] at h
      | some rest =>
        simp only [hr, Option.some.injEq] at h
        subst h
        obtain ⟨hlen, hj⟩ := ih _ _ hr
        refine ⟨by simp [hlen], ?_⟩
        intro j hjc
        cases j with
        | zero => simpa using hm.symm
        | succ j =>
          simp only [List.getElem?_cons_succ]
          rw [hj j (by omega)]
          congr 1
          funext k
          congr 1
          ring

theorem buildSkin_spec (model : GltfModel) (g : GltfSkin) (skin : Skin)
    (h : buildSkin model g = .ok skin) :
    ∃ accessor buffer_view buffer,
      model.accessors[to_size_t g.inverseBindMatrices]? = some accessor
        ∧ model.bufferViews[to_size_t accessor.bufferView]? = some buffer_view
        ∧ model.buffers[to_size_t buffer_view.buffer]? = some buffer
        ∧ skin.inverse_bind_matrices.length = accessor.count
        ∧ skin.joints = g.joints.map to_size_t
        ∧ ∀ j : Nat, j < accessor.count →
            skin.inverse_bind_matrices[j]? = simd_make_matrix_at (fun k =>
              buffer.floatAt (accessor.byteOffset + buffer_view.byteOffset
                + 4 * (to_size_t accessor.ByteStride / 4) * j + 4 * k)) := by
  unfold buildSkin at h
  cases ha : model.accessors[to_size_t g.inverseBindMatrices]? with
  | none => simp [ha] at h
  | some accessor =>
    simp only [ha] at h
    cases hv : model.bufferViews[to_size_t accessor.bufferView]? with
    | none => simp [hv] at h
    | some buffer_view =>
      simp only [hv] at h
      cases hbuf : model.buffers[to_size_t buffer_view.buffer]? with
      | none => simp [hbuf] at h
      | some buffer =>
        simp only [hbuf] at h
        cases hr : readMatrices buffer (to_size_t accessor.ByteStride / 4) accessor.count
            (accessor.byteOffset + buffer_view.byteOffset) with
        | none => simp [hr] at h
        | some ms =>
          simp only [hr, Except.ok.injEq] at h
          subst h
          obtain ⟨hlen, hj⟩ := readMatrices_spec _ _ _ _ _ hr
          exact ⟨accessor, buffer_view, buffer, rfl, hv, hbuf, hlen, rfl, hj⟩

theorem buildSkins_spec (model : GltfModel) :
    ∀ (gs : List GltfSkin) (skins : List Skin),
      buildSkins model gs = .ok skins →
      skins.length = gs.length ∧
        ∀ (i : Nat) (g : GltfSkin), gs[i]? = some g →
          ∃ skin, skins[i]? = some skin ∧ buildSkin model g = .ok skin := by
  intro gs
  induction gs with
  | nil =>
    intro skins h
    simp only [buildSkins, Except.ok.injEq] at h
    subst h
    exact ⟨rfl, fun i g hg => by simp at hg⟩
  | cons g0 rest ih =>
    intro skins h
    rw [buildSkins] at h
    cases h0 : buildSkin model g0 with
    | error e => simp [h0] at h
    | ok s0 =>
      simp only [h0] at h
      cases hr : buildSkins model rest with
      | error e => simp [hr] at h
      | ok ss =>
        simp only [hr, Except.ok.injEq] at h
        subst h
        obtain ⟨hlen, hi⟩ := ih ss hr
        refine ⟨by simp [hlen], ?_⟩
        intro i g hg
        cases i with
        | zero =>
          simp only [List.getElem?_cons_zero, Option.some.injEq] at hg
          subst hg
          exact ⟨s0, by simp, h0⟩
        | succ i =>
          simp only [List.getElem?_cons_succ] at hg ⊢
          exact hi i g hg

/-- C17, the claim as stated fails: for a model whose skin has two joints
and whose inverse bind matrix accessor has `count` 1, the constructor builds
a skin with one inverse bind matrix and two joints, and the index 1 that
`Render` uses for the second joint is outside `inverse_bind_matrices`. -/
theorem buildSkins_sizes_counterexample :
    ∃ skin, buildSkins (demoSkinModel 1) (demoSkinModel 1).skins = .ok [skin]
      ∧ skin.joints.length = 2 ∧ skin.inverse_bind_matrices.length = 1
      ∧ skin.inverse_bind_matrices[1]? = none := by
  have hb : ∃ skin, buildSkin (demoSkinModel 1)
      { name := "s", inverseBindMatrices := 0, skeleton := 0, joints := [1, 2] }
        = .ok skin := ⟨_, rfl⟩
  obtain ⟨skin, hb⟩ := hb
  obtain ⟨accessor, _, _, ha, _, _, hlen, hj, _⟩ := buildSkin_spec _ _ _ hb
  have ea : accessor = { bufferView := 0, byteOffset := 0, count := 1, ByteStride := 64 } := by
    have : (demoSkinModel 1).accessors[to_size_t (0 : Int)]?
        = some { bufferView := 0, byteOffset := 0, count := 1, ByteStride := 64 } := rfl
    rw [this] at ha
    exact (Option.some.inj ha).symm
  subst ea
  refine ⟨skin, ?_, by rw [hj]; rfl, hlen, ?_⟩
  · simp only [demoSkinModel, buildSkins]
    have hb' := hb
    simp only [demoSkinModel] at hb'
    rw [hb']
  · exact List.getElem?_eq_none (by rw [hlen])

/-- C17 as amended: the constructor gives every skin as many inverse bind
matrices as the `count` of the accessor `inverseBindMatrices` of the model
skin, matrix `j` read at `j` strides from the start of the accessor's data,
and the joints of the model skin in their order; the two sizes come from
different parts of the model, and `inverse_bind_matrices[i]` exists for every
`i < joints.size()` exactly when the model skin has at most `count`
joints. -/
theorem buildSkins_sizes (model : GltfModel) (skins : List Skin) (i : Nat) (g : GltfSkin)
    (h : buildSkins model model.skins = .ok skins) (hg : model.skins[i]? = some g) :
    ∃ skin accessor buffer_view buffer,
      skins[i]? = some skin
        ∧ model.accessors[to_size_t g.inverseBindMatrices]? = some accessor
        ∧ model.bufferViews[to_size_t accessor.bufferView]? = some buffer_view
        ∧ model.buffers[to_size_t buffer_view.buffer]? = some buffer
        ∧ skin.inverse_bind_matrices.length = accessor.count
        ∧ skin.joints = g.joints.map to_size_t
        ∧ (∀ j : Nat, j < accessor.count →
            skin.inverse_bind_matrices[j]? = simd_make_matrix_at (fun k =>
              buffer.floatAt (accessor.byteOffset + buffer_view.byteOffset
                + 4 * (to_size_t accessor.ByteStride / 4) * j + 4 * k)))
        ∧ ((∀ j : Nat, j < skin.joints.length → ∃ m, skin.inverse_bind_matrices[j]? = some m)
            ↔ g.joints.length ≤ accessor.count) := by
  obtain ⟨_, hi⟩ := buildSkins_spec model model.skins skins h
  obtain ⟨skin, hs, hb⟩ := hi i g hg
  obtain ⟨accessor, buffer_view, buffer, ha, hv, hbuf, hlen, hj, hm⟩ := buildSkin_spec _ _ _ hb
  refine ⟨skin, accessor, buffer_view, buffer, hs, ha, hv, hbuf, hlen, hj, hm, ?_⟩
  have hjl : skin.joints.length = g.joints.length := by rw [hj]; simp
  constructor
  · intro hall
    by_contra hc
    push_neg at hc
    have hlt : accessor.count < skin.joints.length := by omega
    obtain ⟨m, hm'⟩ := hall accessor.count hlt
    have := List.getElem?_eq_none (l := skin.inverse_bind_matrices) (n := accessor.count)
      (by omega)
    rw [this] at hm'
    simp at hm'
  · intro hle j hjlt
    have : j < skin.inverse_bind_matrices.length := by omega
    exact ⟨_, List.getElem?_eq_getElem this⟩

theorem buildSkins_sizes_witness :
    ∃ skins skin, buildSkins (demoSkinModel 2) (demoSkinModel 2).skins = .ok skins
      ∧ skins[0]? = some skin
      ∧ skin.inverse_bind_matrices.length = 2 ∧ skin.joints = [1, 2] := by
  have hb : ∃ skins, buildSkins (demoSkinModel 2) (demoSkinModel 2).skins = .ok skins :=
    ⟨_, rfl⟩
  obtain ⟨skins, hb⟩ := hb
  obtain ⟨skin, accessor, _, _, hs, ha, _, _, hlen, hj, _⟩ :=
    buildSkins_sizes (demoSkinModel 2) skins 0 _ hb rfl
  have ha' : some accessor
      = some { bufferView := 0, byteOffset := 0, count := 2, ByteStride := 64 } :=
    ha.symm
  have ea := Option.some.inj ha'
  subst ea
  exact ⟨skins, skin, hb, hs, hlen, by rw [hj]; rfl⟩

/-! ### The joint palette of identity poses (C18) -/

theorem CalcModelMatrix_identity (nodes : List Node) (hid : ∀ n ∈ nodes, n.matrix = 1) :
    ∀ (fuel c : Nat) (m : simd_float4x4), CalcModelMatrix nodes fuel c = some m → m = 1 := by
  intro fuel
  induction fuel with
  | zero => intro c m h; simp [CalcModelMatrix] at h
  | succ f ih =>
    intro c m h
    rw [CalcModelMatrix] at h
    cases hn : nodes[c]? with
    | none => simp [hn] at h
    | some n =>
      have hn1 : n.matrix = 1 := hid n (List.getElem?_mem hn)
      simp only [hn] at h
      cases hp : n.parent with
      | none =>
        simp only [hp, Option.some.injEq] at h
        rw [← h, hn1]
      | some p =>
        simp only [hp] at h
        cases hc : CalcModelMatrix nodes f p with
        | none => simp [hc] at h
        | some mp =>
          simp only [hc, Option.some.injEq] at h
          rw [← h, ih p mp hc, hn1]
          simp [matrix_multiply]

theorem renderPrimitive_skinned_some (simd : SimdLib) (d : Document) (fuel node : Nat)
    (n : Node) (primitive : Primitive) (skinIdx : Nat) (skin : Skin) (M : simd_float4x4)
    (hskin : n.skin = some skinIdx) (hs : d.skins_[skinIdx]? = some skin)
    (hM : CalcModelMatrix d.nodes_ fuel node = some M)
    (hall : ∀ i : Nat, i < skin.joints.length →
      ∃ j J B, skin.joints[i]? = some j ∧ CalcModelMatrix d.nodes_ fuel j = some J
        ∧ skin.inverse_bind_matrices[i]? = some B) :
    ∃ cmds, renderPrimitive simd d fuel node n primitive = some cmds := by
  have hex : ∃ p, jointMatrices d.nodes_ fuel (simd.simd_inverse M) skin
      skin.joints.length 0 = some p := by
    refine ⟨(List.range skin.joints.length).map (fun i =>
      (jointMatrix d.nodes_ fuel (simd.simd_inverse M) skin i).getD 0), ?_⟩
    refine (jointMatrices_eq_some _ _ _ _ _ _ _).2 ⟨by simp, ?_⟩
    intro k hk
    obtain ⟨j, J, B, hj, hJ, hB⟩ := hall k hk
    have : jointMatrix d.nodes_ fuel (simd.simd_inverse M) skin k
        = some (simd.simd_inverse M * J * B) :=
      (jointMatrix_eq_some _ _ _ _ _ _).2 ⟨j, J, B, hj, hJ, hB, rfl⟩
    simp [this, hk]
  obtain ⟨p, hp⟩ := hex
  unfold renderPrimitive
  simp [hM, hskin, hs, hp]

/-- C18: if every node of the hierarchy has the identity as local matrix and
every inverse bind matrix of the skin is the identity, then (the inverse of
the identity being the identity) the commands that `Render` issues for a
primitive of the skinned node carry the identity as model matrix and a joint
palette of `joints.size()` identity matrices; the palette is produced
whenever the node and every joint have a model matrix and every joint has an
inverse bind matrix at its index. -/
theorem identity_palette (simd : SimdLib) (d : Document) (fuel node : Nat) (n : Node)
    (primitive : Primitive) (skinIdx : Nat) (skin : Skin)
    (hinv : simd.simd_inverse 1 = 1)
    (hnodes : ∀ m ∈ d.nodes_, m.matrix = 1)
    (hbind : ∀ B ∈ skin.inverse_bind_matrices, B = 1)
    (hskin : n.skin = some skinIdx) (hs : d.skins_[skinIdx]? = some skin) :
    (∀ cmds, renderPrimitive simd d fuel node n primitive = some cmds →
        cmds = [.setVertexBuffer primitive.vertex_buffer, .setModelMatrix 1,
                .setJointPalette (List.replicate skin.joints.length 1),
                .drawIndexedPrimitives primitive.draw_count primitive.index_buffer])
      ∧ ((∃ M, CalcModelMatrix d.nodes_ fuel node = some M) →
          (∀ i : Nat, i < skin.joints.length →
            ∃ j J B, skin.joints[i]? = some j ∧ CalcModelMatrix d.nodes_ fuel j = some J
              ∧ skin.inverse_bind_matrices[i]? = some B) →
          ∃ cmds, renderPrimitive simd d fuel node n primitive = some cmds) := by
  constructor
  · intro cmds h
    unfold renderPrimitive at h
    cases hM : CalcModelMatrix d.nodes_ fuel node with
    | none => simp [hM] at h
    | some M =>
      have hM1 : M = 1 := CalcModelMatrix_identity d.nodes_ hnodes fuel node M hM
      subst hM1
      simp only [hM, hskin, hs, hinv] at h
      cases hp : jointMatrices d.nodes_ fuel 1 skin skin.joints.length 0 with
      | none => simp [hp] at h
      | some p =>
        simp only [hp, Option.some.injEq] at h
        obtain ⟨hlen, hk⟩ := (jointMatrices_eq_some _ _ _ _ _ _ _).1 hp
        have hrep : p = List.replicate skin.joints.length 1 := by
          rw [List.eq_replicate_iff]
          refine ⟨hlen, ?_⟩
          intro b hb
          obtain ⟨k, hkl, hkb⟩ := List.getElem_of_mem hb
          have hk' := hk k (by omega)
          simp only [Nat.zero_add] at hk'
          rw [List.getElem?_eq_getElem hkl, hkb] at hk'
          obtain ⟨j, J, B, _, hJ, hB, hm⟩ := (jointMatrix_eq_some _ _ _ _ _ _).1 hk'
          have hJ1 : J = 1 := CalcModelMatrix_identity d.nodes_ hnodes fuel j J hJ
          have hB1 : B = 1 := hbind B (List.getElem?_mem hB)
          rw [hm, hJ1, hB1]
          simp
        rw [← h, hrep]
  · rintro ⟨M, hM⟩ hall
    exact renderPrimitive_skinned_some simd d fuel node n primitive skinIdx skin M hskin hs
      hM hall

theorem identity_palette_witness :
    renderPrimitive demoSimd demoIdentityDocument 3 2
        { Node.zero with name := "mesh", parent := some 0, mesh := some 0, skin := some 0,
                         matrix := 1 } demoPrimitive
      = some [.setVertexBuffer 7, .setModelMatrix 1, .setJointPalette [1, 1],
              .drawIndexedPrimitives 36 8] := by
  have hinv : demoSimd.simd_inverse 1 = 1 := by simp [demoSimd]
  have hnodes : ∀ m ∈ demoIdentityDocument.nodes_, m.matrix = 1 := by
    intro m hm
    simp only [demoIdentityDocument, demoIdentityNodes, List.mem_cons, List.mem_singleton,
      List.not_mem_nil, or_false] at hm
    rcases hm with rfl | rfl | rfl <;> rfl
  have hbind : ∀ B ∈ demoIdentitySkin.inverse_bind_matrices, B = 1 := by
    intro B hB
    simp only [demoIdentitySkin, List.mem_cons, List.mem_singleton, List.not_mem_nil,
      or_false, or_self] at hB
    exact hB
  have h := identity_palette demoSimd demoIdentityDocument 3 2
    { Node.zero with name := "mesh", parent := some 0, mesh := some 0, skin := some 0,
                     matrix := 1 } demoPrimitive 0 demoIdentitySkin hinv hnodes hbind rfl rfl
  have hall : ∀ i : Nat, i < demoIdentitySkin.joints.length →
      ∃ j J B, demoIdentitySkin.joints[i]? = some j
        ∧ CalcModelMatrix demoIdentityDocument.nodes_ 3 j = some J
        ∧ demoIdentitySkin.inverse_bind_matrices[i]? = some B := by
    intro i hi
    have hi2 : i < 2 := hi
    interval_cases i
    · exact ⟨_, _, _, rfl, rfl, rfl⟩
    · exact ⟨_, _, _, rfl, rfl, rfl⟩
  obtain ⟨cmds, hc⟩ := h.2 ⟨_, rfl⟩ hall
  rw [hc, h.1 cmds hc]
  rfl

/-! ### Range of the sampling time (C25) -/

/-- C25: for keyframe times with last time `L > 0` and an animation time
`t >= 0`, the time at which `Update` samples is a number `r` with
`0 <= r < L`. -/
theorem normalized_time_range (times : List ℚ) (front L t : ℚ)
    (hfront : times.head? = some front) (hlast : times.getLast? = some L)
    (hL : 0 < L) (ht : 0 ≤ t) :
    ∃ r, adjustTime times t = .ok (some r) ∧ 0 ≤ r ∧ r < L := by
  have hx : 0 ≤ (if t < front then front else t) := by
    split
    · rename_i h; exact le_of_lt (lt_of_le_of_lt ht h)
    · exact ht
  obtain ⟨h1, h2, _⟩ := fmod_remainder_bounds (if t < front then front else t) L hL
  refine ⟨_, ?_, h2 hx, ?_⟩
  · rw [adjustTime_eq times front L t hfront hlast]
    simp only [fmod, hL.ne', if_false]
  · exact (abs_lt.1 h1).2

theorem normalized_time_range_witness :
    ∃ r, adjustTime [1, 2] (5 / 2) = .ok (some r) ∧ 0 ≤ r ∧ r < 2 :=
  normalized_time_range [1, 2] 1 2 (5 / 2) rfl rfl (by norm_num) (by norm_num)

/-! ### The scan for the bracketing interval (C23, C26) -/

theorem findInterval_some (times : List ℚ) (t : ℚ) :
    ∀ (fuel j i : Nat), findInterval times t fuel j = some i →
      j ≤ i ∧ ∃ lo hi, times[i - 1]? = some lo ∧ times[i]? = some hi ∧ lo ≤ t ∧ t < hi := by
  intro fuel
  induction fuel with
  | zero => intro j i h; simp [findInterval] at h
  | succ f ih =>
    intro j i h
    rw [findInterval] at h
    cases h1 : times[j - 1]? with
    | none => simp [h1] at h
    | some lo =>
      cases h2 : times[j]? with
      | none => simp [h1, h2] at h
      | some hi =>
        simp only [h1, h2] at h
        by_cases hb : lo ≤ t ∧ t < hi
        · simp only [hb, and_self, if_true, Option.some.injEq] at h
          subst h
          exact ⟨le_refl _, lo, hi, h1, h2, hb.1, hb.2⟩
        · simp only [hb, if_false] at h
          obtain ⟨hle, hrest⟩ := ih (j + 1) i h
          exact ⟨by omega, hrest⟩

theorem findInterval_exists (times : List ℚ) (t front L : ℚ)
    (hfront : times.head? = some front) (hlast : times.getLast? = some L)
    (hlo : front ≤ t) (hhi : t < L) :
    ∃ i, findInterval times t times.length 1 = some i := by
  have hlen : 0 < times.length := by
    cases times with
    | nil => simp at hfront
    | cons a l => simp
  have h0 : times[0]? = some front := by rw [← List.head?_eq_getElem?]; exact hfront
  have hl : times[times.length - 1]? = some L := by
    rw [← List.getLast?_eq_getElem?]; exact hlast
  have hex : ∃ i, ∃ b, times[i]? = some b ∧ t < b := ⟨times.length - 1, L, hl, hhi⟩
  classical
  let i := Nat.find hex
  obtain ⟨b, hb, htb⟩ := Nat.find_spec hex
  have hil : i < times.length := (List.getElem?_eq_some.1 hb).1
  have hi1 : 1 ≤ i := by
    by_contra hc
    have hi0 : i = 0 := by omega
    have hb' : times[0]? = some b := by rw [← hi0]; exact hb
    rw [h0] at hb'
    have : front = b := Option.some.inj hb'
    rw [← this] at htb
    exact absurd hlo (not_le.2 htb)
  have hbefore : ∀ (k : Nat) (a : ℚ), k < i → times[k]? = some a → a ≤ t := by
    intro k a hk ha
    by_contra hc
    exact Nat.find_min hex hk ⟨a, ha, not_le.1 hc⟩
  have hprev : times[i - 1]? = some times[i - 1] := List.getElem?_eq_getElem (by omega)
  refine ⟨i, findInterval_least times t i times[i - 1] b hprev hb
    ⟨hbefore (i - 1) _ (by omega) hprev, htb⟩ _ 1 hi1 (by omega) ?_⟩
  intro k a c _ hk2 _ hc hbr
  exact absurd hbr.2 (not_lt.2 (hbefore k c hk2 hc))

/-- C23 at the failing input: with the strictly ascending keyframe times
`[1, 2]` and the animation time 5/2, the sampling time is 1/2, below the
first keyframe; the scan finds no interval, and the update of the channel
ends in the read of the unassigned local `rotation`. -/
theorem scan_unassigned_at_late_start :
    demoLateSampler.times = [1, 2] ∧ demoLateSampler.times.Pairwise (· < ·)
      ∧ adjustTime demoLateSampler.times (5 / 2) = .ok (some (1 / 2))
      ∧ findInterval demoLateSampler.times (1 / 2) demoLateSampler.times.length 1 = none
      ∧ sampleRotation demoSimd demoLateSampler (5 / 2) = .error .UnassignedRotation
      ∧ updateChannel demoSimd { demoAnimation with samplers := [demoLateSampler], time := 5 / 2 }
          { sampler := 0, target := 1, path := "rotation" } demoNodes
        = .error .UnassignedRotation := by
  have ha : adjustTime demoLateSampler.times (5 / 2) = .ok (some (1 / 2)) := by
    norm_num [adjustTime, fmod, truncQ, demoLateSampler]
  have hf : findInterval demoLateSampler.times (1 / 2) demoLateSampler.times.length 1
      = none := by
    norm_num [findInterval, demoLateSampler]
  have hs : sampleRotation demoSimd demoLateSampler (5 / 2) = .error .UnassignedRotation := by
    simp only [sampleRotation, ha, hf]
  refine ⟨rfl, by simp [demoLateSampler], ha, hf, hs, ?_⟩
  simp [updateChannel, hs]

/-- C26: for a sampler with `n >= 2` keyframe times whose value buffer holds
at least `4 n` floats (`16 n` bytes), an index `i` found by the scan has
`1 <= i <= n - 1`, the eight floats read have the indices
`4(i-1) .. 4(i-1)+7`, all below `4 n` and all inside the buffer, and the
sampling never ends in an access out of range. -/
theorem sampling_reads_in_bounds (simd : SimdLib) (sampler : Sampler)
    (hn : 2 ≤ sampler.times.length)
    (hv : 4 * sampler.times.length ≤ sampler.values.length) :
    (∀ (t : ℚ) (i : Nat),
        findInterval sampler.times t sampler.times.length 1 = some i →
        1 ≤ i ∧ i ≤ sampler.times.length - 1
          ∧ 4 * (i - 1) + 7 < 4 * sampler.times.length
          ∧ (∀ k : Nat, k ≤ 7 → ∃ x, sampler.values[4 * (i - 1) + k]? = some x)
          ∧ (∃ q0 q1, readQuat sampler.values ((i - 1) * 4) = some q0
              ∧ readQuat sampler.values ((i - 1) * 4 + 4) = some q1))
      ∧ (∀ time : ℚ, sampleRotation simd sampler time ≠ .error .OutOfRange) := by
  have hmain : ∀ (t : ℚ) (i : Nat),
      findInterval sampler.times t sampler.times.length 1 = some i →
      1 ≤ i ∧ i ≤ sampler.times.length - 1
        ∧ 4 * (i - 1) + 7 < 4 * sampler.times.length
        ∧ (∀ k : Nat, k ≤ 7 → ∃ x, sampler.values[4 * (i - 1) + k]? = some x)
        ∧ (∃ q0 q1, readQuat sampler.values ((i - 1) * 4) = some q0
            ∧ readQuat sampler.values ((i - 1) * 4 + 4) = some q1) := by
    intro t i h
    obtain ⟨h1, lo, hi, _, hhi, _, _⟩ := findInterval_some sampler.times t _ 1 i h
    have hil : i < sampler.times.length := (List.getElem?_eq_some.1 hhi).1
    have hget : ∀ k : Nat, k ≤ 7 → ∃ x, sampler.values[4 * (i - 1) + k]? = some x := by
      intro k hk
      exact ⟨_, List.getElem?_eq_getElem (by omega)⟩
    refine ⟨h1, by omega, by omega, hget, ?_⟩
    have e : (i - 1) * 4 = 4 * (i - 1) := by omega
    obtain ⟨x0, h0⟩ := hget 0 (by omega)
    obtain ⟨x1, h1'⟩ := hget 1 (by omega)
    obtain ⟨x2, h2⟩ := hget 2 (by omega)
    obtain ⟨x3, h3⟩ := hget 3 (by omega)
    obtain ⟨x4, h4⟩ := hget 4 (by omega)
    obtain ⟨x5, h5⟩ := hget 5 (by omega)
    obtain ⟨x6, h6⟩ := hget 6 (by omega)
    obtain ⟨x7, h7⟩ := hget 7 (by omega)
    refine ⟨⟨x0, x1, x2, x3⟩, ⟨x4, x5, x6, x7⟩, ?_, ?_⟩
    · simp only [readQuat, e, h0, h1', h2, h3]
    · have e4 : 4 * (i - 1) + 4 + 0 = 4 * (i - 1) + 4 := by omega
      have e5 : 4 * (i - 1) + 4 + 1 = 4 * (i - 1) + 5 := by omega
      have e6 : 4 * (i - 1) + 4 + 2 = 4 * (i - 1) + 6 := by omega
      have e7 : 4 * (i - 1) + 4 + 3 = 4 * (i - 1) + 7 := by omega
      simp only [readQuat, e, e4, e5, e6, e7, h4, h5, h6, h7]
  refine ⟨hmain, ?_⟩
  intro time
  have hlen : 0 < sampler.times.length := by omega
  have hf : sampler.times.head? = some sampler.times[0] := by
    rw [List.head?_eq_getElem?]; exact List.getElem?_eq_getElem hlen
  have hl1 : sampler.times.length - 1 < sampler.times.length := by omega
  have hl : sampler.times.getLast? = some sampler.times[sampler.times.length - 1] := by
    rw [List.getLast?_eq_getElem?]; exact List.getElem?_eq_getElem hl1
  unfold sampleRotation
  rw [adjustTime_eq sampler.times _ _ time hf hl]
  cases hfm : fmod (if time < sampler.times[0] then sampler.times[0] else time)
      sampler.times[sampler.times.length - 1] with
  | none => simp
  | some τ =>
    simp only
    cases hfi : findInterval sampler.times τ sampler.times.length 1 with
    | none => simp
    | some i =>
      obtain ⟨_, _, _, _, q0, q1, hq0, hq1⟩ := hmain τ i hfi
      obtain ⟨_, lo, hi, hlo, hhi, _, _⟩ := findInterval_some sampler.times τ _ 1 i hfi
      simp [hq0, hq1, hlo, hhi]

theorem sampling_reads_in_bounds_witness :
    (2 ≤ demoSampler.times.length ∧ 4 * demoSampler.times.length ≤ demoSampler.values.length)
      ∧ sampleRotation demoSimd demoSampler (1 / 2) ≠ .error .OutOfRange :=
  ⟨⟨by decide, by decide⟩,
    (sampling_reads_in_bounds demoSimd demoSampler (by decide) (by decide)).2 (1 / 2)⟩

/-! ### Cost of the hierarchy walk (C27) -/

theorem CalcModelMatrixCounted_fst (nodes : List Node) :
    ∀ (fuel node : Nat),
      (CalcModelMatrixCounted nodes fuel node).map (fun r => r.1)
        = CalcModelMatrix nodes fuel node := by
  intro fuel
  induction fuel with
  | zero => intro node; simp [CalcModelMatrixCounted, CalcModelMatrix]
  | succ k ih =>
    intro node
    rw [CalcModelMatrixCounted, CalcModelMatrix]
    cases hn : nodes[node]? with
    | none => simp
    | some n =>
      simp only
      cases hp : n.parent with
      | none => simp
      | some p =>
        simp only
        rw [← ih p]
        cases hc : CalcModelMatrixCounted nodes k p with
        | none => simp
        | some r => simp

theorem CalcModelMatrixCounted_fuel_succ (nodes : List Node) :
    ∀ (fuel node : Nat) (r : simd_float4x4 × Nat × Nat),
      CalcModelMatrixCounted nodes fuel node = some r →
      CalcModelMatrixCounted nodes (fuel + 1) node = some r := by
  intro fuel
  induction fuel with
  | zero => intro node r h; simp [CalcModelMatrixCounted] at h
  | succ k ih =>
    intro node r h
    rw [CalcModelMatrixCounted] at h
    rw [CalcModelMatrixCounted]
    cases hn : nodes[node]? with
    | none => simp [hn] at h
    | some n =>
      simp only [hn] at h ⊢
      cases hp : n.parent with
      | none => simpa [hp] using h
      | some p =>
        simp only [hp] at h ⊢
        cases hc : CalcModelMatrixCounted nodes k p with
        | none => simp [hc] at h
        | some mp =>
          rw [ih p mp hc]
          simpa [hc] using h

theorem CalcModelMatrixCounted_fuel_mono (nodes : List Node) (fuel fuel' node : Nat)
    (r : simd_float4x4 × Nat × Nat) (h : CalcModelMatrixCounted nodes fuel node = some r)
    (hle : fuel ≤ fuel') : CalcModelMatrixCounted nodes fuel' node = some r := by
  induction hle with
  | refl => exact h
  | step _ ih => exact CalcModelMatrixCounted_fuel_succ nodes _ node r ih

theorem CalcModelMatrixCounted_below (nodes : List Node) :
    ∀ (chain : List Nat) (p c f0 : Nat) (m : simd_float4x4) (calls mults : Nat),
      isAncestorChain nodes (some p) chain = true →
      CalcModelMatrixCounted nodes f0 p = some (m, calls, mults) →
      chain.getLast? = some c →
      CalcModelMatrixCounted nodes (f0 + chain.length) c
          = some (m * (localMatrices nodes chain).prod,
              calls + chain.length, mults + chain.length) := by
  intro chain
  induction chain with
  | nil => intro p c f0 m calls mults _ _ hl; simp at hl
  | cons x rest ih =>
    intro p c f0 m calls mults hch hp hl
    simp only [isAncestorChain, Bool.and_eq_true] at hch
    obtain ⟨hx, hrest⟩ := hch
    cases hn : nodes[x]? with
    | none => simp [hn] at hx
    | some n =>
      simp only [hn, decide_eq_true_eq] at hx
      have hcx : CalcModelMatrixCounted nodes (f0 + 1) x
          = some (m * n.matrix, calls + 1, mults + 1) := by
        rw [CalcModelMatrixCounted]; simp [hn, hx, hp, matrix_multiply]
      rw [localMatrices_cons nodes x rest n hn]
      cases rest with
      | nil =>
        simp only [List.getLast?_singleton, Option.some.injEq] at hl
        subst hl
        simpa [localMatrices] using hcx
      | cons y ys =>
        have hl' : (y :: ys).getLast? = some c := by
          simpa [List.getLast?_cons_cons] using hl
        have h1 := ih x c (f0 + 1) (m * n.matrix) (calls + 1) (mults + 1) hrest hcx hl'
        have e : f0 + (x :: y :: ys).length = f0 + 1 + (y :: ys).length := by
          simp only [List.length_cons]; omega
        have e1 : calls + (x :: y :: ys).length = calls + 1 + (y :: ys).length := by
          simp only [List.length_cons]; omega
        have e2 : mults + (x :: y :: ys).length = mults + 1 + (y :: ys).length := by
          simp only [List.length_cons]; omega
        rw [e, e1, e2, h1, List.prod_cons, mul_assoc]

/-- C27: for a node `c` whose parent chain ends at a node with no parent
(`chain` lists the ancestors from that root down to `c` itself, so `c` has
`chain.length - 1` ancestors), `CalcModelMatrix` returns with any fuel of at
least the chain's length, and in doing so makes exactly one recursive call
and one `matrix_multiply` per ancestor; the counted walk returns the same
matrix as `CalcModelMatrix`. -/
theorem CalcModelMatrix_cost (nodes : List Node) (chain : List Nat) (c fuel : Nat)
    (hchain : isAncestorChain nodes none chain = true)
    (hlast : chain.getLast? = some c)
    (hfuel : chain.length ≤ fuel) :
    CalcModelMatrixCounted nodes fuel c
        = some ((localMatrices nodes chain).prod, chain.length - 1, chain.length - 1)
      ∧ CalcModelMatrix nodes fuel c = some (localMatrices nodes chain).prod := by
  have key : CalcModelMatrixCounted nodes fuel c
      = some ((localMatrices nodes chain).prod, chain.length - 1, chain.length - 1) := by
    cases chain with
    | nil => simp at hlast
    | cons x rest =>
      simp only [isAncestorChain, Bool.and_eq_true] at hchain
      obtain ⟨hx, hrest⟩ := hchain
      cases hn : nodes[x]? with
      | none => simp [hn] at hx
      | some n =>
        simp only [hn, decide_eq_true_eq] at hx
        have hroot : CalcModelMatrixCounted nodes 1 x = some (n.matrix, 0, 0) := by
          rw [CalcModelMatrixCounted]; simp [hn, hx]
        rw [localMatrices_cons nodes x rest n hn]
        cases rest with
        | nil =>
          simp only [List.getLast?_singleton, Option.some.injEq] at hlast
          subst hlast
          have := CalcModelMatrixCounted_fuel_mono nodes 1 fuel x _ hroot (by simpa using hfuel)
          simpa [localMatrices] using this
        | cons y ys =>
          have hl' : (y :: ys).getLast? = some c := by
            simpa [List.getLast?_cons_cons] using hlast
          have h1 := CalcModelMatrixCounted_below nodes (y :: ys) x c 1 n.matrix 0 0
            hrest hroot hl'
          have hle : 1 + (y :: ys).length ≤ fuel := by
            simp only [List.length_cons] at hfuel ⊢; omega
          rw [CalcModelMatrixCounted_fuel_mono nodes _ fuel c _ h1 hle, List.prod_cons]
          simp
  refine ⟨key, ?_⟩
  rw [← CalcModelMatrixCounted_fst nodes fuel c, key]
  rfl

theorem CalcModelMatrix_cost_witness :
    isAncestorChain demoNodes none [0, 1, 2, 3] = true
      ∧ (CalcModelMatrixCounted demoNodes 4 3).map (fun r => r.2) = some (3, 3)
      ∧ (CalcModelMatrix demoNodes 4 3).isSome = true := by
  have h := CalcModelMatrix_cost demoNodes [0, 1, 2, 3] 3 4 (by decide) rfl (by decide)
  refine ⟨by decide, ?_, ?_⟩
  · rw [h.1]; rfl
  · rw [h.2]; rfl

/-! ### What an update leaves unchanged (C21) -/

theorem rotateNode_fields (simd : SimdLib) (f : Node → Node) (hf : IsNodeWrite simd f)
    (n : Node) :
    (f n).name = n.name ∧ (f n).parent = n.parent ∧ (f n).children = n.children
      ∧ (f n).skin = n.skin ∧ (f n).mesh = n.mesh ∧ (f n).translation = n.translation
      ∧ (f n).scale = n.scale := by
  rcases hf with h | ⟨r, h⟩
  · subst h; simp
  · subst h; simp [rotateNode, UpdateMatrix]

/-- C21: a completed call of `Document::Update` leaves the meshes, skins and
scenes as they are, gives every animation the same name, samplers (times and
values) and channels and only adds `delta_time` to its time, keeps the number
of nodes, and gives every node the same name, parent, children, skin, mesh,
translation and scale; a node that is the target of no channel is unchanged as
a whole, so only rotation and matrix of a target node can differ. -/
theorem Update_changes_only_time_and_rotation (simd : SimdLib) (d d1 : Document)
    (delta_time : ℚ) (h : Document.Update simd d delta_time = .ok d1) :
    d1.meshes_ = d.meshes_ ∧ d1.skins_ = d.skins_ ∧ d1.scenes_ = d.scenes_
      ∧ d1.animations_.length = d.animations_.length
      ∧ (∀ (k : Nat) (a : Animation), d.animations_[k]? = some a →
          ∃ a1, d1.animations_[k]? = some a1 ∧ a1.name = a.name
            ∧ a1.samplers = a.samplers ∧ a1.channels = a.channels
            ∧ a1.time = a.time + delta_time)
      ∧ d1.nodes_.length = d.nodes_.length
      ∧ (∀ (x : Nat) (n : Node), d.nodes_[x]? = some n →
          ∃ n1, d1.nodes_[x]? = some n1 ∧ n1.name = n.name ∧ n1.parent = n.parent
            ∧ n1.children = n.children ∧ n1.skin = n.skin ∧ n1.mesh = n.mesh
            ∧ n1.translation = n.translation ∧ n1.scale = n.scale
            ∧ ((∀ a ∈ d.animations_, ∀ c ∈ a.channels, c.target ≠ x) → n1 = n)) := by
  unfold Document.Update at h
  cases hu : updateAnimations simd delta_time d.animations_ d.nodes_ with
  | error e => simp [hu] at h
  | ok r =>
    obtain ⟨as1, ns1⟩ := r
    simp only [hu, Except.ok.injEq] at h
    subst h
    have e1 : as1 = d.animations_.map fun a => { a with time := a.time + delta_time } :=
      updateAnimations_time simd delta_time _ _ _ _ hu
    have hlen := (updateAnimations_ok_ready simd delta_time _ _ _ hu).2
    refine ⟨rfl, rfl, rfl, by simp [e1], ?_, hlen, ?_⟩
    · intro k a ha
      refine ⟨{ a with time := a.time + delta_time }, ?_, rfl, rfl, rfl, rfl⟩
      simp [e1, ha]
    · intro x n hn
      obtain ⟨f, hf, hid, hp⟩ := updateAnimations_pointwise simd delta_time x d.animations_
      have hx := hp d.nodes_ (as1, ns1) hu
      simp only [hn, Option.map_some'] at hx
      obtain ⟨f1, f2, f3, f4, f5, f6, f7⟩ := rotateNode_fields simd f hf n
      refine ⟨f n, hx, f1, f2, f3, f4, f5, f6, f7, ?_⟩
      intro hno
      rw [hid hno]; rfl

theorem Update_changes_only_time_and_rotation_witness :
    ∃ d1, Document.Update demoSimd demoDocument (1 / 2) = .ok d1
      ∧ d1.skins_ = demoDocument.skins_
      ∧ d1.nodes_.length = demoDocument.nodes_.length := by
  obtain ⟨d1, h1⟩ := demoDocument_update
  have h := Update_changes_only_time_and_rotation demoSimd demoDocument d1 (1 / 2) h1
  exact ⟨d1, h1, h.2.1, h.2.2.2.2.2.1⟩

/-! ### Animation time from construction on (C22) -/

theorem buildAnimations_time (model : GltfModel) :
    ∀ (gs : List GltfAnimation) (animations : List Animation),
      buildAnimations model gs = .ok animations →
      animations.length = gs.length ∧ ∀ a ∈ animations, a.time = 0 := by
  intro gs
  induction gs with
  | nil =>
    intro animations h
    simp only [buildAnimations, Except.ok.injEq] at h
    subst h
    simp
  | cons g rest ih =>
    intro animations h
    rw [buildAnimations] at h
    cases h1 : buildAnimation model g with
    | error e => simp [h1] at h
    | ok a =>
      simp only [h1] at h
      cases h2 : buildAnimations model rest with
      | error e => simp [h2] at h
      | ok as =>
        simp only [h2, Except.ok.injEq] at h
        subst h
        obtain ⟨hl, ht⟩ := ih as h2
        refine ⟨by simp [hl], ?_⟩
        intro a' ha'
        rcases List.mem_cons.1 ha' with e | e
        · subst e
          unfold buildAnimation at h1
          cases h3 : buildSamplers model g.samplers with
          | error e => simp [h3] at h1
          | ok ss =>
            simp only [h3, Except.ok.injEq] at h1
            rw [← h1]; rfl
        · exact ht a' e

theorem advance_advance (x y : ℚ) (a : Animation) :
    advance y (advance x a) = advance (x + y) a := by
  simp [advance, add_assoc]

theorem Update_time (simd : SimdLib) (d d1 : Document) (delta_time : ℚ)
    (h : Document.Update simd d delta_time = .ok d1) :
    d1.animations_ = d.animations_.map (advance delta_time) := by
  unfold Document.Update at h
  cases hu : updateAnimations simd delta_time d.animations_ d.nodes_ with
  | error e => simp [hu] at h
  | ok r =>
    obtain ⟨as1, ns1⟩ := r
    simp only [hu, Except.ok.injEq] at h
    subst h
    exact updateAnimations_time simd delta_time _ _ _ _ hu

theorem Update_length (simd : SimdLib) (d d1 : Document) (delta_time : ℚ)
    (h : Document.Update simd d delta_time = .ok d1) :
    d1.nodes_.length = d.nodes_.length := by
  unfold Document.Update at h
  cases hu : updateAnimations simd delta_time d.animations_ d.nodes_ with
  | error e => simp [hu] at h
  | ok r =>
    obtain ⟨as1, ns1⟩ := r
    simp only [hu, Except.ok.injEq] at h
    subst h
    exact (updateAnimations_ok_ready simd delta_time _ _ _ hu).2

theorem Updates_time (simd : SimdLib) :
    ∀ (delta_times : List ℚ) (d d1 : Document),
      Document.Updates simd d delta_times = .ok d1 →
      d1.animations_ = d.animations_.map (advance delta_times.sum) := by
  intro delta_times
  induction delta_times with
  | nil =>
    intro d d1 h
    simp only [Document.Updates, Except.ok.injEq] at h
    subst h
    have e : advance (0 : ℚ) = id := by funext a; simp [advance]
    simp [e]
  | cons x rest ih =>
    intro d d1 h
    rw [Document.Updates] at h
    cases hu : Document.Update simd d x with
    | error e => simp [hu] at h
    | ok d0 =>
      simp only [hu] at h
      rw [ih d0 d1 h, Update_time simd d d0 x hu, List.map_map, List.sum_cons]
      apply List.map_congr_left
      intro a _
      exact advance_advance x rest.sum a

/-- C22: every animation built by the constructor has time 0; and in a
document with these animations, after any sequence of completed `Update`
calls with non-negative `delta_time` every animation's time is the sum of the
`delta_time`s so far and so is non-negative, and one more such call gives it
a time that is not smaller. -/
theorem animation_time_monotone (simd : SimdLib) (model : GltfModel)
    (gs : List GltfAnimation) (d d1 d2 : Document) (delta_times : List ℚ) (delta_time : ℚ)
    (hbuild : buildAnimations model gs = .ok d.animations_)
    (hpos : ∀ x ∈ delta_times, 0 ≤ x) (hpos1 : 0 ≤ delta_time)
    (h1 : Document.Updates simd d delta_times = .ok d1)
    (h2 : Document.Update simd d1 delta_time = .ok d2) :
    (∀ a ∈ d.animations_, a.time = 0)
      ∧ ∀ (k : Nat) (a1 : Animation), d1.animations_[k]? = some a1 →
          a1.time = delta_times.sum ∧ 0 ≤ a1.time
            ∧ ∃ a2, d2.animations_[k]? = some a2 ∧ a2.time = a1.time + delta_time
                ∧ a1.time ≤ a2.time := by
  have h0 := (buildAnimations_time model gs _ hbuild).2
  refine ⟨h0, ?_⟩
  intro k a1 hk
  have e1 := Updates_time simd delta_times d d1 h1
  have e2 := Update_time simd d1 d2 delta_time h2
  have hsum : 0 ≤ delta_times.sum := List.sum_nonneg hpos
  have ht : a1.time = delta_times.sum := by
    rw [e1, List.getElem?_map] at hk
    cases ha : d.animations_[k]? with
    | none => simp [ha] at hk
    | some a =>
      simp only [ha, Option.map_some', Option.some.injEq] at hk
      rw [← hk]
      simp [advance, h0 a (List.getElem?_mem ha)]
  refine ⟨ht, by rw [ht]; exact hsum, advance delta_time a1, ?_, rfl, ?_⟩
  · rw [e2, List.getElem?_map, hk]; rfl
  · simp [advance, hpos1]

theorem demoAnimation_built :
    buildAnimations demoAnimationModel [demoGltfAnimation] = .ok demoDocument.animations_ :=
  rfl

theorem animation_time_monotone_witness :
    buildAnimations demoAnimationModel [demoGltfAnimation] = .ok demoDocument.animations_
      ∧ ∃ d1 d2, Document.Updates demoSimd demoDocument [1 / 2] = .ok d1
          ∧ Document.Update demoSimd d1 (1 / 4) = .ok d2
          ∧ ∀ (k : Nat) (a1 : Animation), d1.animations_[k]? = some a1 →
              a1.time = 1 / 2 ∧ 0 ≤ a1.time
                ∧ ∃ a2, d2.animations_[k]? = some a2 ∧ a2.time = a1.time + 1 / 4
                    ∧ a1.time ≤ a2.time := by
  obtain ⟨d1, h1⟩ := demoDocument_update
  have hs : Document.Updates demoSimd demoDocument [1 / 2] = .ok d1 := by
    simp only [Document.Updates, h1]
  have e1 := Update_time demoSimd demoDocument d1 (1 / 2) h1
  have hl := Update_length demoSimd demoDocument d1 (1 / 2) h1
  obtain ⟨d2, h2⟩ := Update_of_ready demoSimd d1 (1 / 4) (by
    intro a ha c hc
    rw [e1] at ha
    simp only [demoDocument, List.map_cons, List.map_nil, List.mem_singleton] at ha
    subst ha
    simp only [advance, demoAnimation, List.mem_singleton] at hc
    subst hc
    rw [hl]
    norm_num [channelReady, advance, demoDocument, demoNodes, demoAnimation, sampleRotation,
      adjustTime, fmod, truncQ, findInterval, readQuat, demoSampler, demoSimd])
  have h := animation_time_monotone demoSimd demoAnimationModel [demoGltfAnimation]
    demoDocument d1 d2 [1 / 2] (1 / 4) demoAnimation_built (by simp) (by norm_num) hs h2
  refine ⟨demoAnimation_built, d1, d2, hs, h2, ?_⟩
  intro k a1 hk
  have := h.2 k a1 hk
  simpa using this

/-! ### Draw calls of one render pass (C24) -/

/-- C24 at the failing input: in a document of a root without mesh and one
child with a mesh of one primitive, one call of `Document::Render` draws that
primitive twice, once when the loop over all nodes reaches the root and
descends to the child, and once when the loop reaches the child itself; the
render of the child alone draws it once. -/
theorem Render_draws_child_twice :
    (Document.Render demoSimd demoChildMeshDocument 2 2).map drawCalls
        = some [(36, 8), (36, 8)]
      ∧ (RenderNode demoSimd demoChildMeshDocument 2 2 0).map drawCalls = some [(36, 8)]
      ∧ (RenderNode demoSimd demoChildMeshDocument 2 2 1).map drawCalls = some [(36, 8)] :=
  ⟨rfl, rfl, rfl⟩

/-! ### Unsupported channel paths in both builds (C13) -/

theorem updateChannel_NDEBUG_rotation (simd : SimdLib) (animation : Animation)
    (channel : Channel) (nodes : List Node) (hp : channel.path = "rotation") :
    updateChannel_NDEBUG simd animation channel nodes
      = updateChannel simd animation channel nodes := by
  simp only [updateChannel_NDEBUG, updateChannel, hp, if_true]

theorem updateChannel_NDEBUG_other (simd : SimdLib) (animation : Animation)
    (channel : Channel) (nodes : List Node) (n : Node) (hp : channel.path ≠ "rotation")
    (hn : nodes[channel.target]? = some n) :
    updateChannel_NDEBUG simd animation channel nodes
      = .ok (nodes.set channel.target (UpdateMatrix simd n)) := by
  simp only [updateChannel_NDEBUG, hp, if_false, writeNode, hn]

theorem updateChannel_NDEBUG_ready (simd : SimdLib) (animation : Animation)
    (channel : Channel) (nodes : List Node) (ht : channel.target < nodes.length)
    (hr : channel.path = "rotation" →
      channelReady simd animation nodes.length channel = true) :
    ∃ nodes', updateChannel_NDEBUG simd animation channel nodes = .ok nodes'
      ∧ nodes'.length = nodes.length := by
  by_cases hp : channel.path = "rotation"
  · rw [updateChannel_NDEBUG_rotation simd animation channel nodes hp]
    exact updateChannel_ready simd animation channel nodes (hr hp)
  · have hn : nodes[channel.target]? = some nodes[channel.target] :=
      List.getElem?_eq_getElem ht
    exact ⟨_, updateChannel_NDEBUG_other simd animation channel nodes _ hp hn, by simp⟩

theorem updateChannels_NDEBUG_ready (simd : SimdLib) (animation : Animation) :
    ∀ (channels : List Channel) (nodes : List Node),
      (∀ c ∈ channels, c.target < nodes.length
        ∧ (c.path = "rotation" → channelReady simd animation nodes.length c = true)) →
      ∃ nodes', updateChannels_NDEBUG simd animation channels nodes = .ok nodes'
        ∧ nodes'.length = nodes.length := by
  intro channels
  induction channels with
  | nil => intro nodes _; exact ⟨nodes, rfl, rfl⟩
  | cons c rest ih =>
    intro nodes h
    obtain ⟨h1, h2⟩ := h c (List.mem_cons_self _ _)
    obtain ⟨nodes1, hc, hl1⟩ := updateChannel_NDEBUG_ready simd animation c nodes h1 h2
    obtain ⟨nodes2, hr, hl2⟩ := ih nodes1 (fun c' hc' => by
      rw [hl1]; exact h c' (List.mem_cons_of_mem _ hc'))
    refine ⟨nodes2, ?_, by rw [hl2, hl1]⟩
    rw [updateChannels_NDEBUG]
    simp only [hc, hr]

theorem updateAnimations_NDEBUG_ready (simd : SimdLib) (delta_time : ℚ) :
    ∀ (animations : List Animation) (nodes : List Node),
      (∀ a ∈ animations, ∀ c ∈ a.channels, c.target < nodes.length
        ∧ (c.path = "rotation" →
            channelReady simd { a with time := a.time + delta_time } nodes.length c = true)) →
      ∃ nodes', updateAnimations_NDEBUG simd delta_time animations nodes
          = .ok (animations.map (advance delta_time), nodes')
        ∧ nodes'.length = nodes.length := by
  intro animations
  induction animations with
  | nil => intro nodes _; exact ⟨nodes, rfl, rfl⟩
  | cons a rest ih =>
    intro nodes h
    obtain ⟨nodes1, h1, hl1⟩ :=
      updateChannels_NDEBUG_ready simd { a with time := a.time + delta_time } a.channels nodes
        (h a (List.mem_cons_self _ _))
    obtain ⟨nodes2, h2, hl2⟩ := ih nodes1 (fun a' ha' c hc => by
      rw [hl1]; exact h a' (List.mem_cons_of_mem _ ha') c hc)
    have ha : UpdateAnimation_NDEBUG simd delta_time a nodes
        = .ok (advance delta_time a, nodes1) := by
      unfold UpdateAnimation_NDEBUG
      simp only [h1]
      rfl
    refine ⟨nodes2, ?_, by rw [hl2, hl1]⟩
    rw [updateAnimations_NDEBUG]
    simp only [ha, h2, List.map_cons]

/-- C13, the claim as stated fails in a build with `NDEBUG`: for the document
whose only channel has the path "translation", the update compiled with
assertions stops with the failed assertion, but compiled with `NDEBUG` it
completes without signalling anything, having recomposed the matrix of the
channel's target. -/
theorem unsupported_path_counterexample :
    (∀ a ∈ demoTranslationDocument.animations_, ∀ c ∈ a.channels, c.path = "translation")
      ∧ Document.Update demoSimd demoTranslationDocument 0 = .error .UnsupportedPath
      ∧ ∃ d', Document.Update_NDEBUG demoSimd demoTranslationDocument 0 = .ok d'
          ∧ d'.nodes_[1]? = (demoTranslationDocument.nodes_[1]?).map (UpdateMatrix demoSimd) := by
  refine ⟨?_, rfl, _, rfl, rfl⟩
  intro a ha c hc
  simp only [demoTranslationDocument, List.mem_singleton] at ha
  subst ha
  simp only [List.mem_singleton] at hc
  subst hc
  rfl

/-- C13 as amended: if an animation contains a channel whose path is not
"rotation", then in a build with assertions `Document::Update` never
completes, and stops at that channel with the failed assertion
"Only the rotation path is supported." when every channel processed before it
can be updated; in a build with `NDEBUG` the update of such a channel skips
the sampling and only recomposes the matrix of its target, and
`Document::Update` completes, advancing every animation's time, whenever
every channel has a target among the nodes and every rotation channel can be
updated. -/
theorem Update_unsupported_path (simd : SimdLib) (d : Document) (delta_time : ℚ) :
    (∀ a ∈ d.animations_, ∀ c ∈ a.channels, c.path ≠ "rotation" →
        ∀ d', Document.Update simd d delta_time ≠ .ok d')
      ∧ (∀ (pre post : List Animation) (a : Animation) (cpre cpost : List Channel)
          (c : Channel),
          d.animations_ = pre ++ a :: post → a.channels = cpre ++ c :: cpost →
          c.path ≠ "rotation" →
          (∀ b ∈ pre, ∀ ch ∈ b.channels,
            channelReady simd { b with time := b.time + delta_time } d.nodes_.length ch
              = true) →
          (∀ ch ∈ cpre,
            channelReady simd { a with time := a.time + delta_time } d.nodes_.length ch
              = true) →
          Document.Update simd d delta_time = .error .UnsupportedPath)
      ∧ (∀ (animation : Animation) (c : Channel) (nodes : List Node) (n : Node),
          c.path ≠ "rotation" → nodes[c.target]? = some n →
          updateChannel_NDEBUG simd animation c nodes
            = .ok (nodes.set c.target (UpdateMatrix simd n)))
      ∧ ((∀ a ∈ d.animations_, ∀ c ∈ a.channels, c.target < d.nodes_.length
            ∧ (c.path = "rotation" →
                channelReady simd { a with time := a.time + delta_time } d.nodes_.length c
                  = true)) →
          ∃ d', Document.Update_NDEBUG simd d delta_time = .ok d'
            ∧ d'.animations_ = d.animations_.map (advance delta_time)
            ∧ d'.nodes_.length = d.nodes_.length) := by
  refine ⟨(unsupported_path_aborts simd d delta_time).1,
    (unsupported_path_aborts simd d delta_time).2, ?_, ?_⟩
  · intro animation c nodes n hp hn
    exact updateChannel_NDEBUG_other simd animation c nodes n hp hn
  · intro h
    obtain ⟨nodes', hu, hl⟩ := updateAnimations_NDEBUG_ready simd delta_time _ _ h
    refine ⟨{ d with animations_ := d.animations_.map (advance delta_time), nodes_ := nodes' },
      ?_, rfl, hl⟩
    unfold Document.Update_NDEBUG
    simp only [hu]

theorem Update_unsupported_path_witness :
    Document.Update demoSimd demoTranslationDocument 0 = .error .UnsupportedPath
      ∧ ∃ d', Document.Update_NDEBUG demoSimd demoTranslationDocument 0 = .ok d'
          ∧ d'.nodes_.length = demoTranslationDocument.nodes_.length := by
  have h := Update_unsupported_path demoSimd demoTranslationDocument 0
  refine ⟨h.2.1 [] [] _ [] [] _ rfl rfl (by decide) (fun b hb => by simp at hb)
    (fun ch hch => by simp at hch), ?_⟩
  obtain ⟨d', h1, _, h3⟩ := h.2.2.2 (by
    intro a ha c hc
    simp only [demoTranslationDocument, List.mem_singleton] at ha
    subst ha
    simp only [List.mem_singleton] at hc
    subst hc
    exact ⟨by decide, fun hp => absurd hp (by decide)⟩)
  exact ⟨d', h1, h3⟩

/-! ### The joint palette in the commands of a render pass (C4) -/

theorem concatCommands_mem :
    ∀ (l : List (Option (List Command))) (cs : List Command),
      concatCommands l = some cs →
      ∀ (k : Nat) (o : Option (List Command)), l[k]? = some o →
        ∃ c pre post, o = some c ∧ cs = pre ++ c ++ post := by
  intro l
  induction l with
  | nil => intro cs _ k o hk; simp at hk
  | cons a rest ih =>
    intro cs h k o hk
    cases a with
    | none => simp [concatCommands] at h
    | some c0 =>
      rw [concatCommands] at h
      cases hr : concatCommands rest with
      | none => simp [hr] at h
      | some ds =>
        simp only [hr, Option.some.injEq] at h
        subst h
        cases k with
        | zero =>
          simp only [List.getElem?_cons_zero, Option.some.injEq] at hk
          subst hk
          exact ⟨c0, [], ds, rfl, by simp⟩
        | succ k' =>
          simp only [List.getElem?_cons_succ] at hk
          obtain ⟨c, pre, post, ho, hds⟩ := ih ds hr k' o hk
          exact ⟨c, c0 ++ pre, post, ho, by rw [hds]; simp⟩

theorem concatCommands_some :
    ∀ (l : List (Option (List Command))),
      (∀ o ∈ l, ∃ c, o = some c) → ∃ cs, concatCommands l = some cs := by
  intro l
  induction l with
  | nil => intro _; exact ⟨[], rfl⟩
  | cons a rest ih =>
    intro h
    obtain ⟨c0, ha⟩ := h a (List.mem_cons_self _ _)
    obtain ⟨ds, hr⟩ := ih (fun o ho => h o (List.mem_cons_of_mem _ ho))
    subst ha
    exact ⟨c0 ++ ds, by rw [concatCommands]; simp only [hr]⟩

theorem renderPrimitives_mem (simd : SimdLib) (d : Document) (fuel node : Nat) (n : Node) :
    ∀ (primitives : List Primitive) (cs : List Command),
      renderPrimitives simd d fuel node n primitives = some cs →
      ∀ primitive ∈ primitives,
        ∃ c pre post, renderPrimitive simd d fuel node n primitive = some c
          ∧ cs = pre ++ c ++ post := by
  intro primitives
  induction primitives with
  | nil => intro cs _ p hp; simp at hp
  | cons a rest ih =>
    intro cs h p hp
    rw [renderPrimitives] at h
    cases ha : renderPrimitive simd d fuel node n a with
    | none => simp [ha] at h
    | some c0 =>
      simp only [ha] at h
      cases hr : renderPrimitives simd d fuel node n rest with
      | none => simp [hr] at h
      | some ds =>
        simp only [hr, Option.some.injEq] at h
        subst h
        rcases List.mem_cons.1 hp with e | e
        · subst e
          exact ⟨c0, [], ds, ha, by simp⟩
        · obtain ⟨c, pre, post, hc, hds⟩ := ih ds hr p e
          exact ⟨c, c0 ++ pre, post, hc, by rw [hds]; simp⟩

theorem renderPrimitives_some (simd : SimdLib) (d : Document) (fuel node : Nat) (n : Node) :
    ∀ (primitives : List Primitive),
      (∀ primitive ∈ primitives, ∃ c, renderPrimitive simd d fuel node n primitive = some c) →
      ∃ cs, renderPrimitives simd d fuel node n primitives = some cs := by
  intro primitives
  induction primitives with
  | nil => intro _; exact ⟨[], rfl⟩
  | cons a rest ih =>
    intro h
    obtain ⟨c0, ha⟩ := h a (List.mem_cons_self _ _)
    obtain ⟨ds, hr⟩ := ih (fun p hp => h p (List.mem_cons_of_mem _ hp))
    exact ⟨c0 ++ ds, by rw [renderPrimitives]; simp only [ha, hr]⟩

theorem RenderNode_own (simd : SimdLib) (d : Document) (fuel depth node : Nat) (n : Node)
    (m : Nat) (mesh : Mesh) (cs : List Command)
    (h : RenderNode simd d fuel depth node = some cs)
    (hn : d.nodes_[node]? = some n) (hmesh : n.mesh = some m)
    (hm : d.meshes_[m]? = some mesh) :
    ∃ own rest, renderPrimitives simd d fuel node n mesh.primitives = some own
      ∧ cs = own ++ rest := by
  cases depth with
  | zero => simp [RenderNode] at h
  | succ k =>
    rw [RenderNode] at h
    simp only [hn, hmesh, hm] at h
    cases ho : renderPrimitives simd d fuel node n mesh.primitives with
    | none => simp [ho] at h
    | some own =>
      simp only [ho] at h
      cases hc : concatCommands (n.children.map fun child => RenderNode simd d fuel k child) with
      | none => simp [hc] at h
      | some ds =>
        simp only [hc, Option.some.injEq] at h
        exact ⟨own, ds, rfl, h.symm⟩

theorem Render_contains (simd : SimdLib) (d : Document) (fuel depth node : Nat)
    (cmds : List Command) (h : Document.Render simd d fuel depth = some cmds)
    (hnode : node < d.nodes_.length) :
    ∃ cx pre post, RenderNode simd d fuel depth node = some cx ∧ cmds = pre ++ cx ++ post := by
  unfold Document.Render at h
  cases hc : concatCommands ((List.range d.nodes_.length).map
      fun node => RenderNode simd d fuel depth node) with
  | none => simp [hc] at h
  | some cs =>
    simp only [hc, Option.some.injEq] at h
    have hk : ((List.range d.nodes_.length).map
        fun node => RenderNode simd d fuel depth node)[node]?
        = some (RenderNode simd d fuel depth node) := by
      simp [List.getElem?_map, List.getElem?_range hnode]
    obtain ⟨c, pre, post, ho, hcs⟩ := concatCommands_mem _ cs hc node _ hk
    refine ⟨c, [.setTriangleFillMode, .setRenderPipelineState, .setProjectionMatrix,
      .setViewMatrix] ++ pre, post, ho, ?_⟩
    rw [← h, hcs]
    simp

theorem renderPrimitive_some (simd : SimdLib) (d : Document) (fuel node : Nat) (n : Node)
    (primitive : Primitive) (M : simd_float4x4)
    (hM : CalcModelMatrix d.nodes_ fuel node = some M)
    (hskin : ∀ s, n.skin = some s →
      ∃ skin, d.skins_[s]? = some skin
        ∧ ∀ i : Nat, i < skin.joints.length →
            ∃ j J B, skin.joints[i]? = some j ∧ CalcModelMatrix d.nodes_ fuel j = some J
              ∧ skin.inverse_bind_matrices[i]? = some B) :
    ∃ c, renderPrimitive simd d fuel node n primitive = some c := by
  cases hs : n.skin with
  | none =>
    unfold renderPrimitive
    simp [hM, hs]
  | some s =>
    obtain ⟨skin, hsk, hall⟩ := hskin s hs
    exact renderPrimitive_skinned_some simd d fuel node n primitive s skin M hs hsk hM hall

theorem RenderNode_some (simd : SimdLib) (d : Document) (fuel : Nat) (rank : Nat → Nat)
    (hch : ∀ (x : Nat) (n : Node), d.nodes_[x]? = some n →
      ∀ c ∈ n.children, c < d.nodes_.length ∧ rank c < rank x)
    (hdraw : ∀ (x : Nat) (n : Node), d.nodes_[x]? = some n →
      ∀ m, n.mesh = some m →
        ∃ mesh, d.meshes_[m]? = some mesh
          ∧ (mesh.primitives ≠ [] →
              (∃ M, CalcModelMatrix d.nodes_ fuel x = some M)
                ∧ ∀ s, n.skin = some s →
                    ∃ skin, d.skins_[s]? = some skin
                      ∧ ∀ i : Nat, i < skin.joints.length →
                          ∃ j J B, skin.joints[i]? = some j
                            ∧ CalcModelMatrix d.nodes_ fuel j = some J
                            ∧ skin.inverse_bind_matrices[i]? = some B)) :
    ∀ (depth x : Nat), x < d.nodes_.length → rank x < depth →
      ∃ cs, RenderNode simd d fuel depth x = some cs := by
  intro depth
  induction depth with
  | zero => intro x _ h; omega
  | succ k ih =>
    intro x hx hr
    have hn : d.nodes_[x]? = some d.nodes_[x] := List.getElem?_eq_getElem hx
    obtain ⟨ds, hds⟩ := concatCommands_some
        (d.nodes_[x].children.map fun child => RenderNode simd d fuel k child) (by
      intro o ho
      obtain ⟨c, hc, rfl⟩ := List.mem_map.1 ho
      obtain ⟨hc1, hc2⟩ := hch x _ hn c hc
      exact ih c hc1 (by omega))
    rw [RenderNode]
    simp only [hn, hds]
    cases hmesh : d.nodes_[x].mesh with
    | none => exact ⟨[] ++ ds, rfl⟩
    | some m =>
      obtain ⟨mesh, hm, hrest⟩ := hdraw x _ hn m hmesh
      obtain ⟨own, hown⟩ := renderPrimitives_some simd d fuel x d.nodes_[x] mesh.primitives (by
        intro primitive hp
        obtain ⟨⟨M, hM⟩, hsk⟩ := hrest (List.ne_nil_of_mem hp)
        exact renderPrimitive_some simd d fuel x _ primitive M hM hsk)
      simp only [hm, hown]
      exact ⟨own ++ ds, rfl⟩

theorem Render_some (simd : SimdLib) (d : Document) (fuel depth : Nat)
    (h : Document.Renderable d fuel depth) :
    ∃ cmds, Document.Render simd d fuel depth = some cmds := by
  obtain ⟨⟨rank, hrank⟩, hdraw⟩ := h
  obtain ⟨cs, hcs⟩ := concatCommands_some
      ((List.range d.nodes_.length).map fun node => RenderNode simd d fuel depth node) (by
    intro o ho
    obtain ⟨x, hx, rfl⟩ := List.mem_map.1 ho
    have hx' : x < d.nodes_.length := List.mem_range.1 hx
    have hn : d.nodes_[x]? = some d.nodes_[x] := List.getElem?_eq_getElem hx'
    exact RenderNode_some simd d fuel rank (fun x n hn => (hrank x n hn).2) hdraw depth x hx'
      (hrank x _ hn).1)
  exact ⟨[.setTriangleFillMode, .setRenderPipelineState, .setProjectionMatrix,
    .setViewMatrix] ++ cs, by unfold Document.Render; simp only [hcs]⟩

/-- C4: for a node `n` of the document with a mesh and with skin `skin`,
whose model matrix is `M`, the commands that one call of `Document::Render`
records contain, for every primitive of the mesh, the primitive's vertex
buffer, the model matrix `M`, a joint palette and the draw call in this
order, where the palette has exactly `skin.joints.size()` entries and entry
`i` is `simd_inverse(M) * CalcModelMatrix(skin.joints[i]) *
skin.inverse_bind_matrices[i]`; the same holds for the commands of
`Render(encoder, node)` alone; and `Document::Render` completes for every
document that can be rendered within the bounds. -/
theorem Render_joint_palette (simd : SimdLib) (d : Document) (fuel depth node : Nat)
    (n : Node) (meshIdx : Nat) (mesh : Mesh) (primitive : Primitive) (skinIdx : Nat)
    (skin : Skin) (M : simd_float4x4)
    (hn : d.nodes_[node]? = some n) (hmesh : n.mesh = some meshIdx)
    (hm : d.meshes_[meshIdx]? = some mesh) (hprim : primitive ∈ mesh.primitives)
    (hskin : n.skin = some skinIdx) (hs : d.skins_[skinIdx]? = some skin)
    (hM : CalcModelMatrix d.nodes_ fuel node = some M) :
    (∀ cmds, Document.Render simd d fuel depth = some cmds →
      ∃ pre post p,
        cmds = pre ++ [.setVertexBuffer primitive.vertex_buffer, .setModelMatrix M,
                       .setJointPalette p,
                       .drawIndexedPrimitives primitive.draw_count primitive.index_buffer]
                 ++ post
        ∧ p.length = skin.joints.length
        ∧ ∀ i : Nat, i < skin.joints.length →
            ∃ j J B, skin.joints[i]? = some j ∧ CalcModelMatrix d.nodes_ fuel j = some J
              ∧ skin.inverse_bind_matrices[i]? = some B
              ∧ p[i]? = some (simd.simd_inverse M * J * B))
    ∧ (∀ cmds, RenderNode simd d fuel depth node = some cmds →
      ∃ pre post p,
        cmds = pre ++ [.setVertexBuffer primitive.vertex_buffer, .setModelMatrix M,
                       .setJointPalette p,
                       .drawIndexedPrimitives primitive.draw_count primitive.index_buffer]
                 ++ post
        ∧ p.length = skin.joints.length
        ∧ ∀ i : Nat, i < skin.joints.length →
            ∃ j J B, skin.joints[i]? = some j ∧ CalcModelMatrix d.nodes_ fuel j = some J
              ∧ skin.inverse_bind_matrices[i]? = some B
              ∧ p[i]? = some (simd.simd_inverse M * J * B))
    ∧ (Document.Renderable d fuel depth →
        ∃ cmds, Document.Render simd d fuel depth = some cmds) := by
  have hnode : ∀ cx, RenderNode simd d fuel depth node = some cx →
      ∃ pre post p,
        cx = pre ++ [.setVertexBuffer primitive.vertex_buffer, .setModelMatrix M,
                     .setJointPalette p,
                     .drawIndexedPrimitives primitive.draw_count primitive.index_buffer]
               ++ post
        ∧ p.length = skin.joints.length
        ∧ ∀ i : Nat, i < skin.joints.length →
            ∃ j J B, skin.joints[i]? = some j ∧ CalcModelMatrix d.nodes_ fuel j = some J
              ∧ skin.inverse_bind_matrices[i]? = some B
              ∧ p[i]? = some (simd.simd_inverse M * J * B) := by
    intro cx hcx
    obtain ⟨own, rest, hown, hcx'⟩ := RenderNode_own simd d fuel depth node n meshIdx mesh cx
      hcx hn hmesh hm
    obtain ⟨c, pre, post, hc, hown'⟩ :=
      renderPrimitives_mem simd d fuel node n mesh.primitives own hown primitive hprim
    obtain ⟨p, hp, hlen, hent⟩ :=
      (renderPrimitive_joint_palette simd d fuel node n primitive skinIdx skin M hskin hs hM).1
        c hc
    refine ⟨pre, post ++ rest, p, ?_, hlen, hent⟩
    rw [hcx', hown', hp]
    simp
  refine ⟨?_, hnode, Render_some simd d fuel depth⟩
  intro cmds h
  have hlt : node < d.nodes_.length := (List.getElem?_eq_some.1 hn).1
  obtain ⟨cx, pre, post, hcx, hcmds⟩ := Render_contains simd d fuel depth node cmds h hlt
  obtain ⟨pre', post', p, hp, hlen, hent⟩ := hnode cx hcx
  refine ⟨pre ++ pre', post' ++ post, p, ?_, hlen, hent⟩
  rw [hcmds, hp]
  simp

theorem demoDocument_renderable : Document.Renderable demoDocument 4 4 := by
  constructor
  · refine ⟨fun x => 3 - x, ?_⟩
    intro x n hx
    have hlt : x < 5 := (List.getElem?_eq_some.1 hx).1
    interval_cases x <;>
      simp only [demoDocument, demoNodes, demoRoot, demoMeshNode, Node.zero, List.cons_append,
        List.nil_append, List.getElem?_cons_zero, List.getElem?_cons_succ,
        Option.some.injEq] at hx <;>
      subst hx <;> simp [demoDocument, demoNodes]
  · intro x n hx m hm
    have hlt : x < 5 := (List.getElem?_eq_some.1 hx).1
    interval_cases x <;>
      simp only [demoDocument, demoNodes, demoRoot, demoMeshNode, Node.zero, List.cons_append,
        List.nil_append, List.getElem?_cons_zero, List.getElem?_cons_succ,
        Option.some.injEq] at hx <;>
      subst hx <;> simp only [reduceCtorEq, Option.some.injEq] at hm
    subst hm
    refine ⟨_, rfl, fun _ => ⟨⟨_, rfl⟩, ?_⟩⟩
    intro s hs
    simp only [Option.some.injEq] at hs
    subst hs
    refine ⟨demoSkin, rfl, ?_⟩
    intro i hi
    have hi2 : i < 2 := hi
    interval_cases i
    · exact ⟨1, _, _, rfl, rfl, rfl⟩
    · exact ⟨2, _, _, rfl, rfl, rfl⟩

theorem Render_joint_palette_witness :
    ∃ cmds pre post p, Document.Render demoSimd demoDocument 4 4 = some cmds
      ∧ cmds = pre ++ [.setVertexBuffer 7,
                       .setModelMatrix (matrix_multiply demoRoot.matrix demoMeshNode.matrix),
                       .setJointPalette p, .drawIndexedPrimitives 36 8] ++ post
      ∧ p.length = 2 := by
  have h := Render_joint_palette demoSimd demoDocument 4 4 4 demoMeshNode 0
    { name := "box", primitives := [demoPrimitive] } demoPrimitive 0 demoSkin
    (matrix_multiply demoRoot.matrix demoMeshNode.matrix) rfl rfl rfl (by simp) rfl rfl rfl
  obtain ⟨cmds, hc⟩ := h.2.2 demoDocument_renderable
  obtain ⟨pre, post, p, hp, hlen, _⟩ := h.1 cmds hc
  exact ⟨cmds, pre, post, p, hc, hp, hlen⟩

end Skinning

namespace Pbr

/-! ### Names of error codes (C28) -/

/-- C28: `ToString` returns "E_INVALIDARG" for `E_INVALIDARG`,
"DXGI_ERROR_INVALID_CALL" for `DXGI_ERROR_INVALID_CALL` (the two case labels
being different values) and throws `std::runtime_error("Fail")` for every
other value; so for a failing `HRESULT` other than these two,
`THROW_IF_FAILED` logs nothing and ends in that `runtime_error`, not in
`winrt::hresult_error`. -/
theorem ToString_cases (win : WinErrors)
    (hne : win.E_INVALIDARG ≠ win.DXGI_ERROR_INVALID_CALL) :
    ToString win win.E_INVALIDARG = .ok "E_INVALIDARG"
      ∧ ToString win win.DXGI_ERROR_INVALID_CALL = .ok "DXGI_ERROR_INVALID_CALL"
      ∧ (∀ result : HRESULT, result ≠ win.E_INVALIDARG →
          result ≠ win.DXGI_ERROR_INVALID_CALL →
          ToString win result = .error (.runtime_error "Fail"))
      ∧ (∀ result : HRESULT, win.FAILED result = true → result ≠ win.E_INVALIDARG →
          result ≠ win.DXGI_ERROR_INVALID_CALL →
          THROW_IF_FAILED win result = ([], .error (.runtime_error "Fail"))
            ∧ (THROW_IF_FAILED win result).2 ≠ .error (.hresult_error result)) := by
  refine ⟨by simp [ToString], ?_, ?_, ?_⟩
  · simp [ToString, Ne.symm hne]
  · intro result h1 h2
    simp [ToString, h1, h2]
  · intro result hf h1 h2
    have e : THROW_IF_FAILED win result = ([], .error (.runtime_error "Fail")) := by
      simp [THROW_IF_FAILED, hf, ToString, h1, h2]
    refine ⟨e, ?_⟩
    rw [e]
    simp

theorem ToString_cases_witness :
    demoWin.E_INVALIDARG ≠ demoWin.DXGI_ERROR_INVALID_CALL
      ∧ ToString demoWin (-2147024809) = .ok "E_INVALIDARG"
      ∧ THROW_IF_FAILED demoWin (-2147467259) = ([], .error (.runtime_error "Fail")) := by
  have hne : demoWin.E_INVALIDARG ≠ demoWin.DXGI_ERROR_INVALID_CALL := by decide
  have h := ToString_cases demoWin hne
  refine ⟨hne, h.1, (h.2.2.2 (-2147467259) (by decide) (by decide) (by decide)).1⟩

/-! ### Alignment to a power of two (C30) -/

theorem and_high_mask (x w k : Nat) (hx : x < 2 ^ w) (hk : k ≤ w) :
    x &&& (2 ^ w - 2 ^ k) = x / 2 ^ k * 2 ^ k := by
  have hm : 2 ^ w - 2 ^ k = 2 ^ k * (2 ^ (w - k) - 1) := by
    have : 2 ^ w = 2 ^ k * 2 ^ (w - k) := by rw [← pow_add]; congr 1; omega
    rw [this, Nat.mul_sub, mul_one]
  apply Nat.eq_of_testBit_eq
  intro i
  rw [Nat.testBit_and, hm, Nat.testBit_mul_pow_two, Nat.testBit_two_pow_sub_one,
    mul_comm (x / 2 ^ k), Nat.testBit_mul_pow_two, ← Nat.shiftRight_eq_div_pow,
    Nat.testBit_shiftRight]
  by_cases hik : k ≤ i
  · have e : k + (i - k) = i := by omega
    rw [e]
    by_cases hiw : i < w
    · have : i - k < w - k := by omega
      simp [hik, this]
    · have hlt : x < 2 ^ i :=
        lt_of_lt_of_le hx (Nat.pow_le_pow_right (by decide) (by omega))
      simp [Nat.testBit_lt_two_pow hlt]
  · simp [hik]

theorem AlignPow2_eq (w k value : Nat) (hk : k < w) (hv : value + 2 ^ k - 1 < 2 ^ w) :
    AlignPow2 w value (2 ^ k) = (value + 2 ^ k - 1) / 2 ^ k * 2 ^ k := by
  have hkpos : 0 < 2 ^ k := Nat.two_pow_pos k
  have hkw : 2 ^ k < 2 ^ w := Nat.pow_lt_pow_right (by decide) hk
  have hvw : value < 2 ^ w := by omega
  have ha : 2 ^ k % 2 ^ w = 2 ^ k := Nat.mod_eq_of_lt hkw
  have hs : ((value % 2 ^ w + 2 ^ k) % 2 ^ w + (2 ^ w - 1)) % 2 ^ w = value + 2 ^ k - 1 := by
    rw [Nat.mod_eq_of_lt hvw]
    by_cases hov : value + 2 ^ k < 2 ^ w
    · rw [Nat.mod_eq_of_lt hov]
      have : value + 2 ^ k + (2 ^ w - 1) = (value + 2 ^ k - 1) + 2 ^ w := by omega
      rw [this, Nat.add_mod_right, Nat.mod_eq_of_lt hv]
    · have e : value + 2 ^ k = 2 ^ w := by omega
      rw [e, Nat.mod_self, Nat.zero_add, Nat.mod_eq_of_lt (by omega)]
  have hmask : 2 ^ w - 1 - (2 ^ k + (2 ^ w - 1)) % 2 ^ w = 2 ^ w - 2 ^ k := by
    have : 2 ^ k + (2 ^ w - 1) = (2 ^ k - 1) + 2 ^ w := by omega
    rw [this, Nat.add_mod_right, Nat.mod_eq_of_lt (by omega)]
    omega
  unfold AlignPow2
  simp only [ha, hs, hmask]
  exact and_high_mask _ w k hv (le_of_lt hk)

theorem AlignPow2_bounds (w k v : Nat) (hk : k < w) (hv : v + 2 ^ k - 1 < 2 ^ w) :
    2 ^ k ∣ AlignPow2 w v (2 ^ k)
      ∧ v ≤ AlignPow2 w v (2 ^ k) ∧ AlignPow2 w v (2 ^ k) < v + 2 ^ k
      ∧ (∀ m : Nat, 2 ^ k ∣ m → v ≤ m → AlignPow2 w v (2 ^ k) ≤ m)
      ∧ (2 ^ k ∣ v → AlignPow2 w v (2 ^ k) = v) := by
  have hkpos : 0 < 2 ^ k := Nat.two_pow_pos k
  have heq := AlignPow2_eq w k v hk hv
  have hdvd : 2 ^ k ∣ AlignPow2 w v (2 ^ k) := by rw [heq]; exact Nat.dvd_mul_left _ _
  have hle : AlignPow2 w v (2 ^ k) ≤ v + 2 ^ k - 1 := by
    rw [heq]; exact Nat.div_mul_le_self _ _
  have hge : v ≤ AlignPow2 w v (2 ^ k) := by
    rw [heq]
    have h1 := Nat.div_add_mod (v + 2 ^ k - 1) (2 ^ k)
    have h2 := Nat.mod_lt (v + 2 ^ k - 1) hkpos
    rw [mul_comm] at h1
    omega
  have hleast : ∀ m : Nat, 2 ^ k ∣ m → v ≤ m → AlignPow2 w v (2 ^ k) ≤ m := by
    intro m hm hvm
    obtain ⟨q, rfl⟩ := hm
    rw [heq, mul_comm (2 ^ k) q]
    apply Nat.mul_le_mul_right
    have : (v + 2 ^ k - 1) / 2 ^ k < q + 1 := by
      rw [Nat.div_lt_iff_lt_mul hkpos]
      have : (q + 1) * 2 ^ k = 2 ^ k * q + 2 ^ k := by ring
      omega
    omega
  refine ⟨hdvd, hge, by omega, hleast, ?_⟩
  intro hal
  exact le_antisymm (hleast v hal (le_refl v)) hge

/-- C30: for an unsigned type of `w` bits, a power of two `2 ^ k` that the
type holds and a value `v` with `v + 2 ^ k - 1` not overflowing,
`AlignPow2(v, 2 ^ k)` is the least multiple of `2 ^ k` that is at least `v`:
it is divisible by `2 ^ k`, lies in `[v, v + 2 ^ k)`, is at most every
multiple of `2 ^ k` from `v` on, and is `v` when `v` is aligned; so for a
64-bit `size` the constant-buffer offsets `AlignPow2(size, 256) * i` are
multiples of 256 and, when the product does not overflow, consecutive ones
are at least `size` apart. -/
theorem AlignPow2_least_multiple (w k v : Nat) (hk : k < w) (hv : v + 2 ^ k - 1 < 2 ^ w) :
    (2 ^ k ∣ AlignPow2 w v (2 ^ k)
      ∧ v ≤ AlignPow2 w v (2 ^ k) ∧ AlignPow2 w v (2 ^ k) < v + 2 ^ k
      ∧ (∀ m : Nat, 2 ^ k ∣ m → v ≤ m → AlignPow2 w v (2 ^ k) ≤ m)
      ∧ (2 ^ k ∣ v → AlignPow2 w v (2 ^ k) = v))
    ∧ (∀ size i : Nat, size + 256 - 1 < 2 ^ 64 →
        256 ∣ constantOffset size i
          ∧ (AlignPow2 64 size 256 * (i + 1) < 2 ^ 64 →
              constantOffset size i + size ≤ constantOffset size (i + 1))) := by
  refine ⟨AlignPow2_bounds w k v hk hv, ?_⟩
  intro size i hsize
  have h256 : (2 : Nat) ^ 8 = 256 := by norm_num
  obtain ⟨hdvd, hge, _⟩ := AlignPow2_bounds 64 8 size (by decide) (by rw [h256]; exact hsize)
  rw [h256] at hdvd hge
  constructor
  · unfold constantOffset
    have h1 : 256 ∣ AlignPow2 64 size 256 * i := Dvd.dvd.mul_right hdvd i
    have h2 : (256 : Nat) ∣ 2 ^ 64 := ⟨2 ^ 56, by norm_num⟩
    exact (Nat.dvd_mod_iff h2).2 h1
  · intro hno
    unfold constantOffset
    have hi : AlignPow2 64 size 256 * i < 2 ^ 64 := by
      have : AlignPow2 64 size 256 * i ≤ AlignPow2 64 size 256 * (i + 1) :=
        Nat.mul_le_mul_left _ (Nat.le_succ i)
      omega
    rw [Nat.mod_eq_of_lt hi, Nat.mod_eq_of_lt hno, Nat.mul_succ]
    omega

theorem AlignPow2_least_multiple_witness :
    (8 < 64 ∧ sizeof_Constant + 2 ^ 8 - 1 < 2 ^ 64)
      ∧ AlignPow2 64 sizeof_Constant 256 = 256
      ∧ (sizeof_Constant ≤ AlignPow2 64 sizeof_Constant (2 ^ 8)
          ∧ AlignPow2 64 sizeof_Constant (2 ^ 8) < sizeof_Constant + 2 ^ 8)
      ∧ constantOffset sizeof_Constant 2 = 512
      ∧ constantOffset sizeof_Constant 1 + sizeof_Constant
          ≤ constantOffset sizeof_Constant 2 := by
  have h := AlignPow2_least_multiple 64 8 sizeof_Constant (by decide) (by decide)
  exact ⟨⟨by decide, by decide⟩, by decide, ⟨h.1.2.1, h.1.2.2.1⟩, by decide,
    (h.2 sizeof_Constant 1 (by decide)).2 (by decide)⟩

end Pbr

namespace RayTracing

/-! ### Clamping (C29) -/

theorem Double.lt_ofRat (a b : ℚ) :
    Double.lt (Double.ofRat a) (Double.ofRat b) = decide (a < b) := by
  simp only [Double.lt, Double.ofRat, WithBot.coe_lt_coe, WithTop.coe_lt_coe]

theorem Double.le_ofRat (a b : ℚ) :
    Double.le (Double.ofRat a) (Double.ofRat b) = decide (a ≤ b) := by
  simp only [Double.le, Double.ofRat, WithBot.coe_le_coe, WithTop.coe_le_coe]

theorem Double.lt_inf (a : ℚ) : Double.lt (Double.ofRat a) (.num ⊤) = true := by
  simp only [Double.lt, Double.ofRat, decide_eq_true_eq]
  exact lt_of_le_of_ne le_top (by
    intro h
    have h1 : ((a : WithTop ℚ) : WithBot (WithTop ℚ)) = ((⊤ : WithTop ℚ) : WithBot (WithTop ℚ)) := h
    exact WithTop.coe_ne_top (WithBot.coe_injective h1))

/-- C29, the claim as stated fails for a NaN argument: with `min = 0 <= max = 1`
and `x` NaN both comparisons of `clamp` are false, the result is `x` itself,
and NaN is not in `[0, 1]`. -/
theorem clamp_nan_counterexample :
    Double.le (Double.ofRat 0) (Double.ofRat 1) = true
      ∧ Double.lt .nan (Double.ofRat 0) = false
      ∧ Double.gt .nan (Double.ofRat 1) = false
      ∧ clamp .nan (Double.ofRat 0) (Double.ofRat 1) = .nan
      ∧ Double.le (Double.ofRat 0) (clamp .nan (Double.ofRat 0) (Double.ofRat 1)) = false
      ∧ Double.le (clamp .nan (Double.ofRat 0) (Double.ofRat 1)) (Double.ofRat 1) = false := by
  refine ⟨?_, rfl, rfl, rfl, rfl, rfl⟩
  rw [Double.le_ofRat]; norm_num

/-- C29 as amended: for `min <= max`, `clamp(x, min, max)` is `x` when
`min <= x <= max`, `min` when `x < min` and `max` when `x > max`, clamping its
result again changes nothing, and for an `x` that is not NaN the result lies
in `[min, max]`; for a NaN `x` the result is NaN. -/
theorem clamp_spec (x min max : Double) (h : Double.le min max = true) :
    (x ≠ .nan → Double.le min (clamp x min max) = true
        ∧ Double.le (clamp x min max) max = true)
      ∧ (x = .nan → clamp x min max = .nan)
      ∧ (Double.le min x = true → Double.le x max = true → clamp x min max = x)
      ∧ (Double.lt x min = true → clamp x min max = min)
      ∧ (Double.gt x max = true → clamp x min max = max)
      ∧ clamp (clamp x min max) min max = clamp x min max := by
  cases min with
  | nan => simp [Double.le] at h
  | num lo =>
    cases max with
    | nan => simp [Double.le] at h
    | num hi =>
      simp only [Double.le, decide_eq_true_eq] at h
      cases x with
      | nan =>
        refine ⟨fun hx => absurd rfl hx, fun _ => rfl, ?_, ?_, ?_, rfl⟩
        · intro h1; simp [Double.le] at h1
        · intro h1; simp [Double.lt] at h1
        · intro h1; simp [Double.gt, Double.lt] at h1
      | num a =>
        have hid : ∀ y : WithBot (WithTop ℚ), lo ≤ y → y ≤ hi →
            clamp (.num y) (.num lo) (.num hi) = .num y := by
          intro y h1 h2
          simp [clamp, Double.lt, Double.gt, not_lt.2 h1, not_lt.2 h2]
        have hin : ∃ y, clamp (.num a) (.num lo) (.num hi) = .num y ∧ lo ≤ y ∧ y ≤ hi := by
          by_cases h1 : a < lo
          · exact ⟨lo, by simp [clamp, Double.lt, h1], le_refl _, h⟩
          · by_cases h2 : hi < a
            · exact ⟨hi, by simp [clamp, Double.lt, Double.gt, h1, h2], h, le_refl _⟩
            · exact ⟨a, by simp [clamp, Double.lt, Double.gt, h1, h2],
                not_lt.1 h1, not_lt.1 h2⟩
        obtain ⟨y, hy, hy1, hy2⟩ := hin
        refine ⟨fun _ => ?_, fun hx => by simp at hx, ?_, ?_, ?_, ?_⟩
        · rw [hy]; simp [Double.le, hy1, hy2]
        · intro h1 h2
          simp only [Double.le, decide_eq_true_eq] at h1 h2
          exact hid a h1 h2
        · intro h1
          simp only [Double.lt, decide_eq_true_eq] at h1
          simp [clamp, Double.lt, h1]
        · intro h2
          simp only [Double.gt, Double.lt, decide_eq_true_eq] at h2
          have h1 : ¬ a < lo := not_lt.2 (le_trans h (le_of_lt h2))
          simp [clamp, Double.lt, Double.gt, h1, h2]
        · rw [hy]; exact hid y hy1 hy2

theorem clamp_spec_witness :
    Double.le (Double.ofRat 0) (Double.ofRat (999 / 1000)) = true
      ∧ clamp (Double.ofRat (3 / 2)) (Double.ofRat 0) (Double.ofRat (999 / 1000))
          = Double.ofRat (999 / 1000)
      ∧ clamp (Double.ofRat (-1)) (Double.ofRat 0) (Double.ofRat (999 / 1000))
          = Double.ofRat 0
      ∧ clamp (.num ⊤) (Double.ofRat 0) (Double.ofRat (999 / 1000))
          = Double.ofRat (999 / 1000) := by
  have hle : Double.le (Double.ofRat 0) (Double.ofRat (999 / 1000)) = true := by
    rw [Double.le_ofRat]; norm_num
  have h := clamp_spec (Double.ofRat (3 / 2)) _ _ hle
  have h' := clamp_spec (Double.ofRat (-1)) _ _ hle
  have h'' := clamp_spec (.num ⊤) _ _ hle
  refine ⟨hle, h.2.2.2.2.1 ?_, h'.2.2.2.1 ?_, h''.2.2.2.2.1 ?_⟩
  · rw [Double.gt, Double.lt_ofRat]; norm_num
  · rw [Double.lt_ofRat]; norm_num
  · rw [Double.gt, Double.lt_inf]

end RayTracing
